import Mathlib

/-!
# Etcd membership management of the RKE2 control-plane provider

A shallow embedding of `pkg/etcd/client_generator.go` and
`pkg/rke2/workload_cluster_etcd.go`, followed by the certificate lookup of
`pkg/secret/certificates.go` and the registry generation of
`pkg/rke2/registries.go`.

The Go code talks to three collaborators: the node inventory of the workload
cluster, the dialer that opens an etcd client for an endpoint, and the etcd store
behind an open client.  They are modelled as functions over an abstract world
state.  Every call to a collaborator is appended to a log, so that statements such
as "no dial is made" or "exactly one transfer is issued" are statements about the
log.  Dialling, listing nodes and listing members observe the world; only
`RemoveMember` and `MoveLeader` may change it.

Go results `(value, error)` are kept as pairs of options, `nil` being `none`.
-/

namespace Rke2

/-! ## Errors -/

/-- Go `error` values built or received by the modelled code. `text` is an
`errors.New` value, `errorf` an `errors.Errorf` value with its operands,
`nodeConnection` and `controlPlaneMinNodes` are the two package-level sentinels,
`wrap` is `errors.Wrap` and `aggregate` is a non-empty `kerrors.NewAggregate`. -/
inductive Err where
  | text (msg : String)
  | errorf (format : String) (args : List String)
  | nodeConnection
  | controlPlaneMinNodes
  | wrap (cause : Err) (msg : String)
  | aggregate (errs : List Err)

/-- The sentinel `errEtcdNodeConnection` of package `etcd`. -/
def errEtcdNodeConnection : Err := Err.nodeConnection

/-- The sentinel `ErrControlPlaneMinNodes` of package `rke2`. -/
def ErrControlPlaneMinNodes : Err := Err.controlPlaneMinNodes

/-- The function `errors.Wrap`: a nil error stays nil. -/
def Wrap : Option Err → String → Option Err
  | none, _ => none
  | some e, msg => some (Err.wrap e msg)

/-- The function `kerrors.NewAggregate` on a list of non-nil errors: nil for the
empty list. -/
def NewAggregate (errlist : List Err) : Option Err :=
  if errlist.length = 0 then none else some (Err.aggregate errlist)

mutual
/-- The test `errors.Is(err, errEtcdNodeConnection)`: it follows `Unwrap` through
wrapped errors and visits every entry of an aggregate. -/
def isEtcdNodeConnection : Err → Bool
  | Err.text _ => false
  | Err.errorf _ _ => false
  | Err.nodeConnection => true
  | Err.controlPlaneMinNodes => false
  | Err.wrap cause _ => isEtcdNodeConnection cause
  | Err.aggregate errs => anyIsEtcdNodeConnection errs
/-- The visit of an aggregate by `errors.Is`. -/
def anyIsEtcdNodeConnection : List Err → Bool
  | [] => false
  | e :: es => isEtcdNodeConnection e || anyIsEtcdNodeConnection es
end

/-! ## Data model -/

/-- An etcd member as the store reports it. -/
structure Member where
  ID : Nat
  Name : String
  deriving DecidableEq, Repr

/-- An etcd client. `LeaderID` is the leader observed when the client was
created. `handle` stands for the identity of the Go pointer: the number of log
entries at the time of creation. `Endpoint` is the endpoint that was dialled. -/
structure Client where
  handle : Nat
  Endpoint : String
  LeaderID : Nat
  deriving DecidableEq, Repr

/-- The field `Name` of a machine's `Status.NodeRef`. -/
structure ObjectReference where
  Name : String
  deriving DecidableEq, Repr

/-- The field `Status` of a machine. -/
structure MachineStatus where
  NodeRef : Option ObjectReference
  deriving DecidableEq, Repr

/-- A `clusterv1.Machine`, reduced to the field the code reads. -/
structure Machine where
  Status : MachineStatus
  deriving DecidableEq, Repr

/-- One entry of the log. The first six are calls to collaborators with what
they returned; `removeMemberForNode` marks a return of that function with its
argument and result; `nilDereference` marks a use of a nil client, where Go
panics. -/
inductive Event where
  | getControlPlaneNodes
  | createClient (endpoint : String) (client : Option Client)
  | Members (client : Client) (result : Option (List Member))
  | RemoveMember (client : Client) (id : Nat)
  | MoveLeader (client : Client) (id : Nat)
  | Close (client : Client)
  | removeMemberForNode (name : String) (result : Option Err)
  | nilDereference

/-- The world state together with the log of calls made so far. -/
structure State (σ : Type) where
  world : σ
  log : List Event

/-- Append one entry to the log. -/
def State.record {σ : Type} (s : State σ) (e : Event) : State σ :=
  { world := s.world, log := s.log ++ [e] }

/-- Behaviour of the methods of an open client against the etcd store. -/
structure Etcd (σ : Type) where
  Members : σ → Client → Except Err (List Member)
  RemoveMember : σ → Client → Nat → Option Err × σ
  MoveLeader : σ → Client → Nat → Option Err × σ

/-- The type `ClientGenerator`: `createClient` dials an endpoint and, when it
connects, reports the leader identifier seen on that connection. -/
structure ClientGenerator (σ : Type) where
  createClient : σ → String → Except Err Nat
  etcd : Etcd σ

/-- The type `Workload`, reduced to what the etcd code uses. `minimalNodeCount`
is a package constant declared outside the modelled files and is kept as a
parameter. -/
structure Workload (σ : Type) where
  getControlPlaneNodes : σ → Except Err (List String)
  etcdClientGenerator : Option (ClientGenerator σ)
  minimalNodeCount : Nat

/-! ## Primitive calls -/

/-- The function `strings.Contains`. -/
def stringsContains (s substr : String) : Bool :=
  s.toList.tails.any (fun t => substr.toList.isPrefixOf t)

/-- Modelled from the spec: `etcdutil.MemberForName` is declared outside the
modelled files. The spec resolves the member of a node "by matching the node name
against member names (substring match)"; the first such member is returned. -/
def MemberForName (members : List Member) (name : String) : Option Member :=
  members.find? (fun m => stringsContains m.Name name)

/-- A call of `createClient`, logged with the client it produced. -/
def ClientGenerator.dial {σ : Type} (c : ClientGenerator σ) (endpoint : String)
    (s : State σ) : Except Err Client × State σ :=
  match c.createClient s.world endpoint with
  | Except.error err => (Except.error err, s.record (Event.createClient endpoint none))
  | Except.ok leader =>
    let client : Client := { handle := s.log.length, Endpoint := endpoint, LeaderID := leader }
    (Except.ok client, s.record (Event.createClient endpoint (some client)))

/-- A call of `client.Members`. -/
def Etcd.members {σ : Type} (e : Etcd σ) (client : Client) (s : State σ) :
    Except Err (List Member) × State σ :=
  match e.Members s.world client with
  | Except.error err => (Except.error err, s.record (Event.Members client none))
  | Except.ok ms => (Except.ok ms, s.record (Event.Members client (some ms)))

/-- A call of `client.RemoveMember`. -/
def Etcd.removeMember {σ : Type} (e : Etcd σ) (client : Client) (id : Nat) (s : State σ) :
    Option Err × State σ :=
  ((e.RemoveMember s.world client id).1,
    { world := (e.RemoveMember s.world client id).2,
      log := s.log ++ [Event.RemoveMember client id] })

/-- A call of `client.MoveLeader`. -/
def Etcd.moveLeader {σ : Type} (e : Etcd σ) (client : Client) (id : Nat) (s : State σ) :
    Option Err × State σ :=
  ((e.MoveLeader s.world client id).1,
    { world := (e.MoveLeader s.world client id).2,
      log := s.log ++ [Event.MoveLeader client id] })

/-- A call of `client.Close`; its result is discarded by the code. -/
def Client.Close {σ : Type} (client : Client) (s : State σ) : State σ :=
  s.record (Event.Close client)

/-- A call of `w.getControlPlaneNodes`, returning the names of the items. -/
def Workload.nodes {σ : Type} (w : Workload σ) (s : State σ) :
    Except Err (List String) × State σ :=
  (w.getControlPlaneNodes s.world, s.record Event.getControlPlaneNodes)

/-- The value returned where Go would panic on a nil client. -/
def nilDereferenceErr : Err := Err.text "invalid memory address or nil pointer dereference"

/-! ## `client_generator.go` -/

/-- The function `staticPodName`. -/
def staticPodName (component nodeName : String) : String :=
  component ++ "-" ++ nodeName

/-- The loop of `ForFirstAvailableNode` over the remaining candidates, `errs`
being the errors collected so far. -/
def ClientGenerator.firstAvailableLoop {σ : Type} (c : ClientGenerator σ) :
    List String → List Err → State σ → (Option Client × Option Err) × State σ
  | [], errs, s =>
    ((none, Wrap (NewAggregate errs) "could not establish a connection to any etcd node"), s)
  | name :: rest, errs, s =>
    match c.dial (staticPodName "etcd" name) s with
    | (Except.error err, s1) => ClientGenerator.firstAvailableLoop c rest (errs ++ [err]) s1
    | (Except.ok client, s1) => ((some client, none), s1)

/-- The method `ClientGenerator.ForFirstAvailableNode`. -/
def ClientGenerator.ForFirstAvailableNode {σ : Type} (c : ClientGenerator σ)
    (nodeNames : List String) (s : State σ) : (Option Client × Option Err) × State σ :=
  if nodeNames.length = 0 then
    ((none, some (Err.text
      "invalid argument: forLeader can't be called with an empty list of nodes")), s)
  else
    c.firstAvailableLoop nodeNames [] s

/-- The part of `getLeaderClient` after the temporary client is open and its
`Close` is deferred. -/
def ClientGenerator.getLeaderClientBody {σ : Type} (c : ClientGenerator σ) (client : Client)
    (nodeNames : List String) (s : State σ) : (Option Client × Option Err) × State σ :=
  match c.etcd.members client s with
  | (Except.error err, s1) => ((none, NewAggregate [err, errEtcdNodeConnection]), s1)
  | (Except.ok members, s1) =>
    match members.find? (fun member => member.ID == client.LeaderID) with
    | some leaderMember =>
      let nodeName : String :=
        match nodeNames.find? (fun name => stringsContains leaderMember.Name name) with
        | some name => name
        | none => ""
      if nodeName = "" then
        ((none, some (Err.errorf
          "etcd leader is reported as %x with name %q, but we couldn't find a corresponding Node in the cluster"
          [toString leaderMember.ID, leaderMember.Name])), s1)
      else
        c.ForFirstAvailableNode [nodeName] s1
    | none =>
      ((none, some (Err.errorf
        "etcd leader is reported as %x, but we couldn't find any matching member"
        [toString client.LeaderID])), s1)

/-- The method `ClientGenerator.getLeaderClient`. -/
def ClientGenerator.getLeaderClient {σ : Type} (c : ClientGenerator σ) (nodeName : String)
    (nodeNames : List String) (s : State σ) : (Option Client × Option Err) × State σ :=
  match c.ForFirstAvailableNode [nodeName] s with
  | ((_, some err), s1) => ((none, NewAggregate [err, errEtcdNodeConnection]), s1)
  | ((none, none), s1) => ((none, some nilDereferenceErr), s1.record Event.nilDereference)
  | ((some client, none), s1) =>
    ((c.getLeaderClientBody client nodeNames s1).1,
      client.Close (c.getLeaderClientBody client nodeNames s1).2)

/-- The loop of `ForLeader` over the remaining candidates; `nodeNames` is the
whole candidate list. -/
def ClientGenerator.leaderLoop {σ : Type} (c : ClientGenerator σ) (nodeNames : List String) :
    List String → List Err → State σ → (Option Client × Option Err) × State σ
  | [], errs, s =>
    ((none, Wrap (NewAggregate errs) "could not establish a connection to the etcd leader"), s)
  | nodeName :: rest, errs, s =>
    match c.getLeaderClient nodeName nodeNames s with
    | ((_, some err), s1) =>
      if isEtcdNodeConnection err then
        ClientGenerator.leaderLoop c nodeNames rest (errs ++ [err]) s1
      else
        ((none, some err), s1)
    | ((cl, none), s1) => ((cl, none), s1)

/-- The method `ClientGenerator.ForLeader`. -/
def ClientGenerator.ForLeader {σ : Type} (c : ClientGenerator σ) (nodeNames : List String)
    (s : State σ) : (Option Client × Option Err) × State σ :=
  if nodeNames.length = 0 then
    ((none, some (Err.text
      "invalid argument: forLeader can't be called with an empty list of nodes")), s)
  else
    c.leaderLoop nodeNames nodeNames [] s

/-! ## `workload_cluster_etcd.go` -/

/-- The part of `removeMemberForNode` after the client is open and its `Close`
is deferred. -/
def Workload.removeMemberBody {σ : Type} (gen : ClientGenerator σ) (etcdClient : Client)
    (name : String) (s : State σ) : Option Err × State σ :=
  match gen.etcd.members etcdClient s with
  | (Except.error err, s1) =>
    (Wrap (some err) "failed to list etcd members using etcd client", s1)
  | (Except.ok members, s1) =>
    match MemberForName members name with
    | none => (none, s1)
    | some member =>
      match gen.etcd.removeMember etcdClient member.ID s1 with
      | (some err, s2) => (Wrap (some err) "failed to remove member from etcd", s2)
      | (none, s2) => (none, s2)

/-- The method `Workload.removeMemberForNode`, before its return is logged. -/
def Workload.removeMemberCore {σ : Type} (w : Workload σ) (name : String) (s : State σ) :
    Option Err × State σ :=
  match w.nodes s with
  | (Except.error err, s1) => (some err, s1)
  | (Except.ok controlPlaneNodes, s1) =>
    if controlPlaneNodes.length < w.minimalNodeCount then
      (some ErrControlPlaneMinNodes, s1)
    else
      match w.etcdClientGenerator with
      | none => (none, s1)
      | some gen =>
        let remainingNodes := controlPlaneNodes.filter (fun n => !stringsContains name n)
        match gen.ForFirstAvailableNode remainingNodes s1 with
        | ((_, some err), s2) => (Wrap (some err) "failed to create etcd client", s2)
        | ((none, none), s2) => (some nilDereferenceErr, s2.record Event.nilDereference)
        | ((some etcdClient, none), s2) =>
          ((Workload.removeMemberBody gen etcdClient name s2).1,
            etcdClient.Close (Workload.removeMemberBody gen etcdClient name s2).2)

/-- The method `Workload.removeMemberForNode`; its return is logged with the
name and the result. -/
def Workload.removeMemberForNode {σ : Type} (w : Workload σ) (name : String) (s : State σ) :
    Option Err × State σ :=
  ((w.removeMemberCore name s).1,
    (w.removeMemberCore name s).2.record
      (Event.removeMemberForNode name (w.removeMemberCore name s).1))

/-- The method `Workload.RemoveEtcdMemberForMachine`. -/
def Workload.RemoveEtcdMemberForMachine {σ : Type} (w : Workload σ) (machine : Option Machine)
    (s : State σ) : Option Err × State σ :=
  match machine with
  | none => (none, s)
  | some m =>
    match m.Status.NodeRef with
    | none => (none, s)
    | some nodeRef => w.removeMemberForNode nodeRef.Name s

/-- The loop `loopmembers` of `reconcileEtcdMember` over the remaining members,
with the names and errors collected so far. -/
def Workload.reconcileLoop {σ : Type} (w : Workload σ) (nodeNames : List String) :
    List Member → List String → List Err → State σ → (List String × List Err) × State σ
  | [], removedMembers, errs, s => ((removedMembers, errs), s)
  | member :: rest, removedMembers, errs, s =>
    if member.Name = "" then
      Workload.reconcileLoop w nodeNames rest removedMembers errs s
    else if nodeNames.any (fun nodeName => stringsContains member.Name nodeName) then
      Workload.reconcileLoop w nodeNames rest removedMembers errs s
    else
      match w.removeMemberForNode member.Name s with
      | (some err, s1) =>
        Workload.reconcileLoop w nodeNames rest (removedMembers ++ [member.Name]) (errs ++ [err]) s1
      | (none, s1) =>
        Workload.reconcileLoop w nodeNames rest (removedMembers ++ [member.Name]) errs s1

/-- The part of `reconcileEtcdMember` after the client is open and its `Close`
is deferred. -/
def Workload.reconcileBody {σ : Type} (w : Workload σ) (gen : ClientGenerator σ)
    (etcdClient : Client) (nodeNames : List String) (s : State σ) :
    (List String × List Err) × State σ :=
  match gen.etcd.members etcdClient s with
  | (Except.error _, s1) => (([], []), s1)
  | (Except.ok members, s1) => w.reconcileLoop nodeNames members [] [] s1

/-- The method `Workload.reconcileEtcdMember`. `gen` is the receiver's
`etcdClientGenerator`, which its only caller has checked to be non-nil; the unused
version argument is left out. -/
def Workload.reconcileEtcdMember {σ : Type} (w : Workload σ) (gen : ClientGenerator σ)
    (nodeNames : List String) (nodeName : String) (s : State σ) :
    (List String × List Err) × State σ :=
  match gen.ForFirstAvailableNode [nodeName] s with
  | ((_, some _), s1) => (([], []), s1)
  | ((none, none), s1) => (([], [nilDereferenceErr]), s1.record Event.nilDereference)
  | ((some etcdClient, none), s1) =>
    ((w.reconcileBody gen etcdClient nodeNames s1).1,
      etcdClient.Close (w.reconcileBody gen etcdClient nodeNames s1).2)

/-- The loop of `ReconcileEtcdMembers` over the remaining node names;
`nodeNames` is the whole list. -/
def Workload.reconcileAll {σ : Type} (w : Workload σ) (gen : ClientGenerator σ)
    (nodeNames : List String) :
    List String → List String → List Err → State σ → (List String × List Err) × State σ
  | [], allRemovedMembers, allErrs, s => ((allRemovedMembers, allErrs), s)
  | nodeName :: rest, allRemovedMembers, allErrs, s =>
    Workload.reconcileAll w gen nodeNames rest
      (allRemovedMembers ++ (w.reconcileEtcdMember gen nodeNames nodeName s).1.1)
      (allErrs ++ (w.reconcileEtcdMember gen nodeNames nodeName s).1.2)
      (w.reconcileEtcdMember gen nodeNames nodeName s).2

/-- The method `Workload.ReconcileEtcdMembers`; the unused version argument is
left out. -/
def Workload.ReconcileEtcdMembers {σ : Type} (w : Workload σ) (nodeNames : List String)
    (s : State σ) : (List String × Option Err) × State σ :=
  match w.etcdClientGenerator with
  | none => (([], none), s)
  | some gen =>
    (((w.reconcileAll gen nodeNames nodeNames [] [] s).1.1,
      NewAggregate (w.reconcileAll gen nodeNames nodeNames [] [] s).1.2),
      (w.reconcileAll gen nodeNames nodeNames [] [] s).2)

/-- The part of `ForwardEtcdLeadership` after the leader client is open and its
`Close` is deferred. -/
def Workload.forwardBody {σ : Type} (gen : ClientGenerator σ) (etcdClient : Client)
    (machineNode candidateNode : String) (s : State σ) : Option Err × State σ :=
  match gen.etcd.members etcdClient s with
  | (Except.error err, s1) =>
    (Wrap (some err) "failed to list etcd members using etcd client", s1)
  | (Except.ok members, s1) =>
    match MemberForName members machineNode with
    | none => (none, s1)
    | some currentMember =>
      if currentMember.ID ≠ etcdClient.LeaderID then
        (none, s1)
      else
        match MemberForName members candidateNode with
        | none =>
          (some (Err.errorf "failed to get etcd member from node %q" [candidateNode]), s1)
        | some nextLeader =>
          match gen.etcd.moveLeader etcdClient nextLeader.ID s1 with
          | (some err, s2) => (Wrap (some err) "failed to move leader", s2)
          | (none, s2) => (none, s2)

/-- The method `Workload.ForwardEtcdLeadership`. -/
def Workload.ForwardEtcdLeadership {σ : Type} (w : Workload σ)
    (machine leaderCandidate : Option Machine) (s : State σ) : Option Err × State σ :=
  match machine.bind (fun m => m.Status.NodeRef) with
  | none => (none, s)
  | some machineRef =>
    match leaderCandidate with
    | none => (some (Err.text "leader candidate cannot be nil"), s)
    | some candidate =>
      match candidate.Status.NodeRef with
      | none => (some (Err.text "leader has no node reference"), s)
      | some candidateRef =>
        match w.etcdClientGenerator with
        | none => (none, s)
        | some gen =>
          match w.nodes s with
          | (Except.error err, s1) => (Wrap (some err) "failed to list control plane nodes", s1)
          | (Except.ok nodeNames, s1) =>
            match gen.ForLeader nodeNames s1 with
            | ((_, some err), s2) => (Wrap (some err) "failed to create etcd client", s2)
            | ((none, none), s2) => (some nilDereferenceErr, s2.record Event.nilDereference)
            | ((some etcdClient, none), s2) =>
              ((Workload.forwardBody gen etcdClient machineRef.Name candidateRef.Name s2).1,
                etcdClient.Close
                  (Workload.forwardBody gen etcdClient machineRef.Name candidateRef.Name s2).2)

/-- The part of `EtcdMembers` after the leader client is open and its `Close` is
deferred. -/
def Workload.etcdMembersBody {σ : Type} (gen : ClientGenerator σ) (etcdClient : Client)
    (s : State σ) : (Option (List String) × Option Err) × State σ :=
  match gen.etcd.members etcdClient s with
  | (Except.error err, s1) =>
    ((none, Wrap (some err) "failed to list etcd members using etcd client"), s1)
  | (Except.ok members, s1) => ((some (members.map (fun member => member.Name)), none), s1)

/-- The method `Workload.EtcdMembers`. -/
def Workload.EtcdMembers {σ : Type} (w : Workload σ) (s : State σ) :
    (Option (List String) × Option Err) × State σ :=
  match w.etcdClientGenerator with
  | none => ((some [], none), s)
  | some gen =>
    match w.nodes s with
    | (Except.error err, s1) => ((none, Wrap (some err) "failed to list control plane nodes"), s1)
    | (Except.ok nodeNames, s1) =>
      match gen.ForLeader nodeNames s1 with
      | ((_, some err), s2) => ((none, Wrap (some err) "failed to create etcd client"), s2)
      | ((none, none), s2) => ((none, some nilDereferenceErr), s2.record Event.nilDereference)
      | ((some etcdClient, none), s2) =>
        ((Workload.etcdMembersBody gen etcdClient s2).1,
          etcdClient.Close (Workload.etcdMembersBody gen etcdClient s2).2)

/-! ## A test double of the cluster

A store with a node inventory, a member list and a leader, in which listed
endpoints are unreachable and removals and transfers are applied. -/

/-- The world of the test double. -/
structure Fake where
  nodes : List String
  members : List Member
  leader : Nat
  down : List String
  deriving DecidableEq, Repr

/-- The etcd store of the test double: it lists `members`, removes a member by
identifier and moves the leader, always with success. -/
def fakeEtcd : Etcd Fake where
  Members := fun f _ => Except.ok f.members
  RemoveMember := fun f _ id =>
    (none, { f with members := f.members.filter (fun m => m.ID != id) })
  MoveLeader := fun f _ id => (none, { f with leader := id })

/-- The generator of the test double: an endpoint listed in `down` refuses the
connection, every other endpoint connects. -/
def fakeGenerator : ClientGenerator Fake where
  createClient := fun f endpoint =>
    if endpoint ∈ f.down then Except.error (Err.text "connection refused")
    else Except.ok f.leader
  etcd := fakeEtcd

/-- The workload of the test double with the given minimum node count. -/
def fakeWorkload (minimum : Nat) : Workload Fake where
  getControlPlaneNodes := fun f => Except.ok f.nodes
  etcdClientGenerator := some fakeGenerator
  minimalNodeCount := minimum

/-- The workload of the test double without a client generator. -/
def bareWorkload (minimum : Nat) : Workload Fake where
  getControlPlaneNodes := fun f => Except.ok f.nodes
  etcdClientGenerator := none
  minimalNodeCount := minimum

/-- The scenario of the spec: three nodes, three members, leader 2. -/
def scenario : Fake where
  nodes := ["cp-1", "cp-2", "cp-3"]
  members := [⟨1, "etcd-cp-1"⟩, ⟨2, "etcd-cp-2"⟩, ⟨3, "etcd-cp-3"⟩]
  leader := 2
  down := []

/-- The log entries that mark a return of `removeMemberForNode`, as pairs of
name and result. -/
def removalAttempts : List Event → List (String × Option Err)
  | [] => []
  | Event.removeMemberForNode name result :: rest => (name, result) :: removalAttempts rest
  | _ :: rest => removalAttempts rest

/-- The scenario of the spec with the endpoint of `cp-1` unreachable. -/
def firstDown : Fake where
  nodes := ["cp-1", "cp-2", "cp-3"]
  members := [⟨1, "etcd-cp-1"⟩, ⟨2, "etcd-cp-2"⟩, ⟨3, "etcd-cp-3"⟩]
  leader := 2
  down := ["etcd-cp-1"]

/-- A cluster whose only control-plane node is `n1`. -/
def oneNode : Fake where
  nodes := ["n1"]
  members := [⟨1, "etcd-n1"⟩]
  leader := 1
  down := []

/-- A cluster with the control-plane nodes `n1` and `n2`. -/
def twoNodes : Fake where
  nodes := ["n1", "n2"]
  members := [⟨1, "etcd-n1"⟩, ⟨2, "etcd-n2"⟩]
  leader := 2
  down := []

/-- The second scenario of the spec: a fourth member `etcd-cp-4` without a live
node, next to a member that has not been named yet. -/
def withStale : Fake where
  nodes := ["cp-1", "cp-2", "cp-3"]
  members := [⟨1, "etcd-cp-1"⟩, ⟨2, "etcd-cp-2"⟩, ⟨5, ""⟩, ⟨3, "etcd-cp-3"⟩, ⟨4, "etcd-cp-4"⟩]
  leader := 2
  down := []

/-- The world `withStale` once member 4 has been removed. -/
def afterRemoval : Fake where
  nodes := ["cp-1", "cp-2", "cp-3"]
  members := [⟨1, "etcd-cp-1"⟩, ⟨2, "etcd-cp-2"⟩, ⟨5, ""⟩, ⟨3, "etcd-cp-3"⟩]
  leader := 2
  down := []

/-- The log entries that are calls changing the store: `RemoveMember` and
`MoveLeader`. -/
def mutations : List Event → List Event
  | [] => []
  | Event.RemoveMember client id :: rest => Event.RemoveMember client id :: mutations rest
  | Event.MoveLeader client id :: rest => Event.MoveLeader client id :: mutations rest
  | _ :: rest => mutations rest

/-- The state `t` comes from `s` without a change of the world and without a
call that changes the store. -/
def Quiet {σ : Type} (s t : State σ) : Prop :=
  t.world = s.world ∧ mutations t.log = mutations s.log

/-- The scenario of the spec with every endpoint unreachable. -/
def allDown : Fake where
  nodes := ["cp-1", "cp-2", "cp-3"]
  members := [⟨1, "etcd-cp-1"⟩, ⟨2, "etcd-cp-2"⟩, ⟨3, "etcd-cp-3"⟩]
  leader := 2
  down := ["etcd-cp-1", "etcd-cp-2", "etcd-cp-3"]

/-- The error `getLeaderClient` returns for a candidate whose dial failed with
`err`: the aggregate of the wrapped dial failure and `errEtcdNodeConnection`. -/
def connectionFailure (err : Err) : Err :=
  Err.aggregate
    [Err.wrap (Err.aggregate [err]) "could not establish a connection to any etcd node",
      errEtcdNodeConnection]

/-- The log of `t` continues the log of `s`. -/
def Grows {σ : Type} (s t : State σ) : Prop :=
  s.log <+: t.log

/-- A generator over the test double in which the endpoint of `cp-1` reports
leader 9, an identifier no member has, while every other endpoint reports the
leader of the store. -/
def splitGenerator : ClientGenerator Fake where
  createClient := fun f endpoint =>
    if endpoint = "etcd-cp-1" then Except.ok 9 else Except.ok f.leader
  etcd := fakeEtcd

/-- A store whose reported leader 9 is not among its members. -/
def lostLeader : Fake where
  nodes := ["cp-1", "cp-2", "cp-3"]
  members := [⟨1, "etcd-cp-1"⟩, ⟨2, "etcd-cp-2"⟩, ⟨3, "etcd-cp-3"⟩]
  leader := 9
  down := []

/-- A store whose leader, member 2, is named after a node that is not in the
inventory. -/
def orphanLeader : Fake where
  nodes := ["cp-1", "cp-2", "cp-3"]
  members := [⟨1, "etcd-cp-1"⟩, ⟨2, "etcd-cp-9"⟩, ⟨3, "etcd-cp-3"⟩]
  leader := 2
  down := []

/-- The endpoints of the `createClient` calls of a log, in order. -/
def dialled : List Event → List String
  | [] => []
  | Event.createClient endpoint _ :: rest => endpoint :: dialled rest
  | _ :: rest => dialled rest

/-- The scenario of the spec with the endpoint of the leader's node `cp-2`
unreachable. -/
def leaderDown : Fake where
  nodes := ["cp-1", "cp-2", "cp-3"]
  members := [⟨1, "etcd-cp-1"⟩, ⟨2, "etcd-cp-2"⟩, ⟨3, "etcd-cp-3"⟩]
  leader := 2
  down := ["etcd-cp-2"]

/-- An inventory in which the name `cp-1` is a substring of the name `cp-10`. -/
def overlapping : Fake where
  nodes := ["cp-1", "cp-10"]
  members := [⟨1, "etcd-cp-1"⟩, ⟨10, "etcd-cp-10"⟩]
  leader := 1
  down := []

/-- The world `withStale` with the endpoint of `cp-1` unreachable. -/
def staleFirstDown : Fake where
  nodes := ["cp-1", "cp-2", "cp-3"]
  members := [⟨1, "etcd-cp-1"⟩, ⟨2, "etcd-cp-2"⟩, ⟨5, ""⟩, ⟨3, "etcd-cp-3"⟩, ⟨4, "etcd-cp-4"⟩]
  leader := 2
  down := ["etcd-cp-1"]

/-- An etcd store over the test double that refuses every removal and every
transfer and stays as it is. -/
def stuckEtcd : Etcd Fake where
  Members := fun f _ => Except.ok f.members
  RemoveMember := fun f _ _ => (some (Err.text "etcdserver: unhealthy cluster"), f)
  MoveLeader := fun f _ _ => (some (Err.text "etcdserver: unhealthy cluster"), f)

/-- The generator of the test double in front of the store that refuses changes. -/
def stuckGenerator : ClientGenerator Fake where
  createClient := fun f endpoint =>
    if endpoint ∈ f.down then Except.error (Err.text "connection refused")
    else Except.ok f.leader
  etcd := stuckEtcd

/-- The workload of the test double in front of the store that refuses changes. -/
def stuckWorkload (minimum : Nat) : Workload Fake where
  getControlPlaneNodes := fun f => Except.ok f.nodes
  etcdClientGenerator := some stuckGenerator
  minimalNodeCount := minimum

/-- The list `l` repeated `k` times. -/
def repeatList (k : Nat) (l : List String) : List String :=
  match k with
  | 0 => []
  | k + 1 => l ++ repeatList k l

/-- Whether the log entry `e` is in order after the entry `prev`: a
`RemoveMember` or `MoveLeader` call on a client must directly follow a successful
`Members` call on the same client whose list holds the targeted identifier; every
other entry is in order. -/
def licensed (prev : Option Event) (e : Event) : Bool :=
  match e with
  | Event.RemoveMember client id =>
    match prev with
    | some (Event.Members fetcher (some ms)) =>
      decide (fetcher = client) && ms.any (fun m => m.ID == id)
    | _ => false
  | Event.MoveLeader client id =>
    match prev with
    | some (Event.Members fetcher (some ms)) =>
      decide (fetcher = client) && ms.any (fun m => m.ID == id)
    | _ => false
  | _ => true

/-- Whether every entry of a list of log entries is in order after the entry
before it, `prev` being the entry before the first one. -/
def freshActions : Option Event → List Event → Bool
  | _, [] => true
  | prev, e :: rest => licensed prev e && freshActions (some e) rest

/-- The state `t` continues the log of `s` with entries that are in order
whatever came before them. -/
def FreshRun {σ : Type} (s t : State σ) : Prop :=
  ∃ ext : List Event, t.log = s.log ++ ext ∧ ∀ prev, freshActions prev ext = true

/-- The clients left open by a list of log entries, starting from the open
clients `acc`: a successful `createClient` opens its client and `Close` releases
it. The result is `none` when a `Close` names a client that is not open, that is,
one that was never obtained or is already closed. -/
def track : List Event → List Client → Option (List Client)
  | [], acc => some acc
  | Event.createClient _ (some client) :: rest, acc => track rest (acc ++ [client])
  | Event.Close client :: rest, acc =>
    if client ∈ acc then track rest (acc.erase client) else none
  | _ :: rest, acc => track rest acc

/-- The state `t` continues the log of `s` with entries that close only clients
that are open and leave exactly the clients `r` open on top of the ones open
before; the clients of `r` were created by those entries. -/
def Tracked {σ : Type} (s t : State σ) (r : List Client) : Prop :=
  (∃ ext : List Event, t.log = s.log ++ ext ∧
    ∀ acc : List Client, (∀ a ∈ acc, a.handle < s.log.length) →
      track ext acc = some (acc ++ r)) ∧
  ∀ c ∈ r, s.log.length ≤ c.handle ∧ c.handle < t.log.length

/-- The identifiers of the `RemoveMember` calls of a log, in order. -/
def removedIDs : List Event → List Nat
  | [] => []
  | Event.RemoveMember _ id :: rest => id :: removedIDs rest
  | _ :: rest => removedIDs rest

/-- Whether `ReconcileEtcdMembers` treats the member `m` as stale for the live
node names `nodeNames`: its name is not empty and contains none of them. -/
def isStale (nodeNames : List String) (m : Member) : Bool :=
  decide (m.Name ≠ "") && !nodeNames.any (fun n => stringsContains m.Name n)

/-- The second scenario of the spec: the three nodes and members of `scenario`
and a fourth member `etcd-cp-4` without a live node. -/
def fourMembers : Fake where
  nodes := ["cp-1", "cp-2", "cp-3"]
  members := [⟨1, "etcd-cp-1"⟩, ⟨2, "etcd-cp-2"⟩, ⟨3, "etcd-cp-3"⟩, ⟨4, "etcd-cp-4"⟩]
  leader := 2
  down := []

/-! ## Kubernetes objects and the API reader -/

/-- Go `error` values met by the code that reads secrets: `api` is an error
returned by the API reader, with whether `apierrors.IsNotFound` holds of it;
`withMessage`, `withStack` and `errorf` are `errors.WithMessage`,
`errors.WithStack` and `errors.Errorf` of `github.com/pkg/errors`. -/
inductive KubeErr where
  | api (notFound : Bool) (message : String)
  | withMessage (cause : KubeErr) (message : String)
  | withStack (cause : KubeErr)
  | errorf (format : String) (args : List String)
  deriving DecidableEq, Repr

/-- The test `apierrors.IsNotFound`. -/
def IsNotFound : KubeErr → Bool
  | KubeErr.api notFound _ => notFound
  | KubeErr.withMessage cause _ => IsNotFound cause
  | KubeErr.withStack cause => IsNotFound cause
  | KubeErr.errorf _ _ => false

/-- The type `types.NamespacedName`, which is also `client.ObjectKey`. -/
structure NamespacedName where
  Namespace : String
  Name : String
  deriving DecidableEq, Repr

/-- A `corev1.Secret`, reduced to its `Data`: a Go map from entry names to byte
slices, kept as an association list with the byte slices as strings. A stored
value is never nil, so `Data[k] != nil` holds exactly when `k` is a key. -/
structure Secret where
  Data : List (String × String)
  deriving DecidableEq, Repr

/-- The method `Get` of a `client.Reader`, for secrets: the secret stored under
the key, or the error of the call. -/
abbrev Reader := NamespacedName → Except KubeErr Secret

/-- Test double of the API reader: a list of stored secrets. A key that is not
stored gives a not-found error. -/
def storeReader (store : List (NamespacedName × Secret)) : Reader :=
  fun key =>
    match store.lookup key with
    | some s => Except.ok s
    | none => Except.error (KubeErr.api true "not found")

/-! ## Certificates (`pkg/secret/certificates.go`) -/

/-- The type `Purpose`. -/
abbrev Purpose := String

/-- The constant `ClusterCA`. -/
def ClusterCA : Purpose := "ca"

/-- The constant `ClientClusterCA`. -/
def ClientClusterCA : Purpose := "cca"

/-- The constant `EtcdCA`. -/
def EtcdCA : Purpose := "peer-etcd"

/-- The constant `EtcdServerCA`. -/
def EtcdServerCA : Purpose := "etcd"

/-- The constant `TLSKeyDataName`. -/
def TLSKeyDataName : String := "tls.key"

/-- The constant `TLSCrtDataName`. -/
def TLSCrtDataName : String := "tls.crt"

/-- The constant `DefaultCertificatesDir`. -/
def DefaultCertificatesDir : String := "/var/lib/rancher/rke2/server/tls"

/-- The constant `DefaultETCDCertificatesDir`. -/
def DefaultETCDCertificatesDir : String := DefaultCertificatesDir ++ "/etcd"

/-- A `certs.KeyPair`. -/
structure KeyPair where
  Cert : String
  Key : String
  deriving DecidableEq, Repr

/-- The type `ManagedCertificate`. A nil `KeyPair` is `none`. -/
structure ManagedCertificate where
  External : Bool := false
  Generated : Bool := false
  Purpose : String
  KeyPair : Option KeyPair := none
  CertFile : String := ""
  KeyFile : String := ""

/-- The type `ExternalCertificate`, which embeds its own reader. -/
structure ExternalCertificate where
  Reader : Reader
  Purpose : String
  Generated : Bool := false
  KeyPair : Option KeyPair := none

/-- The interface `Certificate` with its two implementations. -/
inductive Certificate where
  | managed (c : ManagedCertificate)
  | external (c : ExternalCertificate)

/-- The function `Name`: `fmt.Sprintf("%s-%s", cluster, suffix)`. -/
def Name (cluster : String) (suffix : Purpose) : String :=
  cluster ++ "-" ++ suffix

/-- The method `GetPurpose` of a managed certificate. -/
def ManagedCertificate.GetPurpose (c : ManagedCertificate) : Rke2.Purpose := c.Purpose

/-- The method `IsExternal` of a managed certificate. -/
def ManagedCertificate.IsExternal (c : ManagedCertificate) : Bool := c.External

/-- The method `GetPurpose` of an external certificate. -/
def ExternalCertificate.GetPurpose (c : ExternalCertificate) : Rke2.Purpose := c.Purpose

/-- The method `IsExternal` of an external certificate: always true. -/
def ExternalCertificate.IsExternal (_ : ExternalCertificate) : Bool := true

/-- The method `Lookup` of a managed certificate: the secret named after the
cluster and the purpose. A secret that is not found is an error for an external
certificate and `(nil, nil)` otherwise. -/
def ManagedCertificate.Lookup (c : ManagedCertificate) (ctrlclient : Reader)
    (clusterName : NamespacedName) : Option Secret × Option KubeErr :=
  let key : NamespacedName :=
    { Name := Name clusterName.Name c.GetPurpose, Namespace := clusterName.Namespace }
  match ctrlclient key with
  | Except.error err =>
    if IsNotFound err then
      if c.IsExternal then
        (none, some (KubeErr.withMessage err "external certificate not found"))
      else
        (none, none)
    else
      (none, some (KubeErr.withStack err))
  | Except.ok s => (some s, none)

/-- The method `Lookup` of an external certificate: it reads through its own
reader, under a fixed key, and ignores the two arguments. -/
def ExternalCertificate.Lookup (c : ExternalCertificate) (_ : Rke2.Reader)
    (_ : NamespacedName) :
    Option Secret × Option KubeErr :=
  let key : NamespacedName :=
    { Name := Name "cluster" c.GetPurpose, Namespace := "kube-system" }
  match c.Reader key with
  | Except.error err =>
    if IsNotFound err then
      if c.IsExternal then
        (none, some (KubeErr.withMessage err "external certificate not found"))
      else
        (none, none)
    else
      (none, some (KubeErr.withStack err))
  | Except.ok s => (some s, none)

/-- Method `GetPurpose` of the interface. -/
def Certificate.GetPurpose : Certificate → Purpose
  | Certificate.managed c => c.GetPurpose
  | Certificate.external c => c.GetPurpose

/-- Method `GetKeyPair` of the interface. -/
def Certificate.GetKeyPair : Certificate → Option KeyPair
  | Certificate.managed c => c.KeyPair
  | Certificate.external c => c.KeyPair

/-- Method `SetKeyPair` of the interface; the Go method updates the certificate in
place, here the updated certificate is returned. -/
def Certificate.SetKeyPair : Certificate → Option KeyPair → Certificate
  | Certificate.managed c, keyPair => Certificate.managed { c with KeyPair := keyPair }
  | Certificate.external c, keyPair => Certificate.external { c with KeyPair := keyPair }

/-- Method `Lookup` of the interface. -/
def Certificate.Lookup : Certificate → Reader → NamespacedName →
    Option Secret × Option KubeErr
  | Certificate.managed c, ctrlclient, key => c.Lookup ctrlclient key
  | Certificate.external c, ctrlclient, key => c.Lookup ctrlclient key

/-- The function `secretToKeyPair`: the entry `tls.crt` is required, a missing
`tls.key` is the empty key. -/
def secretToKeyPair (s : Secret) : Option KeyPair × Option KubeErr :=
  match s.Data.lookup TLSCrtDataName with
  | none => (none, some (KubeErr.errorf "missing data for key %s" [TLSCrtDataName]))
  | some c =>
    let key := match s.Data.lookup TLSKeyDataName with
      | none => ""
      | some key => key
    (some { Cert := c, Key := key }, none)

/-- The type `Certificates`. -/
abbrev Certificates := List Certificate

/-- The method `Certificates.Lookup`. The Go method returns an error and updates
the certificates in place; here the result is the error together with the list as
it stands when the method returns. The loop returns `err` as soon as a lookup
gives an error or a nil secret. -/
def Certificates.Lookup : Certificates → Reader → NamespacedName →
    Option KubeErr × Certificates
  | [], _, _ => (none, [])
  | certificate :: rest, ctrlclient, clusterName =>
    match certificate.Lookup ctrlclient clusterName with
    | (_, some err) => (some err, certificate :: rest)
    | (none, none) => (none, certificate :: rest)
    | (some s, none) =>
      match secretToKeyPair s with
      | (_, some err) => (some err, certificate :: rest)
      | (kp, none) =>
        let r := Certificates.Lookup rest ctrlclient clusterName
        (r.1, certificate.SetKeyPair kp :: r.2)

/-- The function `NewCertificatesForInitialControlPlane`; `filepath.Join` of a
directory and a file name is written out. -/
def NewCertificatesForInitialControlPlane : Certificates :=
  [ Certificate.managed
      { Purpose := ClusterCA,
        CertFile := DefaultCertificatesDir ++ "/server-ca.crt",
        KeyFile := DefaultCertificatesDir ++ "/server-ca.key" },
    Certificate.managed
      { Purpose := ClientClusterCA,
        CertFile := DefaultCertificatesDir ++ "/client-ca.crt",
        KeyFile := DefaultCertificatesDir ++ "/client-ca.key" },
    Certificate.managed
      { Purpose := EtcdCA,
        CertFile := DefaultETCDCertificatesDir ++ "/peer-ca.crt",
        KeyFile := DefaultETCDCertificatesDir ++ "/peer-ca.key" },
    Certificate.managed
      { Purpose := EtcdServerCA,
        CertFile := DefaultETCDCertificatesDir ++ "/server-ca.crt",
        KeyFile := DefaultETCDCertificatesDir ++ "/server-ca.key" } ]

/-- A store that holds the client CA secret of cluster `c1` and no other. -/
def onlyClientCA : List (NamespacedName × Secret) :=
  [ ({ Namespace := "default", Name := "c1-cca" },
     { Data := [("tls.crt", "CERT"), ("tls.key", "KEY")] }) ]

/-! ## Registries (`pkg/rke2/registries.go`)

Go maps are association lists with distinct keys, in the order in which the run
at hand iterates over them. A nil map and an empty map are both the empty
list. -/

namespace corev1

/-- A `corev1.ObjectReference`. -/
structure ObjectReference where
  Kind : String := ""
  Namespace : String := ""
  Name : String := ""
  UID : String := ""
  APIVersion : String := ""
  ResourceVersion : String := ""
  FieldPath : String := ""
  deriving DecidableEq, Repr

end corev1

namespace bootstrapv1

/-- The API type `Mirror`. -/
structure Mirror where
  Endpoint : List String := []
  Rewrite : List (String × String) := []
  deriving DecidableEq, Repr

/-- The API type `TLSConfig`. -/
structure TLSConfig where
  TLSConfigSecret : corev1.ObjectReference := {}
  InsecureSkipVerify : Bool := false
  deriving DecidableEq, Repr

/-- The API type `RegistryConfig`. -/
structure RegistryConfig where
  AuthSecret : corev1.ObjectReference := {}
  TLS : TLSConfig := {}
  deriving DecidableEq, Repr

/-- The API type `Registry`. -/
structure Registry where
  Mirrors : List (String × Mirror) := []
  Configs : List (String × RegistryConfig) := []
  deriving DecidableEq, Repr

/-- The API type `File`, reduced to the fields the code sets. -/
structure File where
  Path : String
  Content : String
  deriving DecidableEq, Repr

end bootstrapv1

/-- The type `Mirror` of the generated file. -/
structure Mirror where
  Endpoint : List String := []
  Rewrite : List (String × String) := []
  deriving DecidableEq, Repr

/-- The type `AuthConfig` of the generated file, with the fields the code sets. -/
structure AuthConfig where
  Username : String := ""
  Password : String := ""
  IdentityToken : String := ""
  deriving DecidableEq, Repr

/-- The type `TLSConfig` of the generated file. -/
structure TLSConfig where
  CAFile : String := ""
  CertFile : String := ""
  KeyFile : String := ""
  InsecureSkipVerify : Bool := false
  deriving DecidableEq, Repr

/-- The type `RegistryConfig` of the generated file; a nil pointer is `none`. -/
structure RegistryConfig where
  Auth : Option AuthConfig := none
  TLS : Option TLSConfig := none
  deriving DecidableEq, Repr

/-- The type `Registry` of the generated file. -/
structure Registry where
  Mirrors : List (String × Mirror) := []
  Configs : List (String × RegistryConfig) := []
  deriving DecidableEq, Repr

/-- The type `RegistryScope`: the registry of the configuration and the client
that reads secrets. The context and the logger have no part in the result. -/
structure RegistryScope where
  Registry : bootstrapv1.Registry
  Client : Reader

/-- The constant `registryCertsPath`. -/
def registryCertsPath : String := "/etc/rancher/rke2/tls"

/-- The constant `cacert`. -/
def cacert : String := "ca.crt"

/-- The constant `tlskey`. -/
def tlskey : String := "tls.key"

/-- The constant `tlscert`. -/
def tlscert : String := "tls.crt"

/-- The assignment `m[k] = v` on a Go map. -/
def mapSet {V : Type} (m : List (String × V)) (k : String) (v : V) : List (String × V) :=
  if m.any (fun e => e.1 == k) then
    m.map (fun e => if e.1 == k then (k, v) else e)
  else
    m ++ [(k, v)]

/-- The loop over the mirrors in `GenerateRegistries`. -/
def registryMirrors : List (String × bootstrapv1.Mirror) → List (String × Mirror) →
    List (String × Mirror)
  | [], mirrors => mirrors
  | (mirrorName, mirror) :: rest, mirrors =>
    registryMirrors rest
      (mapSet mirrors mirrorName { Endpoint := mirror.Endpoint, Rewrite := mirror.Rewrite })

/-- One round of the loop over `tls.crt`, `tls.key`, `ca.crt` in
`GenerateRegistries`: an entry that the secret holds becomes a file and sets the
matching path of the TLS configuration. -/
def registryTLSEntry (tlsSecret : Secret) (acc : List bootstrapv1.File × TLSConfig)
    (secretEntry : String) : List bootstrapv1.File × TLSConfig :=
  match tlsSecret.Data.lookup secretEntry with
  | none => acc
  | some content =>
    let files := acc.1 ++
      [{ Path := registryCertsPath ++ "/" ++ secretEntry, Content := content }]
    if secretEntry = tlscert then
      (files, { acc.2 with CertFile := registryCertsPath ++ "/" ++ tlscert })
    else if secretEntry = tlskey then
      (files, { acc.2 with KeyFile := registryCertsPath ++ "/" ++ tlskey })
    else if secretEntry = cacert then
      (files, { acc.2 with CAFile := registryCertsPath ++ "/" ++ cacert })
    else
      (files, acc.2)

/-- The TLS part of the body of the loop over the configs in `GenerateRegistries`.
An error result is the error that the function returns at that point. -/
def registryTLS (rke2ConfigRegistry : RegistryScope) (regConfig : bootstrapv1.RegistryConfig)
    (files : List bootstrapv1.File) (registryConfig : RegistryConfig) :
    Except (Option KubeErr) (List bootstrapv1.File × RegistryConfig) :=
  if regConfig.TLS ≠ {} then
    match rke2ConfigRegistry.Client
        { Name := regConfig.TLS.TLSConfigSecret.Name,
          Namespace := regConfig.TLS.TLSConfigSecret.Namespace } with
    | Except.error err => Except.error (some err)
    | Except.ok tlsSecret =>
      let r := [tlscert, tlskey, cacert].foldl (registryTLSEntry tlsSecret) (files, {})
      let tls : TLSConfig :=
        if regConfig.TLS.InsecureSkipVerify then
          { r.2 with InsecureSkipVerify := regConfig.TLS.InsecureSkipVerify }
        else r.2
      Except.ok (r.1, { registryConfig with TLS := some tls })
  else
    Except.ok (files, registryConfig)

/-- The authentication part of the body of the loop over the configs in
`GenerateRegistries`. An error result is the value of `err` that the function
returns at that point; where the secret lacks the entries, `err` is the nil
error of the `Get` that has just succeeded. -/
def registryAuth (rke2ConfigRegistry : RegistryScope) (regConfig : bootstrapv1.RegistryConfig)
    (registryConfig : RegistryConfig) : Except (Option KubeErr) RegistryConfig :=
  if regConfig.AuthSecret ≠ {} then
    match rke2ConfigRegistry.Client
        { Name := regConfig.AuthSecret.Name, Namespace := regConfig.AuthSecret.Namespace } with
    | Except.error err => Except.error (some err)
    | Except.ok authSecret =>
      let err : Option KubeErr := none
      let isBasicAuth := (authSecret.Data.lookup "username").isSome &&
        (authSecret.Data.lookup "password").isSome
      let isTokenAuth := (authSecret.Data.lookup "identity-token").isSome
      let ok := isBasicAuth || isTokenAuth
      if !ok then
        Except.error err
      else
        let authData : AuthConfig := {}
        let authData :=
          if isBasicAuth then
            { authData with
              Username := (authSecret.Data.lookup "username").getD "",
              Password := (authSecret.Data.lookup "password").getD "" }
          else authData
        let authData :=
          if isTokenAuth then
            { authData with IdentityToken := (authSecret.Data.lookup "identity-token").getD "" }
          else authData
        Except.ok { registryConfig with Auth := some authData }
  else
    Except.ok registryConfig

/-- The loop over the configs in `GenerateRegistries`. At the end of every round
the map `registry.Configs` is made anew and then given the entry of that
round. -/
def registryConfigs (rke2ConfigRegistry : RegistryScope) :
    List (String × bootstrapv1.RegistryConfig) → Registry → List bootstrapv1.File →
    Registry × List bootstrapv1.File × Option KubeErr
  | [], registry, files => (registry, files, none)
  | (configName, regConfig) :: rest, registry, files =>
    match registryTLS rke2ConfigRegistry regConfig files {} with
    | Except.error err => ({}, [], err)
    | Except.ok (files, registryConfig) =>
      match registryAuth rke2ConfigRegistry regConfig registryConfig with
      | Except.error err => ({}, [], err)
      | Except.ok registryConfig =>
        registryConfigs rke2ConfigRegistry rest
          { registry with Configs := mapSet [] configName registryConfig } files

/-- The function `GenerateRegistries`. -/
def GenerateRegistries (rke2ConfigRegistry : RegistryScope) :
    Registry × List bootstrapv1.File × Option KubeErr :=
  let registry : Registry := {}
  let files : List bootstrapv1.File := []
  let registry := { registry with
    Mirrors := registryMirrors rke2ConfigRegistry.Registry.Mirrors [] }
  registryConfigs rke2ConfigRegistry rke2ConfigRegistry.Registry.Configs registry files

/-- A store with one secret that holds a user name and a password, and one
secret that holds neither those nor an identity token. -/
def registrySecrets : List (NamespacedName × Secret) :=
  [ ({ Namespace := "default", Name := "basic" },
     { Data := [("username", "admin"), ("password", "secret")] }),
    ({ Namespace := "default", Name := "incomplete" },
     { Data := [("username", "admin")] }) ]

/-- A registry configuration with one mirror and two configs, the first with a
valid authentication secret, the second with neither TLS nor authentication. -/
def twoConfigs : RegistryScope where
  Registry :=
    { Mirrors := [("docker.io", { Endpoint := ["https://mirror.example.com"] })],
      Configs :=
        [ ("a.example.com", { AuthSecret := { Namespace := "default", Name := "basic" } }),
          ("b.example.com", {}) ] }
  Client := storeReader registrySecrets

/-- The configuration `twoConfigs` with the configs iterated in the other order. -/
def twoConfigsReversed : RegistryScope where
  Registry :=
    { Mirrors := [("docker.io", { Endpoint := ["https://mirror.example.com"] })],
      Configs :=
        [ ("b.example.com", {}),
          ("a.example.com", { AuthSecret := { Namespace := "default", Name := "basic" } }) ] }
  Client := storeReader registrySecrets

/-- A registry configuration with one config, whose authentication secret exists
and holds a user name alone. -/
def incompleteAuth : RegistryScope where
  Registry :=
    { Configs :=
        [ ("a.example.com",
           { AuthSecret := { Namespace := "default", Name := "incomplete" } }) ] }
  Client := storeReader registrySecrets

/-- A cluster in which the name of the stale member `etcd-cp-4` is contained in
the name of the member `etcd-cp-40` of a live node, listed before it. -/
def shadowed : Fake where
  nodes := ["cp-40", "cp-2", "cp-3"]
  members := [⟨40, "etcd-cp-40"⟩, ⟨2, "etcd-cp-2"⟩, ⟨3, "etcd-cp-3"⟩, ⟨4, "etcd-cp-4"⟩]
  leader := 2
  down := []

end Rke2

namespace Rke2

/-! ## Basic facts about the log and the error values -/

theorem removalAttempts_append (l₁ l₂ : List Event) :
    removalAttempts (l₁ ++ l₂) = removalAttempts l₁ ++ removalAttempts l₂ := by
  induction l₁ with
  | nil => rfl
  | cons e l ih => cases e <;> simp [removalAttempts, ih]

theorem NewAggregate_eq_none_iff (errs : List Err) : NewAggregate errs = none ↔ errs = [] := by
  cases errs <;> simp [NewAggregate]

theorem Wrap_eq_none_iff (e : Option Err) (msg : String) : Wrap e msg = none ↔ e = none := by
  cases e <;> simp [Wrap]

/-! ## First-available selection -/

theorem firstAvailableLoop_reaches {σ : Type} (c : ClientGenerator σ) (w : σ) (n : String)
    (post : List String) (leader : Nat)
    (hn : c.createClient w (staticPodName "etcd" n) = Except.ok leader) :
    ∀ (pre : List String) (errs : List Err) (log : List Event),
      (∀ m ∈ pre, ∃ err, c.createClient w (staticPodName "etcd" m) = Except.error err) →
      c.firstAvailableLoop (pre ++ n :: post) errs ⟨w, log⟩ =
        ((some ⟨log.length + pre.length, staticPodName "etcd" n, leader⟩, none),
          ⟨w, log ++ pre.map (fun m => Event.createClient (staticPodName "etcd" m) none) ++
            [Event.createClient (staticPodName "etcd" n)
              (some ⟨log.length + pre.length, staticPodName "etcd" n, leader⟩)]⟩) := by
  intro pre
  induction pre with
  | nil =>
    intro errs log _
    simp [ClientGenerator.firstAvailableLoop, ClientGenerator.dial, hn, State.record]
  | cons m pre ih =>
    intro errs log hpre
    obtain ⟨err, herr⟩ := hpre m (List.mem_cons_self m pre)
    have hrest : ∀ k ∈ pre, ∃ err, c.createClient w (staticPodName "etcd" k) = Except.error err :=
      fun k hk => hpre k (List.mem_cons_of_mem m hk)
    have h := ih (errs ++ [err]) (log ++ [Event.createClient (staticPodName "etcd" m) none]) hrest
    simp [ClientGenerator.firstAvailableLoop, ClientGenerator.dial, herr, State.record]
    simp [List.length_append] at h
    rw [h]
    simp
    omega

/-- The loop of `ForFirstAvailableNode` never yields a nil client with a nil
error once a candidate or a collected error is present. -/
theorem firstAvailableLoop_ne_nil {σ : Type} (c : ClientGenerator σ) :
    ∀ (names : List String) (errs : List Err) (s : State σ),
      names ≠ [] ∨ errs ≠ [] → (c.firstAvailableLoop names errs s).1 ≠ (none, none) := by
  intro names
  induction names with
  | nil =>
    intro errs s h
    cases errs with
    | nil => simp at h
    | cons e es => simp [ClientGenerator.firstAvailableLoop, NewAggregate, Wrap]
  | cons name rest ih =>
    intro errs s _
    unfold ClientGenerator.firstAvailableLoop
    cases hd : c.dial (staticPodName "etcd" name) s with
    | mk r s1 =>
      cases r with
      | error err => exact ih (errs ++ [err]) s1 (Or.inr (by simp))
      | ok client => simp

theorem ForFirstAvailableNode_ne_nil {σ : Type} (c : ClientGenerator σ) (names : List String)
    (s : State σ) : (c.ForFirstAvailableNode names s).1 ≠ (none, none) := by
  unfold ClientGenerator.ForFirstAvailableNode
  cases names with
  | nil => simp
  | cons n rest =>
    simp only [List.length_cons, Nat.add_one_ne_zero, if_false]
    exact firstAvailableLoop_ne_nil c (n :: rest) [] s (Or.inl (by simp))

/-! ## Leader-seeking selection -/

theorem getLeaderClientBody_ne_nil {σ : Type} (c : ClientGenerator σ) (client : Client)
    (nodeNames : List String) (s : State σ) :
    (c.getLeaderClientBody client nodeNames s).1 ≠ (none, none) := by
  unfold ClientGenerator.getLeaderClientBody
  cases hm : c.etcd.members client s with
  | mk r s1 =>
    cases r with
    | error err => simp [NewAggregate]
    | ok members =>
      simp only
      cases members.find? (fun member => member.ID == client.LeaderID) with
      | none => simp
      | some leaderMember =>
        simp only
        split
        · simp
        · exact ForFirstAvailableNode_ne_nil c _ s1

theorem getLeaderClient_ne_nil {σ : Type} (c : ClientGenerator σ) (nodeName : String)
    (nodeNames : List String) (s : State σ) :
    (c.getLeaderClient nodeName nodeNames s).1 ≠ (none, none) := by
  unfold ClientGenerator.getLeaderClient
  split
  · simp [NewAggregate]
  · simp
  · exact getLeaderClientBody_ne_nil c _ nodeNames _

theorem leaderLoop_ne_nil {σ : Type} (c : ClientGenerator σ) (nodeNames : List String) :
    ∀ (names : List String) (errs : List Err) (s : State σ),
      names ≠ [] ∨ errs ≠ [] → (c.leaderLoop nodeNames names errs s).1 ≠ (none, none) := by
  intro names
  induction names with
  | nil =>
    intro errs s h
    cases errs with
    | nil => simp at h
    | cons e es => simp [ClientGenerator.leaderLoop, NewAggregate, Wrap]
  | cons name rest ih =>
    intro errs s _
    unfold ClientGenerator.leaderLoop
    have hne := getLeaderClient_ne_nil c name nodeNames s
    split
    · rename_i err s1 _
      split
      · exact ih (errs ++ [err]) s1 (Or.inr (by simp))
      · simp
    · rename_i cl s1 heq
      rw [heq] at hne
      exact hne

theorem ForLeader_ne_nil {σ : Type} (c : ClientGenerator σ) (names : List String)
    (s : State σ) : (c.ForLeader names s).1 ≠ (none, none) := by
  unfold ClientGenerator.ForLeader
  cases names with
  | nil => simp
  | cons n rest =>
    simp only [List.length_cons, Nat.add_one_ne_zero, if_false]
    exact leaderLoop_ne_nil c (n :: rest) (n :: rest) [] s (Or.inl (by simp))

/-! ## Candidate selection -/

/-- C1: when the candidates before `n` all fail to connect and `n` connects,
`ForFirstAvailableNode` returns, with a nil error, the client created for `n`; the
log gains one failed dial for each earlier candidate, in order, then the dial of
`n`, and nothing for the candidates after `n`. -/
theorem ForFirstAvailableNode_first_reachable {σ : Type} (c : ClientGenerator σ)
    (s : State σ) (pre post : List String) (n : String) (leader : Nat)
    (hpre : ∀ m ∈ pre, ∃ err, c.createClient s.world (staticPodName "etcd" m) = Except.error err)
    (hn : c.createClient s.world (staticPodName "etcd" n) = Except.ok leader) :
    c.ForFirstAvailableNode (pre ++ n :: post) s =
      ((some ⟨s.log.length + pre.length, staticPodName "etcd" n, leader⟩, none),
        ⟨s.world, s.log ++ pre.map (fun m => Event.createClient (staticPodName "etcd" m) none) ++
          [Event.createClient (staticPodName "etcd" n)
            (some ⟨s.log.length + pre.length, staticPodName "etcd" n, leader⟩)]⟩) := by
  have hlen : ¬ (pre ++ n :: post).length = 0 := by simp
  unfold ClientGenerator.ForFirstAvailableNode
  rw [if_neg hlen]
  exact firstAvailableLoop_reaches c s.world n post leader hn pre [] s.log hpre

/-- C1, on the test double: with `cp-1` down and `cp-2`, `cp-3` up, the client
of `cp-2` is returned after one failed dial of `cp-1`, and `cp-3` is not dialled. -/
theorem ForFirstAvailableNode_first_reachable_witness :
    fakeGenerator.ForFirstAvailableNode (["cp-1"] ++ "cp-2" :: ["cp-3"]) ⟨firstDown, []⟩ =
      ((some ⟨1, "etcd-cp-2", 2⟩, none),
        ⟨firstDown,
          [Event.createClient "etcd-cp-1" none,
           Event.createClient "etcd-cp-2" (some ⟨1, "etcd-cp-2", 2⟩)]⟩) :=
  ForFirstAvailableNode_first_reachable fakeGenerator ⟨firstDown, []⟩ ["cp-1"] ["cp-3"] "cp-2" 2
    (fun m hm => ⟨Err.text "connection refused", by
      rw [List.mem_singleton] at hm
      subst hm
      rfl⟩)
    rfl

/-- C2: on the empty candidate list `ForFirstAvailableNode` and `ForLeader`
return no client and the invalid-argument error and leave the log untouched, so
nothing is dialled; and on no input does either return a nil client together with
a nil error. -/
theorem empty_candidates_rejected {σ : Type} (c : ClientGenerator σ) (s : State σ) :
    c.ForFirstAvailableNode [] s =
        ((none, some (Err.text
          "invalid argument: forLeader can't be called with an empty list of nodes")), s) ∧
      c.ForLeader [] s =
        ((none, some (Err.text
          "invalid argument: forLeader can't be called with an empty list of nodes")), s) ∧
      (∀ (names : List String) (t : State σ), (c.ForFirstAvailableNode names t).1 ≠ (none, none)) ∧
      (∀ (names : List String) (t : State σ), (c.ForLeader names t).1 ≠ (none, none)) :=
  ⟨by simp [ClientGenerator.ForFirstAvailableNode], by simp [ClientGenerator.ForLeader],
    fun names t => ForFirstAvailableNode_ne_nil c names t,
    fun names t => ForLeader_ne_nil c names t⟩

/-! ## Quorum guard -/

theorem Wrap_ne_minNodes (e : Option Err) (msg : String) :
    Wrap e msg ≠ some ErrControlPlaneMinNodes := by
  cases e <;> simp [Wrap, ErrControlPlaneMinNodes]

theorem removeMemberBody_ne_minNodes {σ : Type} (gen : ClientGenerator σ) (client : Client)
    (name : String) (s : State σ) :
    (Workload.removeMemberBody gen client name s).1 ≠ some ErrControlPlaneMinNodes := by
  unfold Workload.removeMemberBody
  split
  · exact Wrap_ne_minNodes (some _) _
  · split
    · simp
    · split
      · exact Wrap_ne_minNodes (some _) _
      · simp

/-- C3: when the inventory lists fewer than `minimalNodeCount` nodes,
`removeMemberForNode` returns `ErrControlPlaneMinNodes` and the log gains only the
inventory call and the return marker: no dial, no member listing, no removal, and
the world is unchanged, for every name and with or without a client generator. -/
theorem removeMemberForNode_below_minimum {σ : Type} (w : Workload σ) (name : String)
    (s : State σ) (items : List String)
    (hnodes : w.getControlPlaneNodes s.world = Except.ok items)
    (hlt : items.length < w.minimalNodeCount) :
    w.removeMemberForNode name s =
      (some ErrControlPlaneMinNodes,
        ⟨s.world, s.log ++ [Event.getControlPlaneNodes,
          Event.removeMemberForNode name (some ErrControlPlaneMinNodes)]⟩) := by
  have hcore : w.removeMemberCore name s =
      (some ErrControlPlaneMinNodes, s.record Event.getControlPlaneNodes) := by
    simp [Workload.removeMemberCore, Workload.nodes, hnodes, hlt]
  simp [Workload.removeMemberForNode, hcore, State.record]

/-- C3, on the test double: with one node and a minimum of two the removal of
`n1` is refused after the inventory call alone. -/
theorem removeMemberForNode_below_minimum_witness :
    (fakeWorkload 2).removeMemberForNode "n1" ⟨oneNode, []⟩ =
      (some ErrControlPlaneMinNodes,
        ⟨oneNode, [Event.getControlPlaneNodes,
          Event.removeMemberForNode "n1" (some ErrControlPlaneMinNodes)]⟩) :=
  removeMemberForNode_below_minimum (fakeWorkload 2) "n1" ⟨oneNode, []⟩ ["n1"] rfl (by decide)

/-- C4 as stated fails: with a minimum of 1 and the single live node `n1`, the
removal of `n1` would leave 0 nodes, yet the call does not return
`ErrControlPlaneMinNodes`; it returns the wrapped invalid-argument error of the
empty candidate list. -/
theorem removeMemberForNode_resulting_count_counterexample :
    oneNode.nodes.length - 1 < (fakeWorkload 1).minimalNodeCount ∧
      ((fakeWorkload 1).removeMemberForNode "n1" ⟨oneNode, []⟩).1 =
        some (Err.wrap (Err.text
          "invalid argument: forLeader can't be called with an empty list of nodes")
          "failed to create etcd client") ∧
      ((fakeWorkload 1).removeMemberForNode "n1" ⟨oneNode, []⟩).1 ≠
        some ErrControlPlaneMinNodes :=
  ⟨by decide, rfl, by
    have h : ((fakeWorkload 1).removeMemberForNode "n1" ⟨oneNode, []⟩).1 =
        some (Err.wrap (Err.text
          "invalid argument: forLeader can't be called with an empty list of nodes")
          "failed to create etcd client") := rfl
    rw [h]
    simp [ErrControlPlaneMinNodes]⟩

/-- C4, amended: once the inventory is fetched, `removeMemberForNode` returns
`ErrControlPlaneMinNodes` exactly when the current inventory has fewer nodes than
the minimum; the count that would remain after the removal is not looked at. -/
theorem removeMemberForNode_guard_on_current_count {σ : Type} (w : Workload σ) (name : String)
    (s : State σ) (items : List String)
    (hnodes : w.getControlPlaneNodes s.world = Except.ok items) :
    (w.removeMemberForNode name s).1 = some ErrControlPlaneMinNodes ↔
      items.length < w.minimalNodeCount := by
  constructor
  · intro h
    by_contra hge
    apply absurd h
    simp only [Workload.removeMemberForNode, Workload.removeMemberCore, Workload.nodes, hnodes,
      if_neg hge]
    split
    · simp
    · split
      · exact Wrap_ne_minNodes (some _) _
      · simp [nilDereferenceErr, ErrControlPlaneMinNodes]
      · exact removeMemberBody_ne_minNodes _ _ _ _
  · intro hlt
    simp [Workload.removeMemberForNode, Workload.removeMemberCore, Workload.nodes, hnodes, hlt]

/-- C4, amended, on the test double: with a minimum of 1 and the live nodes `n1`
and `n2` the guard does not fire, and the removal of `n1` succeeds with one
`RemoveMember` call for identifier 1 through `n2`. -/
theorem removeMemberForNode_guard_on_current_count_witness :
    ¬ (twoNodes.nodes.length < (fakeWorkload 1).minimalNodeCount) ∧
      ((fakeWorkload 1).removeMemberForNode "n1" ⟨twoNodes, []⟩).1 ≠
        some ErrControlPlaneMinNodes ∧
      (fakeWorkload 1).removeMemberForNode "n1" ⟨twoNodes, []⟩ =
        (none, ⟨{ twoNodes with members := [⟨2, "etcd-n2"⟩] },
          [Event.getControlPlaneNodes,
           Event.createClient "etcd-n2" (some ⟨1, "etcd-n2", 2⟩),
           Event.Members ⟨1, "etcd-n2", 2⟩ (some [⟨1, "etcd-n1"⟩, ⟨2, "etcd-n2"⟩]),
           Event.RemoveMember ⟨1, "etcd-n2", 2⟩ 1,
           Event.Close ⟨1, "etcd-n2", 2⟩,
           Event.removeMemberForNode "n1" none]⟩) :=
  ⟨by decide,
    fun h => absurd
      ((removeMemberForNode_guard_on_current_count (fakeWorkload 1) "n1" ⟨twoNodes, []⟩
        ["n1", "n2"] rfl).mp h) (by decide),
    rfl⟩

/-! ## Which calls leave the removal attempts of the log alone -/

theorem removalAttempts_record {σ : Type} (s : State σ) (e : Event)
    (he : removalAttempts [e] = []) :
    removalAttempts (s.record e).log = removalAttempts s.log := by
  simp [State.record, removalAttempts_append, he]

theorem removalAttempts_dial {σ : Type} (c : ClientGenerator σ) (endpoint : String)
    (s : State σ) : removalAttempts (c.dial endpoint s).2.log = removalAttempts s.log := by
  unfold ClientGenerator.dial
  split <;> exact removalAttempts_record _ _ rfl

theorem removalAttempts_firstAvailableLoop {σ : Type} (c : ClientGenerator σ) :
    ∀ (names : List String) (errs : List Err) (s : State σ),
      removalAttempts (c.firstAvailableLoop names errs s).2.log = removalAttempts s.log := by
  intro names
  induction names with
  | nil => intro errs s; rfl
  | cons name rest ih =>
    intro errs s
    unfold ClientGenerator.firstAvailableLoop
    have hd := removalAttempts_dial c (staticPodName "etcd" name) s
    split
    · rename_i err s1 heq
      rw [heq] at hd
      rw [ih (errs ++ [err]) s1]
      exact hd
    · rename_i client s1 heq
      rw [heq] at hd
      exact hd

theorem removalAttempts_ForFirstAvailableNode {σ : Type} (c : ClientGenerator σ)
    (names : List String) (s : State σ) :
    removalAttempts (c.ForFirstAvailableNode names s).2.log = removalAttempts s.log := by
  unfold ClientGenerator.ForFirstAvailableNode
  split
  · rfl
  · exact removalAttempts_firstAvailableLoop c names [] s

theorem removalAttempts_members {σ : Type} (e : Etcd σ) (client : Client) (s : State σ) :
    removalAttempts (e.members client s).2.log = removalAttempts s.log := by
  unfold Etcd.members
  split <;> exact removalAttempts_record _ _ rfl

theorem removalAttempts_removeMember {σ : Type} (e : Etcd σ) (client : Client) (id : Nat)
    (s : State σ) : removalAttempts (e.removeMember client id s).2.log = removalAttempts s.log := by
  simp [Etcd.removeMember, removalAttempts_append, removalAttempts]

theorem removalAttempts_Close {σ : Type} (client : Client) (s : State σ) :
    removalAttempts (client.Close s).log = removalAttempts s.log :=
  removalAttempts_record _ _ rfl

theorem removalAttempts_removeMemberBody {σ : Type} (gen : ClientGenerator σ) (client : Client)
    (name : String) (s : State σ) :
    removalAttempts (Workload.removeMemberBody gen client name s).2.log =
      removalAttempts s.log := by
  unfold Workload.removeMemberBody
  have hm := removalAttempts_members gen.etcd client s
  split
  · rename_i err s1 heq
    rw [heq] at hm
    exact hm
  · rename_i members s1 heq
    rw [heq] at hm
    split
    · exact hm
    · rename_i member _
      have hr := removalAttempts_removeMember gen.etcd client member.ID s1
      split
      · rename_i err s2 heq2
        rw [heq2] at hr
        exact hr.trans hm
      · rename_i s2 heq2
        rw [heq2] at hr
        exact hr.trans hm

theorem removalAttempts_removeMemberCore {σ : Type} (w : Workload σ) (name : String)
    (s : State σ) :
    removalAttempts (w.removeMemberCore name s).2.log = removalAttempts s.log := by
  unfold Workload.removeMemberCore
  have hn : removalAttempts (w.nodes s).2.log = removalAttempts s.log :=
    removalAttempts_record _ _ rfl
  split
  · rename_i err s1 heq
    rw [heq] at hn
    exact hn
  · rename_i items s1 heq
    rw [heq] at hn
    split
    · exact hn
    · split
      · exact hn
      · rename_i gen _
        have hf := removalAttempts_ForFirstAvailableNode gen
          (items.filter (fun n => !stringsContains name n)) s1
        simp only
        split
        · rename_i heq2
          rw [heq2] at hf
          exact hf.trans hn
        · rename_i heq2
          rw [heq2] at hf
          exact (removalAttempts_record _ Event.nilDereference rfl).trans (hf.trans hn)
        · rename_i etcdClient s2 heq2
          rw [heq2] at hf
          exact (removalAttempts_Close _ _).trans
            ((removalAttempts_removeMemberBody gen etcdClient name s2).trans (hf.trans hn))

/-- Each call of `removeMemberForNode` adds exactly one removal attempt to the
log: its argument with its result. -/
theorem removalAttempts_removeMemberForNode {σ : Type} (w : Workload σ) (name : String)
    (s : State σ) :
    removalAttempts (w.removeMemberForNode name s).2.log =
      removalAttempts s.log ++ [(name, (w.removeMemberForNode name s).1)] := by
  simp [Workload.removeMemberForNode, State.record, removalAttempts_append,
    removalAttempts_removeMemberCore, removalAttempts]

/-! ## Membership reconciliation -/

/-- The loop over the members of one node: the attempts it adds to the log are
those for the members with a non-empty name that contains no live node name, in
store order; every attempt is reported, and the failed ones give the errors. -/
theorem reconcileLoop_attempts {σ : Type} (w : Workload σ) (nodeNames : List String) :
    ∀ (members : List Member) (removed : List String) (errs : List Err) (s : State σ),
      ∃ att : List (String × Option Err),
        removalAttempts (w.reconcileLoop nodeNames members removed errs s).2.log =
          removalAttempts s.log ++ att ∧
        (w.reconcileLoop nodeNames members removed errs s).1.1 = removed ++ att.map Prod.fst ∧
        (w.reconcileLoop nodeNames members removed errs s).1.2 =
          errs ++ att.filterMap Prod.snd ∧
        att.map Prod.fst =
          (members.filter (fun m => decide (m.Name ≠ "") &&
            !nodeNames.any (fun n => stringsContains m.Name n))).map (fun m => m.Name) := by
  intro members
  induction members with
  | nil =>
    intro removed errs s
    exact ⟨[], by simp [Workload.reconcileLoop]⟩
  | cons member rest ih =>
    intro removed errs s
    unfold Workload.reconcileLoop
    by_cases hname : member.Name = ""
    · obtain ⟨att, h1, h2, h3, h4⟩ := ih removed errs s
      refine ⟨att, ?_, ?_, ?_, ?_⟩
      · simpa [hname] using h1
      · simpa [hname] using h2
      · simpa [hname] using h3
      · simpa [hname] using h4
    · by_cases hany : nodeNames.any (fun n => stringsContains member.Name n) = true
      · obtain ⟨att, h1, h2, h3, h4⟩ := ih removed errs s
        refine ⟨att, ?_, ?_, ?_, ?_⟩
        · simpa [hname, hany] using h1
        · simpa [hname, hany] using h2
        · simpa [hname, hany] using h3
        · rw [h4, List.filter_cons]
          simp only [hany]
          simp
      · have hr := removalAttempts_removeMemberForNode w member.Name s
        have hfilter : (List.filter (fun m => decide (m.Name ≠ "") &&
            !nodeNames.any (fun n => stringsContains m.Name n)) (member :: rest)) =
            member :: List.filter (fun m => decide (m.Name ≠ "") &&
              !nodeNames.any (fun n => stringsContains m.Name n)) rest := by
          rw [List.filter_cons]
          simp only [Bool.not_eq_true] at hany
          simp [hname, hany]
        rw [if_neg hname, if_neg hany]
        cases hrm : w.removeMemberForNode member.Name s with
        | mk res s1 =>
          rw [hrm] at hr
          cases res with
          | some err =>
            obtain ⟨att, h1, h2, h3, h4⟩ := ih (removed ++ [member.Name]) (errs ++ [err]) s1
            refine ⟨(member.Name, some err) :: att, ?_, ?_, ?_, ?_⟩
            · simp only [h1, hr]
              simp
            · simp only [h2]
              simp
            · simp only [h3]
              simp
            · rw [hfilter]
              simp [h4]
          | none =>
            obtain ⟨att, h1, h2, h3, h4⟩ := ih (removed ++ [member.Name]) errs s1
            refine ⟨(member.Name, none) :: att, ?_, ?_, ?_, ?_⟩
            · simp only [h1, hr]
              simp
            · simp only [h2]
              simp
            · simp only [h3]
              simp
            · rw [hfilter]
              simp [h4]

theorem ForFirstAvailableNode_single {σ : Type} (c : ClientGenerator σ) (n : String)
    (s : State σ) (leader : Nat)
    (hn : c.createClient s.world (staticPodName "etcd" n) = Except.ok leader) :
    c.ForFirstAvailableNode [n] s =
      ((some ⟨s.log.length, staticPodName "etcd" n, leader⟩, none),
        s.record (Event.createClient (staticPodName "etcd" n)
          (some ⟨s.log.length, staticPodName "etcd" n, leader⟩))) := by
  simp [ClientGenerator.ForFirstAvailableNode, ClientGenerator.firstAvailableLoop,
    ClientGenerator.dial, hn]

theorem reconcileBody_attempts {σ : Type} (w : Workload σ) (gen : ClientGenerator σ)
    (client : Client) (nodeNames : List String) (s : State σ) :
    ∃ att : List (String × Option Err),
      removalAttempts (w.reconcileBody gen client nodeNames s).2.log =
        removalAttempts s.log ++ att ∧
      (w.reconcileBody gen client nodeNames s).1.1 = att.map Prod.fst ∧
      (w.reconcileBody gen client nodeNames s).1.2 = att.filterMap Prod.snd ∧
      ∀ a ∈ att, a.1 ≠ "" := by
  unfold Workload.reconcileBody
  have hm := removalAttempts_members gen.etcd client s
  split
  · rename_i err s1 heq
    rw [heq] at hm
    exact ⟨[], by simpa using hm, rfl, rfl, by simp⟩
  · rename_i members s1 heq
    rw [heq] at hm
    obtain ⟨att, h1, h2, h3, h4⟩ := reconcileLoop_attempts w nodeNames members [] [] s1
    refine ⟨att, ?_, by simpa using h2, by simpa using h3, ?_⟩
    · rw [h1]
      simp only at hm
      rw [hm]
    · intro a ha
      have hmem : a.1 ∈ att.map Prod.fst := List.mem_map_of_mem Prod.fst ha
      rw [h4] at hmem
      obtain ⟨m, hmf, hma⟩ := List.mem_map.mp hmem
      have hp := (List.mem_filter.mp hmf).2
      simp only [Bool.and_eq_true, decide_eq_true_eq] at hp
      rw [← hma]
      exact hp.1

theorem reconcileEtcdMember_attempts {σ : Type} (w : Workload σ) (gen : ClientGenerator σ)
    (nodeNames : List String) (nodeName : String) (s : State σ) :
    ∃ att : List (String × Option Err),
      removalAttempts (w.reconcileEtcdMember gen nodeNames nodeName s).2.log =
        removalAttempts s.log ++ att ∧
      (w.reconcileEtcdMember gen nodeNames nodeName s).1.1 = att.map Prod.fst ∧
      (w.reconcileEtcdMember gen nodeNames nodeName s).1.2 = att.filterMap Prod.snd ∧
      ∀ a ∈ att, a.1 ≠ "" := by
  unfold Workload.reconcileEtcdMember
  have hf := removalAttempts_ForFirstAvailableNode gen [nodeName] s
  have hne := ForFirstAvailableNode_ne_nil gen [nodeName] s
  split
  · rename_i heq
    rw [heq] at hf
    exact ⟨[], by simpa using hf, rfl, rfl, by simp⟩
  · rename_i heq
    rw [heq] at hne
    exact absurd rfl hne
  · rename_i etcdClient s1 heq
    rw [heq] at hf
    obtain ⟨att, h1, h2, h3, h4⟩ := reconcileBody_attempts w gen etcdClient nodeNames s1
    refine ⟨att, ?_, h2, h3, h4⟩
    simp only at hf
    rw [removalAttempts_Close, h1, hf]

theorem reconcileAll_attempts {σ : Type} (w : Workload σ) (gen : ClientGenerator σ)
    (nodeNames : List String) :
    ∀ (names : List String) (removed : List String) (errs : List Err) (s : State σ),
      ∃ att : List (String × Option Err),
        removalAttempts (w.reconcileAll gen nodeNames names removed errs s).2.log =
          removalAttempts s.log ++ att ∧
        (w.reconcileAll gen nodeNames names removed errs s).1.1 = removed ++ att.map Prod.fst ∧
        (w.reconcileAll gen nodeNames names removed errs s).1.2 =
          errs ++ att.filterMap Prod.snd ∧
        ∀ a ∈ att, a.1 ≠ "" := by
  intro names
  induction names with
  | nil =>
    intro removed errs s
    exact ⟨[], by simp [Workload.reconcileAll]⟩
  | cons nodeName rest ih =>
    intro removed errs s
    obtain ⟨att1, a1, a2, a3, a4⟩ := reconcileEtcdMember_attempts w gen nodeNames nodeName s
    obtain ⟨att2, b1, b2, b3, b4⟩ := ih
      (removed ++ (w.reconcileEtcdMember gen nodeNames nodeName s).1.1)
      (errs ++ (w.reconcileEtcdMember gen nodeNames nodeName s).1.2)
      (w.reconcileEtcdMember gen nodeNames nodeName s).2
    unfold Workload.reconcileAll
    refine ⟨att1 ++ att2, ?_, ?_, ?_, ?_⟩
    · rw [b1, a1, List.append_assoc]
    · rw [b2, a2, List.map_append, List.append_assoc]
    · rw [b3, a3, List.filterMap_append, List.append_assoc]
    · intro a ha
      rcases List.mem_append.mp ha with h | h
      · exact a4 a h
      · exact b4 a h

/-- C5: `ReconcileEtcdMembers` never reports the empty name as removed, and every
removal attempt for the empty name found in the log afterwards was there before
the call: `removeMemberForNode` is not invoked for a member without a name,
whatever the live node names are. -/
theorem ReconcileEtcdMembers_skips_unnamed {σ : Type} (w : Workload σ)
    (nodeNames : List String) (s : State σ) :
    "" ∉ (w.ReconcileEtcdMembers nodeNames s).1.1 ∧
      ∀ r : Option Err, ("", r) ∈ removalAttempts (w.ReconcileEtcdMembers nodeNames s).2.log →
        ("", r) ∈ removalAttempts s.log := by
  unfold Workload.ReconcileEtcdMembers
  cases hgen : w.etcdClientGenerator with
  | none => simp
  | some gen =>
    obtain ⟨att, h1, h2, _, h4⟩ := reconcileAll_attempts w gen nodeNames nodeNames [] [] s
    simp only
    constructor
    · rw [h2]
      intro hmem
      simp only [List.nil_append] at hmem
      obtain ⟨a, ha, hfst⟩ := List.mem_map.mp hmem
      exact h4 a ha hfst
    · intro r hr
      rw [h1] at hr
      rcases List.mem_append.mp hr with h | h
      · exact h
      · exact absurd rfl (h4 ("", r) h)

/-- C6: for a node that connects and whose client lists the members `M`,
`reconcileEtcdMember` returns, in store order, the names of the members of `M`
whose name is non-empty and contains none of the live node names, and the removal
attempts it adds to the log are exactly for those names, in that order; a member
whose name contains a live node name is neither reported nor attempted. -/
theorem reconcileEtcdMember_stale_set {σ : Type} (w : Workload σ) (gen : ClientGenerator σ)
    (nodeNames : List String) (nodeName : String) (s : State σ) (leader : Nat)
    (M : List Member)
    (hdial : gen.createClient s.world (staticPodName "etcd" nodeName) = Except.ok leader)
    (hmembers : gen.etcd.Members s.world ⟨s.log.length, staticPodName "etcd" nodeName, leader⟩ =
      Except.ok M) :
    (w.reconcileEtcdMember gen nodeNames nodeName s).1.1 =
        (M.filter (fun m => decide (m.Name ≠ "") &&
          !nodeNames.any (fun n => stringsContains m.Name n))).map (fun m => m.Name) ∧
      (removalAttempts (w.reconcileEtcdMember gen nodeNames nodeName s).2.log).map Prod.fst =
        (removalAttempts s.log).map Prod.fst ++
          (w.reconcileEtcdMember gen nodeNames nodeName s).1.1 := by
  have hbody : ∀ s1 : State σ, s1.world = s.world →
      w.reconcileBody gen ⟨s.log.length, staticPodName "etcd" nodeName, leader⟩ nodeNames s1 =
        w.reconcileLoop nodeNames M [] []
          (s1.record (Event.Members ⟨s.log.length, staticPodName "etcd" nodeName, leader⟩
            (some M))) := by
    intro s1 hw
    simp [Workload.reconcileBody, Etcd.members, hw, hmembers]
  obtain ⟨att, h1, h2, _, h4⟩ := reconcileLoop_attempts w nodeNames M [] []
    ((s.record (Event.createClient (staticPodName "etcd" nodeName)
      (some ⟨s.log.length, staticPodName "etcd" nodeName, leader⟩))).record
      (Event.Members ⟨s.log.length, staticPodName "etcd" nodeName, leader⟩ (some M)))
  have hb := hbody (s.record (Event.createClient (staticPodName "etcd" nodeName)
    (some ⟨s.log.length, staticPodName "etcd" nodeName, leader⟩))) rfl
  simp only [Workload.reconcileEtcdMember, ForFirstAvailableNode_single gen nodeName s leader hdial,
    hb]
  constructor
  · rw [h2, ← h4]
    simp
  · rw [removalAttempts_Close, h1, h2]
    simp [State.record, removalAttempts_append, removalAttempts]

/-- C6, on the test double: the node `cp-1` lists five members; only `etcd-cp-4`
is reported, the unnamed member and the members of live nodes are kept. -/
theorem reconcileEtcdMember_stale_set_witness :
    ((fakeWorkload 2).reconcileEtcdMember fakeGenerator ["cp-1", "cp-2", "cp-3"] "cp-1"
        ⟨withStale, []⟩).1.1 = ["etcd-cp-4"] ∧
      (removalAttempts ((fakeWorkload 2).reconcileEtcdMember fakeGenerator
        ["cp-1", "cp-2", "cp-3"] "cp-1" ⟨withStale, []⟩).2.log).map Prod.fst = ["etcd-cp-4"] := by
  have h := reconcileEtcdMember_stale_set (fakeWorkload 2) fakeGenerator
    ["cp-1", "cp-2", "cp-3"] "cp-1" ⟨withStale, []⟩ 2 withStale.members rfl rfl
  have hf : (withStale.members.filter (fun m => decide (m.Name ≠ "") &&
      !(["cp-1", "cp-2", "cp-3"].any (fun n => stringsContains m.Name n)))).map
        (fun m => m.Name) = ["etcd-cp-4"] := by decide
  rw [hf] at h
  refine ⟨h.1, ?_⟩
  have h2 := h.2
  rw [h.1] at h2
  exact h2

theorem reconcileLoop_append {σ : Type} (w : Workload σ) (nodeNames : List String) :
    ∀ (a b : List Member) (removed : List String) (errs : List Err) (s : State σ),
      w.reconcileLoop nodeNames (a ++ b) removed errs s =
        w.reconcileLoop nodeNames b (w.reconcileLoop nodeNames a removed errs s).1.1
          (w.reconcileLoop nodeNames a removed errs s).1.2
          (w.reconcileLoop nodeNames a removed errs s).2 := by
  intro a
  induction a with
  | nil => intro b removed errs s; rfl
  | cons member rest ih =>
    intro b removed errs s
    simp only [List.cons_append, Workload.reconcileLoop]
    by_cases hname : member.Name = ""
    · simp only [hname, if_true]
      exact ih b removed errs s
    · by_cases hany : nodeNames.any (fun n => stringsContains member.Name n) = true
      · simp only [hname, hany, if_true, if_false]
        exact ih b removed errs s
      · simp only [hname, hany, if_false]
        cases hrm : w.removeMemberForNode member.Name s with
        | mk res s1 =>
          cases res with
          | some err => exact ih b _ _ s1
          | none => exact ih b _ _ s1

theorem reconcileAll_append {σ : Type} (w : Workload σ) (gen : ClientGenerator σ)
    (nodeNames : List String) :
    ∀ (a b : List String) (removed : List String) (errs : List Err) (s : State σ),
      w.reconcileAll gen nodeNames (a ++ b) removed errs s =
        w.reconcileAll gen nodeNames b (w.reconcileAll gen nodeNames a removed errs s).1.1
          (w.reconcileAll gen nodeNames a removed errs s).1.2
          (w.reconcileAll gen nodeNames a removed errs s).2 := by
  intro a
  induction a with
  | nil => intro b removed errs s; rfl
  | cons n rest ih =>
    intro b removed errs s
    simp only [List.cons_append, Workload.reconcileAll]
    exact ih b _ _ _

/-- The loop over the members, started at a stale member: its name is reported
whatever the removal returns, and an error of the removal is among the errors. -/
theorem reconcileLoop_stale_head {σ : Type} (w : Workload σ) (nodeNames : List String)
    (m : Member) (rest : List Member) (removed : List String) (errs : List Err) (u : State σ)
    (hname : m.Name ≠ "")
    (hstale : nodeNames.any (fun k => stringsContains m.Name k) = false) :
    m.Name ∈ (w.reconcileLoop nodeNames (m :: rest) removed errs u).1.1 ∧
      ∀ e, (w.removeMemberForNode m.Name u).1 = some e →
        e ∈ (w.reconcileLoop nodeNames (m :: rest) removed errs u).1.2 := by
  have hany : ¬ nodeNames.any (fun k => stringsContains m.Name k) = true := by
    rw [hstale]; exact Bool.false_ne_true
  simp only [Workload.reconcileLoop, if_neg hname, if_neg hany]
  cases hrm : w.removeMemberForNode m.Name u with
  | mk res s1 =>
    cases res with
    | some err =>
      obtain ⟨att, _, h2, h3, _⟩ :=
        reconcileLoop_attempts w nodeNames rest (removed ++ [m.Name]) (errs ++ [err]) s1
      simp only
      refine ⟨?_, ?_⟩
      · rw [h2]; simp
      · intro e he
        cases he
        rw [h3]; simp
    | none =>
      obtain ⟨att, _, h2, _, _⟩ :=
        reconcileLoop_attempts w nodeNames rest (removed ++ [m.Name]) errs s1
      simp only
      refine ⟨?_, ?_⟩
      · rw [h2]; simp
      · intro e he
        cases he

/-- C7: take the node `n` of the list, the state `t` in which it is visited, the
members `M` that its client lists there, a member `m` of `M` whose name is
non-empty and contains no live node name, and the state `u` in which the loop
reaches `m`. The name of `m` is in the list that `ReconcileEtcdMembers` returns,
whatever `removeMemberForNode` returns for it in `u`; when that call returns an
error, the returned error is an aggregate that holds it. Moreover the returned
names are the names of the removal attempts made, in order, the returned error is
the aggregate of the errors of the failed attempts, and it is non-nil exactly
when at least one attempt failed. -/
theorem ReconcileEtcdMembers_records_every_attempt {σ : Type} (w : Workload σ)
    (gen : ClientGenerator σ) (s t u : State σ) (pre post : List String) (n : String)
    (leader : Nat) (M mpre mpost : List Member) (m : Member)
    (hgen : w.etcdClientGenerator = some gen)
    (ht : (w.reconcileAll gen (pre ++ n :: post) pre [] [] s).2 = t)
    (hdial : gen.createClient t.world (staticPodName "etcd" n) = Except.ok leader)
    (hM : gen.etcd.Members t.world ⟨t.log.length, staticPodName "etcd" n, leader⟩ = Except.ok M)
    (hsplit : M = mpre ++ m :: mpost)
    (hu : (w.reconcileLoop (pre ++ n :: post) mpre [] []
      ⟨t.world, t.log ++ [Event.createClient (staticPodName "etcd" n)
          (some ⟨t.log.length, staticPodName "etcd" n, leader⟩),
        Event.Members ⟨t.log.length, staticPodName "etcd" n, leader⟩ (some M)]⟩).2 = u)
    (hname : m.Name ≠ "")
    (hstale : (pre ++ n :: post).any (fun k => stringsContains m.Name k) = false) :
    m.Name ∈ (w.ReconcileEtcdMembers (pre ++ n :: post) s).1.1 ∧
      (∀ e, (w.removeMemberForNode m.Name u).1 = some e →
        ∃ errs, (w.ReconcileEtcdMembers (pre ++ n :: post) s).1.2 = some (Err.aggregate errs) ∧
          e ∈ errs) ∧
      ∃ att : List (String × Option Err),
        removalAttempts (w.ReconcileEtcdMembers (pre ++ n :: post) s).2.log =
          removalAttempts s.log ++ att ∧
        (w.ReconcileEtcdMembers (pre ++ n :: post) s).1.1 = att.map Prod.fst ∧
        (w.ReconcileEtcdMembers (pre ++ n :: post) s).1.2 =
          NewAggregate (att.filterMap Prod.snd) ∧
        ((w.ReconcileEtcdMembers (pre ++ n :: post) s).1.2 ≠ none ↔ ∃ a ∈ att, a.2 ≠ none) := by
  have hvisit : (w.reconcileEtcdMember gen (pre ++ n :: post) n t).1 =
      (w.reconcileLoop (pre ++ n :: post) (m :: mpost)
        (w.reconcileLoop (pre ++ n :: post) mpre [] []
          ⟨t.world, t.log ++ [Event.createClient (staticPodName "etcd" n)
              (some ⟨t.log.length, staticPodName "etcd" n, leader⟩),
            Event.Members ⟨t.log.length, staticPodName "etcd" n, leader⟩ (some M)]⟩).1.1
        (w.reconcileLoop (pre ++ n :: post) mpre [] []
          ⟨t.world, t.log ++ [Event.createClient (staticPodName "etcd" n)
              (some ⟨t.log.length, staticPodName "etcd" n, leader⟩),
            Event.Members ⟨t.log.length, staticPodName "etcd" n, leader⟩ (some M)]⟩).1.2
        u).1 := by
    rw [← hu, ← reconcileLoop_append, ← hsplit]
    simp [Workload.reconcileEtcdMember, ForFirstAvailableNode_single gen n t leader hdial,
      Workload.reconcileBody, Etcd.members, State.record, hM]
  obtain ⟨hin, herr⟩ := reconcileLoop_stale_head w (pre ++ n :: post) m mpost
    (w.reconcileLoop (pre ++ n :: post) mpre [] []
      ⟨t.world, t.log ++ [Event.createClient (staticPodName "etcd" n)
          (some ⟨t.log.length, staticPodName "etcd" n, leader⟩),
        Event.Members ⟨t.log.length, staticPodName "etcd" n, leader⟩ (some M)]⟩).1.1
    (w.reconcileLoop (pre ++ n :: post) mpre [] []
      ⟨t.world, t.log ++ [Event.createClient (staticPodName "etcd" n)
          (some ⟨t.log.length, staticPodName "etcd" n, leader⟩),
        Event.Members ⟨t.log.length, staticPodName "etcd" n, leader⟩ (some M)]⟩).1.2
    u hname hstale
  rw [← hvisit] at hin herr
  have hall : w.reconcileAll gen (pre ++ n :: post) (pre ++ n :: post) [] [] s =
      w.reconcileAll gen (pre ++ n :: post) post
        ((w.reconcileAll gen (pre ++ n :: post) pre [] [] s).1.1 ++
          (w.reconcileEtcdMember gen (pre ++ n :: post) n t).1.1)
        ((w.reconcileAll gen (pre ++ n :: post) pre [] [] s).1.2 ++
          (w.reconcileEtcdMember gen (pre ++ n :: post) n t).1.2)
        (w.reconcileEtcdMember gen (pre ++ n :: post) n t).2 := by
    rw [reconcileAll_append w gen (pre ++ n :: post) pre (n :: post) [] [] s, ht]
    simp only [Workload.reconcileAll]
  obtain ⟨att2, _, b2, b3, _⟩ := reconcileAll_attempts w gen (pre ++ n :: post) post
    ((w.reconcileAll gen (pre ++ n :: post) pre [] [] s).1.1 ++
      (w.reconcileEtcdMember gen (pre ++ n :: post) n t).1.1)
    ((w.reconcileAll gen (pre ++ n :: post) pre [] [] s).1.2 ++
      (w.reconcileEtcdMember gen (pre ++ n :: post) n t).1.2)
    (w.reconcileEtcdMember gen (pre ++ n :: post) n t).2
  obtain ⟨att, h1, h2, h3, _⟩ :=
    reconcileAll_attempts w gen (pre ++ n :: post) (pre ++ n :: post) [] [] s
  simp only [Workload.ReconcileEtcdMembers, hgen]
  refine ⟨?_, ?_, att, h1, by simpa using h2, ?_, ?_⟩
  · rw [hall, b2]
    simp only [List.mem_append]
    exact Or.inl (Or.inr hin)
  · intro e he
    have hmem : e ∈ (w.reconcileAll gen (pre ++ n :: post) (pre ++ n :: post) [] [] s).1.2 := by
      rw [hall, b3]
      simp only [List.mem_append]
      exact Or.inl (Or.inr (herr e he))
    refine ⟨(w.reconcileAll gen (pre ++ n :: post) (pre ++ n :: post) [] [] s).1.2, ?_, hmem⟩
    unfold NewAggregate
    rw [if_neg]
    intro hlen
    rw [List.length_eq_zero] at hlen
    rw [hlen] at hmem
    exact absurd hmem (List.not_mem_nil e)
  · simp only [h3, List.nil_append]
  · simp only [h3, List.nil_append, ne_eq, NewAggregate_eq_none_iff]
    constructor
    · intro hne
      cases hfm : att.filterMap Prod.snd with
      | nil => exact absurd hfm hne
      | cons e es =>
        have hmem : e ∈ att.filterMap Prod.snd := by rw [hfm]; simp
        obtain ⟨a, ha, hae⟩ := List.mem_filterMap.mp hmem
        exact ⟨a, ha, by rw [hae]; simp⟩
    · rintro ⟨a, ha, hsome⟩ hnil
      cases hsnd : a.2 with
      | none => exact hsome hsnd
      | some e =>
        have hmem : e ∈ att.filterMap Prod.snd := List.mem_filterMap.mpr ⟨a, ha, hsnd⟩
        rw [hnil] at hmem
        simp at hmem

/-- C7, on the test double. In front of the store that refuses removals the
removal of `etcd-cp-4` fails, its name is returned all the same and the failure
is in the returned aggregate; in front of the store that applies removals the
removal succeeds, the name is returned and the error is nil. -/
theorem ReconcileEtcdMembers_records_every_attempt_witness :
    (((stuckWorkload 2).removeMemberForNode "etcd-cp-4"
          ⟨withStale, [Event.createClient "etcd-cp-1" (some ⟨0, "etcd-cp-1", 2⟩),
            Event.Members ⟨0, "etcd-cp-1", 2⟩ (some withStale.members)]⟩).1 =
        some (Err.wrap (Err.text "etcdserver: unhealthy cluster")
          "failed to remove member from etcd") ∧
      "etcd-cp-4" ∈ ((stuckWorkload 2).ReconcileEtcdMembers ([] ++ "cp-1" :: ["cp-2", "cp-3"])
        ⟨withStale, []⟩).1.1 ∧
      ∃ errs, ((stuckWorkload 2).ReconcileEtcdMembers ([] ++ "cp-1" :: ["cp-2", "cp-3"])
          ⟨withStale, []⟩).1.2 = some (Err.aggregate errs) ∧
        Err.wrap (Err.text "etcdserver: unhealthy cluster")
          "failed to remove member from etcd" ∈ errs) ∧
    (((fakeWorkload 2).removeMemberForNode "etcd-cp-4"
          ⟨withStale, [Event.createClient "etcd-cp-1" (some ⟨0, "etcd-cp-1", 2⟩),
            Event.Members ⟨0, "etcd-cp-1", 2⟩ (some withStale.members)]⟩).1 = none ∧
      "etcd-cp-4" ∈ ((fakeWorkload 2).ReconcileEtcdMembers ([] ++ "cp-1" :: ["cp-2", "cp-3"])
        ⟨withStale, []⟩).1.1 ∧
      ((fakeWorkload 2).ReconcileEtcdMembers ([] ++ "cp-1" :: ["cp-2", "cp-3"])
        ⟨withStale, []⟩).1.2 = none) := by
  have hstuck := ReconcileEtcdMembers_records_every_attempt (stuckWorkload 2) stuckGenerator
    ⟨withStale, []⟩ ⟨withStale, []⟩
    ⟨withStale, [Event.createClient "etcd-cp-1" (some ⟨0, "etcd-cp-1", 2⟩),
      Event.Members ⟨0, "etcd-cp-1", 2⟩ (some withStale.members)]⟩
    [] ["cp-2", "cp-3"] "cp-1" 2 withStale.members
    [⟨1, "etcd-cp-1"⟩, ⟨2, "etcd-cp-2"⟩, ⟨5, ""⟩, ⟨3, "etcd-cp-3"⟩] [] ⟨4, "etcd-cp-4"⟩
    rfl rfl rfl rfl rfl rfl (by decide) (by decide)
  have hfake := ReconcileEtcdMembers_records_every_attempt (fakeWorkload 2) fakeGenerator
    ⟨withStale, []⟩ ⟨withStale, []⟩
    ⟨withStale, [Event.createClient "etcd-cp-1" (some ⟨0, "etcd-cp-1", 2⟩),
      Event.Members ⟨0, "etcd-cp-1", 2⟩ (some withStale.members)]⟩
    [] ["cp-2", "cp-3"] "cp-1" 2 withStale.members
    [⟨1, "etcd-cp-1"⟩, ⟨2, "etcd-cp-2"⟩, ⟨5, ""⟩, ⟨3, "etcd-cp-3"⟩] [] ⟨4, "etcd-cp-4"⟩
    rfl rfl rfl rfl rfl rfl (by decide) (by decide)
  exact ⟨⟨rfl, hstuck.1, hstuck.2.1 _ rfl⟩, ⟨rfl, hfake.1, rfl⟩⟩

/-! ## Calls that leave the store alone -/

theorem mutations_append (l₁ l₂ : List Event) :
    mutations (l₁ ++ l₂) = mutations l₁ ++ mutations l₂ := by
  induction l₁ with
  | nil => rfl
  | cons e l ih => cases e <;> simp [mutations, ih]

theorem Quiet.refl {σ : Type} (s : State σ) : Quiet s s := ⟨rfl, rfl⟩

theorem Quiet.trans {σ : Type} {s t u : State σ} (h₁ : Quiet s t) (h₂ : Quiet t u) :
    Quiet s u :=
  ⟨h₂.1.trans h₁.1, h₂.2.trans h₁.2⟩

theorem Quiet.record {σ : Type} (s : State σ) (e : Event) (he : mutations [e] = []) :
    Quiet s (s.record e) :=
  ⟨rfl, by simp [State.record, mutations_append, he]⟩

theorem Quiet.dial {σ : Type} (c : ClientGenerator σ) (endpoint : String) (s : State σ) :
    Quiet s (c.dial endpoint s).2 := by
  unfold ClientGenerator.dial
  split <;> exact Quiet.record _ _ rfl

theorem Quiet.firstAvailableLoop {σ : Type} (c : ClientGenerator σ) :
    ∀ (names : List String) (errs : List Err) (s : State σ),
      Quiet s (c.firstAvailableLoop names errs s).2 := by
  intro names
  induction names with
  | nil => intro errs s; exact Quiet.refl s
  | cons name rest ih =>
    intro errs s
    unfold ClientGenerator.firstAvailableLoop
    have hd := Quiet.dial c (staticPodName "etcd" name) s
    split
    · rename_i err s1 heq
      rw [heq] at hd
      exact hd.trans (ih (errs ++ [err]) s1)
    · rename_i client s1 heq
      rw [heq] at hd
      exact hd

theorem Quiet.ForFirstAvailableNode {σ : Type} (c : ClientGenerator σ) (names : List String)
    (s : State σ) : Quiet s (c.ForFirstAvailableNode names s).2 := by
  unfold ClientGenerator.ForFirstAvailableNode
  split
  · exact Quiet.refl s
  · exact Quiet.firstAvailableLoop c names [] s

theorem Quiet.members {σ : Type} (e : Etcd σ) (client : Client) (s : State σ) :
    Quiet s (e.members client s).2 := by
  unfold Etcd.members
  split <;> exact Quiet.record _ _ rfl

theorem Quiet.getLeaderClientBody {σ : Type} (c : ClientGenerator σ) (client : Client)
    (nodeNames : List String) (s : State σ) :
    Quiet s (c.getLeaderClientBody client nodeNames s).2 := by
  unfold ClientGenerator.getLeaderClientBody
  have hm := Quiet.members c.etcd client s
  split
  · rename_i heq
    rw [heq] at hm
    exact hm
  · rename_i members s1 heq
    rw [heq] at hm
    split
    · simp only
      split
      · exact hm
      · exact hm.trans (Quiet.ForFirstAvailableNode c _ s1)
    · exact hm

theorem Quiet.getLeaderClient {σ : Type} (c : ClientGenerator σ) (nodeName : String)
    (nodeNames : List String) (s : State σ) :
    Quiet s (c.getLeaderClient nodeName nodeNames s).2 := by
  unfold ClientGenerator.getLeaderClient
  have hf := Quiet.ForFirstAvailableNode c [nodeName] s
  split
  · rename_i heq
    rw [heq] at hf
    exact hf
  · rename_i heq
    rw [heq] at hf
    exact hf.trans (Quiet.record _ Event.nilDereference rfl)
  · rename_i client s1 heq
    rw [heq] at hf
    exact (hf.trans (Quiet.getLeaderClientBody c client nodeNames s1)).trans
      (Quiet.record _ (Event.Close client) rfl)

theorem Quiet.leaderLoop {σ : Type} (c : ClientGenerator σ) (nodeNames : List String) :
    ∀ (names : List String) (errs : List Err) (s : State σ),
      Quiet s (c.leaderLoop nodeNames names errs s).2 := by
  intro names
  induction names with
  | nil => intro errs s; exact Quiet.refl s
  | cons name rest ih =>
    intro errs s
    unfold ClientGenerator.leaderLoop
    have hg := Quiet.getLeaderClient c name nodeNames s
    split
    · rename_i err s1 heq
      rw [heq] at hg
      split
      · exact hg.trans (ih (errs ++ [err]) s1)
      · exact hg
    · rename_i heq
      rw [heq] at hg
      exact hg

/-- Obtaining a leader client changes nothing in the store. -/
theorem Quiet.ForLeader {σ : Type} (c : ClientGenerator σ) (names : List String)
    (s : State σ) : Quiet s (c.ForLeader names s).2 := by
  unfold ClientGenerator.ForLeader
  split
  · exact Quiet.refl s
  · exact Quiet.leaderLoop c names names [] s

/-! ## Leadership forwarding -/

/-- C8: with a machine and a candidate that both have a node, a client generator,
a fetched inventory, a leader client and a fetched member list, if the member
resolved for the outgoing node is missing or its identifier is not the leader
identifier of the client, `ForwardEtcdLeadership` returns nil; after the leader
client is obtained the log gains only the member listing and the close, the whole
call adds no `MoveLeader` or `RemoveMember` entry to the log and the world is
unchanged, whatever the candidate. -/
theorem ForwardEtcdLeadership_not_leader_noop {σ : Type} (w : Workload σ)
    (gen : ClientGenerator σ) (machine candidate : Machine) (mref cref : ObjectReference)
    (s s2 : State σ) (items : List String) (client : Client) (M : List Member)
    (hgen : w.etcdClientGenerator = some gen)
    (hm : machine.Status.NodeRef = some mref)
    (hc : candidate.Status.NodeRef = some cref)
    (hnodes : w.getControlPlaneNodes s.world = Except.ok items)
    (hleader : gen.ForLeader items (s.record Event.getControlPlaneNodes) =
      ((some client, none), s2))
    (hmembers : gen.etcd.Members s.world client = Except.ok M)
    (hnot : ∀ cur, MemberForName M mref.Name = some cur → cur.ID ≠ client.LeaderID) :
    w.ForwardEtcdLeadership (some machine) (some candidate) s =
        (none, ⟨s.world, s2.log ++ [Event.Members client (some M), Event.Close client]⟩) ∧
      mutations (s2.log ++ [Event.Members client (some M), Event.Close client]) =
        mutations s.log := by
  have hq : Quiet s s2 := by
    have h := (Quiet.record s Event.getControlPlaneNodes rfl).trans
      (Quiet.ForLeader gen items (s.record Event.getControlPlaneNodes))
    rw [hleader] at h
    exact h
  have hmembers2 : gen.etcd.Members s2.world client = Except.ok M := by rw [hq.1]; exact hmembers
  have hbody : Workload.forwardBody gen client mref.Name cref.Name s2 =
      (none, s2.record (Event.Members client (some M))) := by
    simp only [Workload.forwardBody, Etcd.members, hmembers2]
    cases hcur : MemberForName M mref.Name with
    | none => rfl
    | some cur => simp [hnot cur hcur]
  constructor
  · simp only [Workload.ForwardEtcdLeadership, Option.bind, hm, hc, hgen, Workload.nodes, hnodes,
      hleader, hbody]
    simp [Client.Close, State.record, hq.1]
  · rw [mutations_append, hq.2]
    simp [mutations]

/-- C8, on the scenario of the spec: forwarding from `cp-1` to `cp-3` while the
leader is member 2 returns nil and issues no transfer. -/
theorem ForwardEtcdLeadership_not_leader_noop_witness :
    (fakeWorkload 2).ForwardEtcdLeadership (some ⟨⟨some ⟨"cp-1"⟩⟩⟩) (some ⟨⟨some ⟨"cp-3"⟩⟩⟩)
        ⟨scenario, []⟩ =
      (none, ⟨scenario,
        [Event.getControlPlaneNodes,
         Event.createClient "etcd-cp-1" (some ⟨1, "etcd-cp-1", 2⟩),
         Event.Members ⟨1, "etcd-cp-1", 2⟩ (some scenario.members),
         Event.createClient "etcd-cp-2" (some ⟨3, "etcd-cp-2", 2⟩),
         Event.Close ⟨1, "etcd-cp-1", 2⟩,
         Event.Members ⟨3, "etcd-cp-2", 2⟩ (some scenario.members),
         Event.Close ⟨3, "etcd-cp-2", 2⟩]⟩) ∧
      mutations
        [Event.getControlPlaneNodes,
         Event.createClient "etcd-cp-1" (some ⟨1, "etcd-cp-1", 2⟩),
         Event.Members ⟨1, "etcd-cp-1", 2⟩ (some scenario.members),
         Event.createClient "etcd-cp-2" (some ⟨3, "etcd-cp-2", 2⟩),
         Event.Close ⟨1, "etcd-cp-1", 2⟩,
         Event.Members ⟨3, "etcd-cp-2", 2⟩ (some scenario.members),
         Event.Close ⟨3, "etcd-cp-2", 2⟩] = [] :=
  ForwardEtcdLeadership_not_leader_noop (fakeWorkload 2) fakeGenerator
    ⟨⟨some ⟨"cp-1"⟩⟩⟩ ⟨⟨some ⟨"cp-3"⟩⟩⟩ ⟨"cp-1"⟩ ⟨"cp-3"⟩ ⟨scenario, []⟩
    (fakeGenerator.ForLeader scenario.nodes
      ((⟨scenario, []⟩ : State Fake).record Event.getControlPlaneNodes)).2
    scenario.nodes ⟨3, "etcd-cp-2", 2⟩ scenario.members rfl rfl rfl rfl rfl rfl
    (by decide)

/-- C9: when the member of the outgoing node has the leader identifier of the
client and the candidate node resolves to the member `next`,
`ForwardEtcdLeadership` issues exactly one `MoveLeader` call, for `next.ID`,
between the member listing and the close, and no other call that changes the
store; it returns nil when that call returns nil and the wrapped error when it
fails. -/
theorem ForwardEtcdLeadership_transfers {σ : Type} (w : Workload σ)
    (gen : ClientGenerator σ) (machine candidate : Machine) (mref cref : ObjectReference)
    (s s2 : State σ) (items : List String) (client : Client) (M : List Member)
    (cur next : Member)
    (hgen : w.etcdClientGenerator = some gen)
    (hm : machine.Status.NodeRef = some mref)
    (hc : candidate.Status.NodeRef = some cref)
    (hnodes : w.getControlPlaneNodes s.world = Except.ok items)
    (hleader : gen.ForLeader items (s.record Event.getControlPlaneNodes) =
      ((some client, none), s2))
    (hmembers : gen.etcd.Members s.world client = Except.ok M)
    (hcur : MemberForName M mref.Name = some cur)
    (hid : cur.ID = client.LeaderID)
    (hnext : MemberForName M cref.Name = some next) :
    w.ForwardEtcdLeadership (some machine) (some candidate) s =
        (Wrap (gen.etcd.MoveLeader s.world client next.ID).1 "failed to move leader",
          ⟨(gen.etcd.MoveLeader s.world client next.ID).2,
            s2.log ++ [Event.Members client (some M), Event.MoveLeader client next.ID,
              Event.Close client]⟩) ∧
      mutations (s2.log ++ [Event.Members client (some M), Event.MoveLeader client next.ID,
          Event.Close client]) =
        mutations s.log ++ [Event.MoveLeader client next.ID] := by
  have hq : Quiet s s2 := by
    have h := (Quiet.record s Event.getControlPlaneNodes rfl).trans
      (Quiet.ForLeader gen items (s.record Event.getControlPlaneNodes))
    rw [hleader] at h
    exact h
  have hmembers2 : gen.etcd.Members s2.world client = Except.ok M := by rw [hq.1]; exact hmembers
  have hbody : Workload.forwardBody gen client mref.Name cref.Name s2 =
      (Wrap (gen.etcd.MoveLeader s.world client next.ID).1 "failed to move leader",
        ⟨(gen.etcd.MoveLeader s.world client next.ID).2,
          s2.log ++ [Event.Members client (some M), Event.MoveLeader client next.ID]⟩) := by
    simp only [Workload.forwardBody, Etcd.members, hmembers2, hcur, hid, hnext, Etcd.moveLeader,
      State.record]
    rw [hq.1]
    cases hmv : (gen.etcd.MoveLeader s.world client next.ID).1 <;> simp [hmv, Wrap]
  constructor
  · simp only [Workload.ForwardEtcdLeadership, Option.bind, hm, hc, hgen, Workload.nodes, hnodes,
      hleader, hbody]
    simp [Client.Close, State.record]
  · rw [mutations_append, hq.2]
    simp [mutations]

/-- C9, on the scenario of the spec: forwarding from `cp-2` to `cp-3` while the
leader is member 2 issues one transfer, to identifier 3, and returns nil. -/
theorem ForwardEtcdLeadership_transfers_witness :
    (fakeWorkload 2).ForwardEtcdLeadership (some ⟨⟨some ⟨"cp-2"⟩⟩⟩) (some ⟨⟨some ⟨"cp-3"⟩⟩⟩)
        ⟨scenario, []⟩ =
      (none, ⟨{ scenario with leader := 3 },
        [Event.getControlPlaneNodes,
         Event.createClient "etcd-cp-1" (some ⟨1, "etcd-cp-1", 2⟩),
         Event.Members ⟨1, "etcd-cp-1", 2⟩ (some scenario.members),
         Event.createClient "etcd-cp-2" (some ⟨3, "etcd-cp-2", 2⟩),
         Event.Close ⟨1, "etcd-cp-1", 2⟩,
         Event.Members ⟨3, "etcd-cp-2", 2⟩ (some scenario.members),
         Event.MoveLeader ⟨3, "etcd-cp-2", 2⟩ 3,
         Event.Close ⟨3, "etcd-cp-2", 2⟩]⟩) ∧
      mutations
        [Event.getControlPlaneNodes,
         Event.createClient "etcd-cp-1" (some ⟨1, "etcd-cp-1", 2⟩),
         Event.Members ⟨1, "etcd-cp-1", 2⟩ (some scenario.members),
         Event.createClient "etcd-cp-2" (some ⟨3, "etcd-cp-2", 2⟩),
         Event.Close ⟨1, "etcd-cp-1", 2⟩,
         Event.Members ⟨3, "etcd-cp-2", 2⟩ (some scenario.members),
         Event.MoveLeader ⟨3, "etcd-cp-2", 2⟩ 3,
         Event.Close ⟨3, "etcd-cp-2", 2⟩] = [Event.MoveLeader ⟨3, "etcd-cp-2", 2⟩ 3] :=
  ForwardEtcdLeadership_transfers (fakeWorkload 2) fakeGenerator
    ⟨⟨some ⟨"cp-2"⟩⟩⟩ ⟨⟨some ⟨"cp-3"⟩⟩⟩ ⟨"cp-2"⟩ ⟨"cp-3"⟩ ⟨scenario, []⟩
    (fakeGenerator.ForLeader scenario.nodes
      ((⟨scenario, []⟩ : State Fake).record Event.getControlPlaneNodes)).2
    scenario.nodes ⟨3, "etcd-cp-2", 2⟩ scenario.members ⟨2, "etcd-cp-2"⟩ ⟨3, "etcd-cp-3"⟩
    rfl rfl rfl rfl rfl rfl rfl rfl rfl

/-! ## Idempotent removal -/

/-- C10: when the inventory passes the guard, a client is obtained through a
remaining node and no member it lists matches the name, `removeMemberForNode`
returns nil; the log gains only the member listing, the close and the return
marker after the dial, the whole call adds no `RemoveMember` entry to the log and
the world is unchanged. This is the situation of a second call after a removal
that the store has applied. -/
theorem removeMemberForNode_already_removed {σ : Type} (w : Workload σ)
    (gen : ClientGenerator σ) (name : String) (s s2 : State σ) (items : List String)
    (client : Client) (M : List Member)
    (hgen : w.etcdClientGenerator = some gen)
    (hnodes : w.getControlPlaneNodes s.world = Except.ok items)
    (hguard : ¬ items.length < w.minimalNodeCount)
    (hclient : gen.ForFirstAvailableNode (items.filter (fun n => !stringsContains name n))
      (s.record Event.getControlPlaneNodes) = ((some client, none), s2))
    (hmembers : gen.etcd.Members s.world client = Except.ok M)
    (hnone : MemberForName M name = none) :
    w.removeMemberForNode name s =
        (none, ⟨s.world, s2.log ++ [Event.Members client (some M), Event.Close client,
          Event.removeMemberForNode name none]⟩) ∧
      mutations (s2.log ++ [Event.Members client (some M), Event.Close client,
          Event.removeMemberForNode name none]) = mutations s.log := by
  have hq : Quiet s s2 := by
    have h := (Quiet.record s Event.getControlPlaneNodes rfl).trans
      (Quiet.ForFirstAvailableNode gen (items.filter (fun n => !stringsContains name n))
        (s.record Event.getControlPlaneNodes))
    rw [hclient] at h
    exact h
  have hmembers2 : gen.etcd.Members s2.world client = Except.ok M := by rw [hq.1]; exact hmembers
  have hbody : Workload.removeMemberBody gen client name s2 =
      (none, s2.record (Event.Members client (some M))) := by
    simp [Workload.removeMemberBody, Etcd.members, hmembers2, hnone]
  have hcore : w.removeMemberCore name s =
      (none, (s2.record (Event.Members client (some M))).record (Event.Close client)) := by
    simp [Workload.removeMemberCore, Workload.nodes, hnodes, hguard, hgen, hclient, hbody,
      Client.Close]
  constructor
  · simp [Workload.removeMemberForNode, hcore, State.record, hq.1]
  · rw [mutations_append, hq.2]
    simp [mutations]

/-- C10, on the test double: a first removal of `cp-4` issues one `RemoveMember`
call for identifier 4 and succeeds; the second call, from the state the first one
left, returns nil and issues no `RemoveMember` call. -/
theorem removeMemberForNode_already_removed_witness :
    (fakeWorkload 2).removeMemberForNode "cp-4" ⟨withStale, []⟩ =
        (none, ⟨afterRemoval,
          [Event.getControlPlaneNodes,
           Event.createClient "etcd-cp-1" (some ⟨1, "etcd-cp-1", 2⟩),
           Event.Members ⟨1, "etcd-cp-1", 2⟩ (some withStale.members),
           Event.RemoveMember ⟨1, "etcd-cp-1", 2⟩ 4,
           Event.Close ⟨1, "etcd-cp-1", 2⟩,
           Event.removeMemberForNode "cp-4" none]⟩) ∧
      (fakeWorkload 2).removeMemberForNode "cp-4"
          ((fakeWorkload 2).removeMemberForNode "cp-4" ⟨withStale, []⟩).2 =
        (none, ⟨afterRemoval,
          [Event.getControlPlaneNodes,
           Event.createClient "etcd-cp-1" (some ⟨1, "etcd-cp-1", 2⟩),
           Event.Members ⟨1, "etcd-cp-1", 2⟩ (some withStale.members),
           Event.RemoveMember ⟨1, "etcd-cp-1", 2⟩ 4,
           Event.Close ⟨1, "etcd-cp-1", 2⟩,
           Event.removeMemberForNode "cp-4" none,
           Event.getControlPlaneNodes,
           Event.createClient "etcd-cp-1" (some ⟨7, "etcd-cp-1", 2⟩),
           Event.Members ⟨7, "etcd-cp-1", 2⟩ (some afterRemoval.members),
           Event.Close ⟨7, "etcd-cp-1", 2⟩,
           Event.removeMemberForNode "cp-4" none]⟩) ∧
      mutations ((fakeWorkload 2).removeMemberForNode "cp-4"
          ((fakeWorkload 2).removeMemberForNode "cp-4" ⟨withStale, []⟩).2).2.log =
        [Event.RemoveMember ⟨1, "etcd-cp-1", 2⟩ 4] :=
  ⟨rfl,
    removeMemberForNode_already_removed (fakeWorkload 2) fakeGenerator "cp-4"
      ((fakeWorkload 2).removeMemberForNode "cp-4" ⟨withStale, []⟩).2
      (fakeGenerator.ForFirstAvailableNode ["cp-1", "cp-2", "cp-3"]
        (((fakeWorkload 2).removeMemberForNode "cp-4" ⟨withStale, []⟩).2.record
          Event.getControlPlaneNodes)).2
      ["cp-1", "cp-2", "cp-3"] ⟨7, "etcd-cp-1", 2⟩ afterRemoval.members
      rfl rfl (by decide) rfl rfl rfl⟩

/-! ## Unreachable candidates -/

theorem firstAvailableLoop_all_fail {σ : Type} (c : ClientGenerator σ) (w : σ)
    (errOf : String → Err) :
    ∀ (names : List String) (errs : List Err) (log : List Event),
      (∀ m ∈ names, c.createClient w (staticPodName "etcd" m) = Except.error (errOf m)) →
      c.firstAvailableLoop names errs ⟨w, log⟩ =
        ((none, Wrap (NewAggregate (errs ++ names.map errOf))
            "could not establish a connection to any etcd node"),
          ⟨w, log ++ names.map (fun m => Event.createClient (staticPodName "etcd" m) none)⟩) := by
  intro names
  induction names with
  | nil =>
    intro errs log _
    simp [ClientGenerator.firstAvailableLoop]
  | cons m rest ih =>
    intro errs log h
    have hm := h m (List.mem_cons_self m rest)
    have hrest : ∀ k ∈ rest, c.createClient w (staticPodName "etcd" k) = Except.error (errOf k) :=
      fun k hk => h k (List.mem_cons_of_mem m hk)
    have hi := ih (errs ++ [errOf m])
      (log ++ [Event.createClient (staticPodName "etcd" m) none]) hrest
    simp only [ClientGenerator.firstAvailableLoop, ClientGenerator.dial, hm, State.record]
    rw [hi]
    simp

theorem getLeaderClient_unreachable {σ : Type} (c : ClientGenerator σ) (m : String)
    (nodeNames : List String) (s : State σ) (err : Err)
    (hm : c.createClient s.world (staticPodName "etcd" m) = Except.error err) :
    c.getLeaderClient m nodeNames s =
      ((none, some (connectionFailure err)),
        ⟨s.world, s.log ++ [Event.createClient (staticPodName "etcd" m) none]⟩) := by
  simp [ClientGenerator.getLeaderClient, ClientGenerator.ForFirstAvailableNode,
    ClientGenerator.firstAvailableLoop, ClientGenerator.dial, hm, State.record, NewAggregate, Wrap,
    connectionFailure]

theorem isEtcdNodeConnection_connectionFailure (err : Err) :
    isEtcdNodeConnection (connectionFailure err) = true := by
  simp [connectionFailure, isEtcdNodeConnection, anyIsEtcdNodeConnection, errEtcdNodeConnection]

/-- The loop of `ForLeader` passes over candidates whose dial fails: each adds
one failed dial to the log and one connection failure to the collected errors. -/
theorem leaderLoop_skip {σ : Type} (c : ClientGenerator σ) (nodeNames : List String) (w : σ)
    (errOf : String → Err) (rest : List String) :
    ∀ (pre : List String) (errs : List Err) (log : List Event),
      (∀ m ∈ pre, c.createClient w (staticPodName "etcd" m) = Except.error (errOf m)) →
      c.leaderLoop nodeNames (pre ++ rest) errs ⟨w, log⟩ =
        c.leaderLoop nodeNames rest (errs ++ pre.map (fun m => connectionFailure (errOf m)))
          ⟨w, log ++ pre.map (fun m => Event.createClient (staticPodName "etcd" m) none)⟩ := by
  intro pre
  induction pre with
  | nil =>
    intro errs log _
    simp
  | cons m pre ih =>
    intro errs log h
    have hm := h m (List.mem_cons_self m pre)
    have hrest : ∀ k ∈ pre, c.createClient w (staticPodName "etcd" k) = Except.error (errOf k) :=
      fun k hk => h k (List.mem_cons_of_mem m hk)
    have hi := ih (errs ++ [connectionFailure (errOf m)])
      (log ++ [Event.createClient (staticPodName "etcd" m) none]) hrest
    have hg := getLeaderClient_unreachable c m nodeNames ⟨w, log⟩ (errOf m) hm
    rw [List.cons_append, ClientGenerator.leaderLoop, hg]
    simp only [isEtcdNodeConnection_connectionFailure, if_true]
    rw [hi]
    simp

/-- C14: a candidate whose dial fails makes `getLeaderClient` return an error
that `errors.Is` classifies as `errEtcdNodeConnection`; when the dial of every
candidate of a non-empty list fails, `ForLeader` dials each candidate once, in
list order, and returns no client and the aggregate of one connection failure per
candidate, wrapped as "could not establish a connection to the etcd leader". -/
theorem ForLeader_all_unreachable {σ : Type} (c : ClientGenerator σ) (s : State σ)
    (names : List String) (errOf : String → Err)
    (hne : names ≠ [])
    (hfail : ∀ m ∈ names,
      c.createClient s.world (staticPodName "etcd" m) = Except.error (errOf m)) :
    (∀ m ∈ names,
        (c.getLeaderClient m names s).1 = (none, some (connectionFailure (errOf m))) ∧
        isEtcdNodeConnection (connectionFailure (errOf m)) = true) ∧
      c.ForLeader names s =
        ((none, some (Err.wrap
            (Err.aggregate (names.map (fun m => connectionFailure (errOf m))))
            "could not establish a connection to the etcd leader")),
          ⟨s.world,
            s.log ++ names.map (fun m => Event.createClient (staticPodName "etcd" m) none)⟩) := by
  constructor
  · intro m hm
    exact ⟨by rw [getLeaderClient_unreachable c m names s (errOf m) (hfail m hm)],
      isEtcdNodeConnection_connectionFailure _⟩
  · have hlen : ¬ names.length = 0 := by
      cases names with
      | nil => exact absurd rfl hne
      | cons a l => simp
    have hskip := leaderLoop_skip c names s.world errOf [] names [] s.log hfail
    rw [List.append_nil] at hskip
    unfold ClientGenerator.ForLeader
    rw [if_neg hlen, hskip]
    cases names with
    | nil => exact absurd rfl hne
    | cons a l => simp [ClientGenerator.leaderLoop, NewAggregate, Wrap]

/-- C14, on the test double: with the three endpoints down, `ForLeader` dials
`cp-1`, `cp-2`, `cp-3` once each and returns the wrapped aggregate of three
connection failures. -/
theorem ForLeader_all_unreachable_witness :
    (∀ m ∈ ["cp-1", "cp-2", "cp-3"],
        (fakeGenerator.getLeaderClient m ["cp-1", "cp-2", "cp-3"] ⟨allDown, []⟩).1 =
          (none, some (connectionFailure (Err.text "connection refused"))) ∧
        isEtcdNodeConnection (connectionFailure (Err.text "connection refused")) = true) ∧
      fakeGenerator.ForLeader ["cp-1", "cp-2", "cp-3"] ⟨allDown, []⟩ =
        ((none, some (Err.wrap
            (Err.aggregate
              [connectionFailure (Err.text "connection refused"),
               connectionFailure (Err.text "connection refused"),
               connectionFailure (Err.text "connection refused")])
            "could not establish a connection to the etcd leader")),
          ⟨allDown,
            [Event.createClient "etcd-cp-1" none, Event.createClient "etcd-cp-2" none,
             Event.createClient "etcd-cp-3" none]⟩) :=
  ForLeader_all_unreachable fakeGenerator ⟨allDown, []⟩ ["cp-1", "cp-2", "cp-3"]
    (fun _ => Err.text "connection refused") (by decide)
    (fun m hm => by
      simp only [List.mem_cons, List.mem_singleton, List.not_mem_nil, or_false] at hm
      rcases hm with h | h | h <;> subst h <;> rfl)

/-- C15: when the dial of every candidate of a non-empty list fails,
`ForFirstAvailableNode` dials every candidate once, in list order, and returns no
client and the aggregate of exactly the dial errors, one per candidate in list
order, wrapped as "could not establish a connection to any etcd node". -/
theorem ForFirstAvailableNode_all_fail {σ : Type} (c : ClientGenerator σ) (s : State σ)
    (names : List String) (errOf : String → Err)
    (hne : names ≠ [])
    (hfail : ∀ m ∈ names,
      c.createClient s.world (staticPodName "etcd" m) = Except.error (errOf m)) :
    c.ForFirstAvailableNode names s =
      ((none, some (Err.wrap (Err.aggregate (names.map errOf))
          "could not establish a connection to any etcd node")),
        ⟨s.world,
          s.log ++ names.map (fun m => Event.createClient (staticPodName "etcd" m) none)⟩) := by
  have hlen : ¬ names.length = 0 := by
    cases names with
    | nil => exact absurd rfl hne
    | cons a l => simp
  unfold ClientGenerator.ForFirstAvailableNode
  rw [if_neg hlen, firstAvailableLoop_all_fail c s.world errOf names [] s.log hfail]
  cases names with
  | nil => exact absurd rfl hne
  | cons a l => simp [NewAggregate, Wrap]

/-- C15, on the test double: with the three endpoints down the three dials are
made and the three errors are aggregated. -/
theorem ForFirstAvailableNode_all_fail_witness :
    fakeGenerator.ForFirstAvailableNode ["cp-1", "cp-2", "cp-3"] ⟨allDown, []⟩ =
      ((none, some (Err.wrap
          (Err.aggregate [Err.text "connection refused", Err.text "connection refused",
            Err.text "connection refused"])
          "could not establish a connection to any etcd node")),
        ⟨allDown,
          [Event.createClient "etcd-cp-1" none, Event.createClient "etcd-cp-2" none,
           Event.createClient "etcd-cp-3" none]⟩) :=
  ForFirstAvailableNode_all_fail fakeGenerator ⟨allDown, []⟩ ["cp-1", "cp-2", "cp-3"]
    (fun _ => Err.text "connection refused") (by decide)
    (fun m hm => by
      simp only [List.mem_cons, List.mem_singleton, List.not_mem_nil, or_false] at hm
      rcases hm with h | h | h <;> subst h <;> rfl)

/-! ## The log only grows during leader seeking -/

theorem grows_refl {σ : Type} (s : State σ) : Grows s s := List.prefix_refl _

theorem grows_trans {σ : Type} {s t u : State σ} (h₁ : Grows s t) (h₂ : Grows t u) :
    Grows s u :=
  List.IsPrefix.trans h₁ h₂

theorem grows_record {σ : Type} (s : State σ) (e : Event) : Grows s (s.record e) :=
  List.prefix_append _ _

theorem grows_dial {σ : Type} (c : ClientGenerator σ) (endpoint : String) (s : State σ) :
    Grows s (c.dial endpoint s).2 := by
  unfold ClientGenerator.dial
  split <;> exact grows_record _ _

theorem grows_firstAvailableLoop {σ : Type} (c : ClientGenerator σ) :
    ∀ (names : List String) (errs : List Err) (s : State σ),
      Grows s (c.firstAvailableLoop names errs s).2 := by
  intro names
  induction names with
  | nil => intro errs s; exact grows_refl s
  | cons name rest ih =>
    intro errs s
    unfold ClientGenerator.firstAvailableLoop
    have hd := grows_dial c (staticPodName "etcd" name) s
    split
    · rename_i err s1 heq
      rw [heq] at hd
      exact grows_trans hd (ih (errs ++ [err]) s1)
    · rename_i client s1 heq
      rw [heq] at hd
      exact hd

theorem grows_ForFirstAvailableNode {σ : Type} (c : ClientGenerator σ) (names : List String)
    (s : State σ) : Grows s (c.ForFirstAvailableNode names s).2 := by
  unfold ClientGenerator.ForFirstAvailableNode
  split
  · exact grows_refl s
  · exact grows_firstAvailableLoop c names [] s

theorem grows_members {σ : Type} (e : Etcd σ) (client : Client) (s : State σ) :
    Grows s (e.members client s).2 := by
  unfold Etcd.members
  split <;> exact grows_record _ _

theorem grows_getLeaderClientBody {σ : Type} (c : ClientGenerator σ) (client : Client)
    (nodeNames : List String) (s : State σ) :
    Grows s (c.getLeaderClientBody client nodeNames s).2 := by
  unfold ClientGenerator.getLeaderClientBody
  have hm := grows_members c.etcd client s
  split
  · rename_i heq
    rw [heq] at hm
    exact hm
  · rename_i members s1 heq
    rw [heq] at hm
    split
    · simp only
      split
      · exact hm
      · exact grows_trans hm (grows_ForFirstAvailableNode c _ s1)
    · exact hm

theorem grows_getLeaderClient {σ : Type} (c : ClientGenerator σ) (nodeName : String)
    (nodeNames : List String) (s : State σ) :
    Grows s (c.getLeaderClient nodeName nodeNames s).2 := by
  unfold ClientGenerator.getLeaderClient
  have hf := grows_ForFirstAvailableNode c [nodeName] s
  split
  · rename_i heq
    rw [heq] at hf
    exact hf
  · rename_i heq
    rw [heq] at hf
    exact grows_trans hf (grows_record _ Event.nilDereference)
  · rename_i client s1 heq
    rw [heq] at hf
    exact grows_trans (grows_trans hf (grows_getLeaderClientBody c client nodeNames s1))
      (grows_record _ (Event.Close client))

theorem grows_leaderLoop {σ : Type} (c : ClientGenerator σ) (nodeNames : List String) :
    ∀ (names : List String) (errs : List Err) (s : State σ),
      Grows s (c.leaderLoop nodeNames names errs s).2 := by
  intro names
  induction names with
  | nil => intro errs s; exact grows_refl s
  | cons name rest ih =>
    intro errs s
    unfold ClientGenerator.leaderLoop
    have hg := grows_getLeaderClient c name nodeNames s
    split
    · rename_i err s1 heq
      rw [heq] at hg
      split
      · exact grows_trans hg (ih (errs ++ [err]) s1)
      · exact hg
    · rename_i heq
      rw [heq] at hg
      exact hg

/-! ## The first reachable candidate -/

theorem exists_errOf {σ : Type} (c : ClientGenerator σ) (w : σ) (pre : List String)
    (hpre : ∀ m ∈ pre, ∃ err, c.createClient w (staticPodName "etcd" m) = Except.error err) :
    ∃ errOf : String → Err,
      ∀ m ∈ pre, c.createClient w (staticPodName "etcd" m) = Except.error (errOf m) := by
  refine ⟨fun m =>
    match c.createClient w (staticPodName "etcd" m) with
    | Except.error e => e
    | Except.ok _ => Err.nodeConnection, ?_⟩
  intro m hm
  obtain ⟨err, herr⟩ := hpre m hm
  simp only [herr]

/-- With the candidates before `p` unreachable, `ForLeader` reaches `p` with one
failed dial logged for each of them. -/
theorem ForLeader_reaches {σ : Type} (c : ClientGenerator σ) (s : State σ)
    (pre post : List String) (p : String)
    (hpre : ∀ m ∈ pre, ∃ err, c.createClient s.world (staticPodName "etcd" m) = Except.error err) :
    ∃ errs : List Err,
      c.ForLeader (pre ++ p :: post) s =
        c.leaderLoop (pre ++ p :: post) (p :: post) errs
          ⟨s.world,
            s.log ++ pre.map (fun m => Event.createClient (staticPodName "etcd" m) none)⟩ := by
  obtain ⟨errOf, hf⟩ := exists_errOf c s.world pre hpre
  have hlen : ¬ (pre ++ p :: post).length = 0 := by simp
  refine ⟨[] ++ pre.map (fun m => connectionFailure (errOf m)), ?_⟩
  unfold ClientGenerator.ForLeader
  rw [if_neg hlen]
  exact leaderLoop_skip c (pre ++ p :: post) s.world errOf (p :: post) pre [] s.log hf

/-- The probe of a reachable candidate whose member list holds no member with
the reported leader identifier. -/
theorem getLeaderClient_no_member {σ : Type} (c : ClientGenerator σ) (p : String)
    (nodeNames : List String) (s : State σ) (leader : Nat) (M : List Member)
    (hp : c.createClient s.world (staticPodName "etcd" p) = Except.ok leader)
    (hM : c.etcd.Members s.world ⟨s.log.length, staticPodName "etcd" p, leader⟩ = Except.ok M)
    (hnone : M.find? (fun member => member.ID == leader) = none) :
    c.getLeaderClient p nodeNames s =
      ((none, some (Err.errorf
          "etcd leader is reported as %x, but we couldn't find any matching member"
          [toString leader])),
        ⟨s.world, s.log ++ [Event.createClient (staticPodName "etcd" p)
            (some ⟨s.log.length, staticPodName "etcd" p, leader⟩),
          Event.Members ⟨s.log.length, staticPodName "etcd" p, leader⟩ (some M),
          Event.Close ⟨s.log.length, staticPodName "etcd" p, leader⟩]⟩) := by
  simp [ClientGenerator.getLeaderClient, ForFirstAvailableNode_single c p s leader hp,
    ClientGenerator.getLeaderClientBody, Etcd.members, State.record, hM, hnone, Client.Close]

/-- The probe of a reachable candidate whose leader member resolves to no node
name, or to the empty one. -/
theorem getLeaderClient_no_node {σ : Type} (c : ClientGenerator σ) (p : String)
    (nodeNames : List String) (s : State σ) (leader : Nat) (M : List Member) (L : Member)
    (hp : c.createClient s.world (staticPodName "etcd" p) = Except.ok leader)
    (hM : c.etcd.Members s.world ⟨s.log.length, staticPodName "etcd" p, leader⟩ = Except.ok M)
    (hL : M.find? (fun member => member.ID == leader) = some L)
    (hnode : (match nodeNames.find? (fun name => stringsContains L.Name name) with
      | some name => name
      | none => "") = "") :
    c.getLeaderClient p nodeNames s =
      ((none, some (Err.errorf
          "etcd leader is reported as %x with name %q, but we couldn't find a corresponding Node in the cluster"
          [toString L.ID, L.Name])),
        ⟨s.world, s.log ++ [Event.createClient (staticPodName "etcd" p)
            (some ⟨s.log.length, staticPodName "etcd" p, leader⟩),
          Event.Members ⟨s.log.length, staticPodName "etcd" p, leader⟩ (some M),
          Event.Close ⟨s.log.length, staticPodName "etcd" p, leader⟩]⟩) := by
  simp [ClientGenerator.getLeaderClient, ForFirstAvailableNode_single c p s leader hp,
    ClientGenerator.getLeaderClientBody, Etcd.members, State.record, hM, hL, hnode, Client.Close]

/-- The probe of a reachable candidate whose leader member resolves to the
non-empty node name `n`: a first-available connection to `n` alone is opened, then
the probe is closed. -/
theorem getLeaderClient_resolved {σ : Type} (c : ClientGenerator σ) (p : String)
    (nodeNames : List String) (s : State σ) (leader : Nat) (M : List Member) (L : Member)
    (n : String)
    (hp : c.createClient s.world (staticPodName "etcd" p) = Except.ok leader)
    (hM : c.etcd.Members s.world ⟨s.log.length, staticPodName "etcd" p, leader⟩ = Except.ok M)
    (hL : M.find? (fun member => member.ID == leader) = some L)
    (hn : nodeNames.find? (fun name => stringsContains L.Name name) = some n)
    (hne : n ≠ "") :
    c.getLeaderClient p nodeNames s =
      ((c.ForFirstAvailableNode [n]
          ⟨s.world, s.log ++ [Event.createClient (staticPodName "etcd" p)
              (some ⟨s.log.length, staticPodName "etcd" p, leader⟩),
            Event.Members ⟨s.log.length, staticPodName "etcd" p, leader⟩ (some M)]⟩).1,
        (c.ForFirstAvailableNode [n]
          ⟨s.world, s.log ++ [Event.createClient (staticPodName "etcd" p)
              (some ⟨s.log.length, staticPodName "etcd" p, leader⟩),
            Event.Members ⟨s.log.length, staticPodName "etcd" p, leader⟩ (some M)]⟩).2.record
          (Event.Close ⟨s.log.length, staticPodName "etcd" p, leader⟩)) := by
  simp [ClientGenerator.getLeaderClient, ForFirstAvailableNode_single c p s leader hp,
    ClientGenerator.getLeaderClientBody, Etcd.members, State.record, hM, hL, hn, hne, Client.Close]

/-! ## Leader resolution -/

/-- C11: for a candidate list without the empty string, which is not a node name:
when the candidates before `p` are unreachable, `p` connects and lists a member
`L` with the leader identifier of that connection, and `n` is the first candidate
name contained in `L.Name`, the next log entry after the probe's member listing
is a dial of the endpoint of `n`; and when that dial succeeds `ForLeader` returns
its client with a nil error, after closing the probe and without dialling
anything else. -/
theorem ForLeader_resolves_leader {σ : Type} (c : ClientGenerator σ) (s : State σ)
    (pre post : List String) (p : String) (leader : Nat) (M : List Member) (L : Member)
    (n : String)
    (hpre : ∀ m ∈ pre, ∃ err, c.createClient s.world (staticPodName "etcd" m) = Except.error err)
    (hp : c.createClient s.world (staticPodName "etcd" p) = Except.ok leader)
    (hM : c.etcd.Members s.world ⟨s.log.length + pre.length, staticPodName "etcd" p, leader⟩ =
      Except.ok M)
    (hL : M.find? (fun member => member.ID == leader) = some L)
    (hn : (pre ++ p :: post).find? (fun name => stringsContains L.Name name) = some n)
    (hnames : ∀ k ∈ pre ++ p :: post, k ≠ "") :
    (∃ outcome : Option Client,
        (s.log ++ pre.map (fun m => Event.createClient (staticPodName "etcd" m) none) ++
          [Event.createClient (staticPodName "etcd" p)
              (some ⟨s.log.length + pre.length, staticPodName "etcd" p, leader⟩),
            Event.Members ⟨s.log.length + pre.length, staticPodName "etcd" p, leader⟩ (some M),
            Event.createClient (staticPodName "etcd" n) outcome]) <+:
          (c.ForLeader (pre ++ p :: post) s).2.log) ∧
      ∀ leader2 : Nat, c.createClient s.world (staticPodName "etcd" n) = Except.ok leader2 →
        c.ForLeader (pre ++ p :: post) s =
          ((some ⟨s.log.length + pre.length + 2, staticPodName "etcd" n, leader2⟩, none),
            ⟨s.world,
              s.log ++ pre.map (fun m => Event.createClient (staticPodName "etcd" m) none) ++
                [Event.createClient (staticPodName "etcd" p)
                    (some ⟨s.log.length + pre.length, staticPodName "etcd" p, leader⟩),
                  Event.Members ⟨s.log.length + pre.length, staticPodName "etcd" p, leader⟩
                    (some M),
                  Event.createClient (staticPodName "etcd" n)
                    (some ⟨s.log.length + pre.length + 2, staticPodName "etcd" n, leader2⟩),
                  Event.Close ⟨s.log.length + pre.length, staticPodName "etcd" p, leader⟩]⟩) := by
  have hne : n ≠ "" := hnames n (List.mem_of_find?_eq_some hn)
  obtain ⟨errs, hreach⟩ := ForLeader_reaches c s pre post p hpre
  have hlen : (s.log ++ pre.map
      (fun m => Event.createClient (staticPodName "etcd" m) none)).length =
      s.log.length + pre.length := by simp
  have hg := getLeaderClient_resolved c p (pre ++ p :: post)
    ⟨s.world, s.log ++ pre.map (fun m => Event.createClient (staticPodName "etcd" m) none)⟩
    leader M L n hp (by simpa only [hlen] using hM) hL hn hne
  simp only [hlen] at hg
  have hF : ∀ leader2 : Nat, c.createClient s.world (staticPodName "etcd" n) = Except.ok leader2 →
      c.ForFirstAvailableNode [n]
        ⟨s.world, s.log ++ pre.map (fun m => Event.createClient (staticPodName "etcd" m) none) ++
          [Event.createClient (staticPodName "etcd" p)
              (some ⟨s.log.length + pre.length, staticPodName "etcd" p, leader⟩),
            Event.Members ⟨s.log.length + pre.length, staticPodName "etcd" p, leader⟩
              (some M)]⟩ =
        ((some ⟨s.log.length + pre.length + 2, staticPodName "etcd" n, leader2⟩, none),
          ⟨s.world, s.log ++ pre.map (fun m => Event.createClient (staticPodName "etcd" m) none) ++
            [Event.createClient (staticPodName "etcd" p)
                (some ⟨s.log.length + pre.length, staticPodName "etcd" p, leader⟩),
              Event.Members ⟨s.log.length + pre.length, staticPodName "etcd" p, leader⟩ (some M),
              Event.createClient (staticPodName "etcd" n)
                (some ⟨s.log.length + pre.length + 2, staticPodName "etcd" n, leader2⟩)]⟩) := by
    intro leader2 hdial
    simp [ClientGenerator.ForFirstAvailableNode, ClientGenerator.firstAvailableLoop,
      ClientGenerator.dial, hdial, State.record]
    omega
  have hE : ∀ e : Err, c.createClient s.world (staticPodName "etcd" n) = Except.error e →
      c.ForFirstAvailableNode [n]
        ⟨s.world, s.log ++ pre.map (fun m => Event.createClient (staticPodName "etcd" m) none) ++
          [Event.createClient (staticPodName "etcd" p)
              (some ⟨s.log.length + pre.length, staticPodName "etcd" p, leader⟩),
            Event.Members ⟨s.log.length + pre.length, staticPodName "etcd" p, leader⟩
              (some M)]⟩ =
        ((none, some (Err.wrap (Err.aggregate [e])
            "could not establish a connection to any etcd node")),
          ⟨s.world, s.log ++ pre.map (fun m => Event.createClient (staticPodName "etcd" m) none) ++
            [Event.createClient (staticPodName "etcd" p)
                (some ⟨s.log.length + pre.length, staticPodName "etcd" p, leader⟩),
              Event.Members ⟨s.log.length + pre.length, staticPodName "etcd" p, leader⟩ (some M),
              Event.createClient (staticPodName "etcd" n) none]⟩) := by
    intro e hdial
    simp [ClientGenerator.ForFirstAvailableNode, ClientGenerator.firstAvailableLoop,
      ClientGenerator.dial, hdial, State.record, NewAggregate, Wrap]
  rw [hreach, ClientGenerator.leaderLoop, hg]
  constructor
  · cases hdial : c.createClient s.world (staticPodName "etcd" n) with
    | ok leader2 =>
      refine ⟨some ⟨s.log.length + pre.length + 2, staticPodName "etcd" n, leader2⟩, ?_⟩
      rw [hF leader2 hdial]
      exact List.prefix_append _ _
    | error e =>
      refine ⟨none, ?_⟩
      rw [hE e hdial]
      simp only [State.record]
      split
      · exact List.IsPrefix.trans (List.prefix_append _ _)
          (grows_leaderLoop c _ _ _ ⟨_, _⟩)
      · exact List.prefix_append _ _
  · intro leader2 hdial
    rw [hF leader2 hdial]
    simp [State.record]

/-- C11, on the test double: with `cp-1` down, the probe of `cp-2`
finds the leader `etcd-cp-2`, whose node `cp-2` is dialled again; its client is
returned and the probe is closed. -/
theorem ForLeader_resolves_leader_witness :
    fakeGenerator.ForLeader (["cp-1"] ++ "cp-2" :: ["cp-3"]) ⟨firstDown, []⟩ =
      ((some ⟨3, "etcd-cp-2", 2⟩, none),
        ⟨firstDown,
          [Event.createClient "etcd-cp-1" none,
           Event.createClient "etcd-cp-2" (some ⟨1, "etcd-cp-2", 2⟩),
           Event.Members ⟨1, "etcd-cp-2", 2⟩ (some firstDown.members),
           Event.createClient "etcd-cp-2" (some ⟨3, "etcd-cp-2", 2⟩),
           Event.Close ⟨1, "etcd-cp-2", 2⟩]⟩) :=
  (ForLeader_resolves_leader fakeGenerator ⟨firstDown, []⟩ ["cp-1"] ["cp-3"] "cp-2" 2
    firstDown.members ⟨2, "etcd-cp-2"⟩ "cp-2"
    (fun m hm => ⟨Err.text "connection refused", by
      rw [List.mem_singleton] at hm
      subst hm
      rfl⟩)
    rfl rfl (by decide) (by decide) (by decide)).2 2 rfl

/-- C12 as stated fails: the endpoint of `cp-1` reports leader 9, which no
listed member has, while the probe of `cp-2` would yield a leader client; yet
`ForLeader` returns at `cp-1` with the no-matching-member error and never dials
`cp-2`. -/
theorem ForLeader_no_member_counterexample :
    (∀ m ∈ scenario.members, m.ID ≠ 9) ∧
      (splitGenerator.getLeaderClient "cp-2" ["cp-1", "cp-2", "cp-3"] ⟨scenario, []⟩).1 =
        (some ⟨2, "etcd-cp-2", 2⟩, none) ∧
      splitGenerator.ForLeader ["cp-1", "cp-2", "cp-3"] ⟨scenario, []⟩ =
        ((none, some (Err.errorf
            "etcd leader is reported as %x, but we couldn't find any matching member"
            [toString 9])),
          ⟨scenario,
            [Event.createClient "etcd-cp-1" (some ⟨0, "etcd-cp-1", 9⟩),
             Event.Members ⟨0, "etcd-cp-1", 9⟩ (some scenario.members),
             Event.Close ⟨0, "etcd-cp-1", 9⟩]⟩) :=
  ⟨by decide, rfl, rfl⟩

/-- C12, amended: when the candidates before `p` are unreachable and `p`
connects and lists no member with the leader identifier of that connection,
`ForLeader` returns at `p`: no client and the no-matching-member error, which is
not of the connectivity class; the probe is closed and no candidate after `p` is
dialled. -/
theorem ForLeader_no_member_is_fatal {σ : Type} (c : ClientGenerator σ) (s : State σ)
    (pre post : List String) (p : String) (leader : Nat) (M : List Member)
    (hpre : ∀ m ∈ pre, ∃ err, c.createClient s.world (staticPodName "etcd" m) = Except.error err)
    (hp : c.createClient s.world (staticPodName "etcd" p) = Except.ok leader)
    (hM : c.etcd.Members s.world ⟨s.log.length + pre.length, staticPodName "etcd" p, leader⟩ =
      Except.ok M)
    (hnone : ∀ m ∈ M, m.ID ≠ leader) :
    c.ForLeader (pre ++ p :: post) s =
        ((none, some (Err.errorf
            "etcd leader is reported as %x, but we couldn't find any matching member"
            [toString leader])),
          ⟨s.world,
            s.log ++ pre.map (fun m => Event.createClient (staticPodName "etcd" m) none) ++
              [Event.createClient (staticPodName "etcd" p)
                  (some ⟨s.log.length + pre.length, staticPodName "etcd" p, leader⟩),
                Event.Members ⟨s.log.length + pre.length, staticPodName "etcd" p, leader⟩
                  (some M),
                Event.Close ⟨s.log.length + pre.length, staticPodName "etcd" p, leader⟩]⟩) ∧
      isEtcdNodeConnection (Err.errorf
        "etcd leader is reported as %x, but we couldn't find any matching member"
        [toString leader]) = false := by
  obtain ⟨errs, hreach⟩ := ForLeader_reaches c s pre post p hpre
  have hlen : (s.log ++ pre.map
      (fun m => Event.createClient (staticPodName "etcd" m) none)).length =
      s.log.length + pre.length := by simp
  have hfind : M.find? (fun member => member.ID == leader) = none := by
    rw [List.find?_eq_none]
    intro m hm
    simpa using hnone m hm
  have hg := getLeaderClient_no_member c p (pre ++ p :: post)
    ⟨s.world, s.log ++ pre.map (fun m => Event.createClient (staticPodName "etcd" m) none)⟩
    leader M hp (by simpa only [hlen] using hM) hfind
  simp only [hlen] at hg
  refine ⟨?_, by simp [isEtcdNodeConnection]⟩
  rw [hreach, ClientGenerator.leaderLoop, hg]
  simp [isEtcdNodeConnection]

/-- C12, amended, on the test double: the store reports leader 9, the probe of
`cp-1` finds no such member, and `ForLeader` returns there. -/
theorem ForLeader_no_member_is_fatal_witness :
    fakeGenerator.ForLeader ([] ++ "cp-1" :: ["cp-2", "cp-3"]) ⟨lostLeader, []⟩ =
        ((none, some (Err.errorf
            "etcd leader is reported as %x, but we couldn't find any matching member"
            [toString 9])),
          ⟨lostLeader,
            [Event.createClient "etcd-cp-1" (some ⟨0, "etcd-cp-1", 9⟩),
             Event.Members ⟨0, "etcd-cp-1", 9⟩ (some lostLeader.members),
             Event.Close ⟨0, "etcd-cp-1", 9⟩]⟩) ∧
      isEtcdNodeConnection (Err.errorf
        "etcd leader is reported as %x, but we couldn't find any matching member"
        [toString 9]) = false :=
  ForLeader_no_member_is_fatal fakeGenerator ⟨lostLeader, []⟩ [] ["cp-2", "cp-3"] "cp-1" 9
    lostLeader.members (fun m hm => absurd hm (List.not_mem_nil m)) rfl rfl (by decide)

/-- C13: when the candidates before `p` are unreachable and `p` connects and
lists a leader member whose name contains none of the candidate names,
`ForLeader` returns no client and the missing-node error, which is not of the
connectivity class; the probe is closed and no candidate after `p` is dialled. -/
theorem ForLeader_leader_without_node {σ : Type} (c : ClientGenerator σ) (s : State σ)
    (pre post : List String) (p : String) (leader : Nat) (M : List Member) (L : Member)
    (hpre : ∀ m ∈ pre, ∃ err, c.createClient s.world (staticPodName "etcd" m) = Except.error err)
    (hp : c.createClient s.world (staticPodName "etcd" p) = Except.ok leader)
    (hM : c.etcd.Members s.world ⟨s.log.length + pre.length, staticPodName "etcd" p, leader⟩ =
      Except.ok M)
    (hL : M.find? (fun member => member.ID == leader) = some L)
    (hnone : ∀ n ∈ pre ++ p :: post, stringsContains L.Name n = false) :
    c.ForLeader (pre ++ p :: post) s =
        ((none, some (Err.errorf
            "etcd leader is reported as %x with name %q, but we couldn't find a corresponding Node in the cluster"
            [toString L.ID, L.Name])),
          ⟨s.world,
            s.log ++ pre.map (fun m => Event.createClient (staticPodName "etcd" m) none) ++
              [Event.createClient (staticPodName "etcd" p)
                  (some ⟨s.log.length + pre.length, staticPodName "etcd" p, leader⟩),
                Event.Members ⟨s.log.length + pre.length, staticPodName "etcd" p, leader⟩
                  (some M),
                Event.Close ⟨s.log.length + pre.length, staticPodName "etcd" p, leader⟩]⟩) ∧
      isEtcdNodeConnection (Err.errorf
        "etcd leader is reported as %x with name %q, but we couldn't find a corresponding Node in the cluster"
        [toString L.ID, L.Name]) = false := by
  obtain ⟨errs, hreach⟩ := ForLeader_reaches c s pre post p hpre
  have hlen : (s.log ++ pre.map
      (fun m => Event.createClient (staticPodName "etcd" m) none)).length =
      s.log.length + pre.length := by simp
  have hfind : (pre ++ p :: post).find? (fun name => stringsContains L.Name name) = none := by
    rw [List.find?_eq_none]
    intro n hn
    simp [hnone n hn]
  have hg := getLeaderClient_no_node c p (pre ++ p :: post)
    ⟨s.world, s.log ++ pre.map (fun m => Event.createClient (staticPodName "etcd" m) none)⟩
    leader M L hp (by simpa only [hlen] using hM) hL (by rw [hfind])
  simp only [hlen] at hg
  refine ⟨?_, by simp [isEtcdNodeConnection]⟩
  rw [hreach, ClientGenerator.leaderLoop, hg]
  simp [isEtcdNodeConnection]

/-- C13, on the test double: the leader is named `etcd-cp-9`; after the probe
of `cp-1` the call fails and `cp-2`, `cp-3` are not dialled. -/
theorem ForLeader_leader_without_node_witness :
    fakeGenerator.ForLeader ([] ++ "cp-1" :: ["cp-2", "cp-3"]) ⟨orphanLeader, []⟩ =
        ((none, some (Err.errorf
            "etcd leader is reported as %x with name %q, but we couldn't find a corresponding Node in the cluster"
            [toString 2, "etcd-cp-9"])),
          ⟨orphanLeader,
            [Event.createClient "etcd-cp-1" (some ⟨0, "etcd-cp-1", 2⟩),
             Event.Members ⟨0, "etcd-cp-1", 2⟩ (some orphanLeader.members),
             Event.Close ⟨0, "etcd-cp-1", 2⟩]⟩) ∧
      isEtcdNodeConnection (Err.errorf
        "etcd leader is reported as %x with name %q, but we couldn't find a corresponding Node in the cluster"
        [toString 2, "etcd-cp-9"]) = false :=
  ForLeader_leader_without_node fakeGenerator ⟨orphanLeader, []⟩ [] ["cp-2", "cp-3"] "cp-1" 2
    orphanLeader.members ⟨2, "etcd-cp-9"⟩ (fun m hm => absurd hm (List.not_mem_nil m)) rfl rfl
    (by decide) (by decide)

/-! ## Member enumeration, input validation and the missing generator -/

/-- C16: when the inventory is fetched, a leader client is obtained and its
member list `M` is fetched, `EtcdMembers` returns with a nil error exactly the
names of `M` in the order of the store, one per member, empty names included; the
inventory enters the result only through the client that was reached. -/
theorem EtcdMembers_returns_store_view {σ : Type} (w : Workload σ) (gen : ClientGenerator σ)
    (s s2 : State σ) (items : List String) (client : Client) (M : List Member)
    (hgen : w.etcdClientGenerator = some gen)
    (hnodes : w.getControlPlaneNodes s.world = Except.ok items)
    (hleader : gen.ForLeader items (s.record Event.getControlPlaneNodes) =
      ((some client, none), s2))
    (hmembers : gen.etcd.Members s.world client = Except.ok M) :
    w.EtcdMembers s =
        ((some (M.map (fun member => member.Name)), none),
          ⟨s.world, s2.log ++ [Event.Members client (some M), Event.Close client]⟩) ∧
      (M.map (fun member => member.Name)).length = M.length := by
  have hq : Quiet s s2 := by
    have h := (Quiet.record s Event.getControlPlaneNodes rfl).trans
      (Quiet.ForLeader gen items (s.record Event.getControlPlaneNodes))
    rw [hleader] at h
    exact h
  have hmembers2 : gen.etcd.Members s2.world client = Except.ok M := by rw [hq.1]; exact hmembers
  have hbody : Workload.etcdMembersBody gen client s2 =
      ((some (M.map (fun member => member.Name)), none),
        s2.record (Event.Members client (some M))) := by
    simp [Workload.etcdMembersBody, Etcd.members, hmembers2]
  constructor
  · simp only [Workload.EtcdMembers, hgen, Workload.nodes, hnodes, hleader, hbody]
    simp [Client.Close, State.record, hq.1]
  · simp

/-- C16, on the scenario of the spec: the three member names are returned in
store order. -/
theorem EtcdMembers_returns_store_view_witness :
    (fakeWorkload 2).EtcdMembers ⟨scenario, []⟩ =
        ((some ["etcd-cp-1", "etcd-cp-2", "etcd-cp-3"], none),
          ⟨scenario,
            [Event.getControlPlaneNodes,
             Event.createClient "etcd-cp-1" (some ⟨1, "etcd-cp-1", 2⟩),
             Event.Members ⟨1, "etcd-cp-1", 2⟩ (some scenario.members),
             Event.createClient "etcd-cp-2" (some ⟨3, "etcd-cp-2", 2⟩),
             Event.Close ⟨1, "etcd-cp-1", 2⟩,
             Event.Members ⟨3, "etcd-cp-2", 2⟩ (some scenario.members),
             Event.Close ⟨3, "etcd-cp-2", 2⟩]⟩) ∧
      ["etcd-cp-1", "etcd-cp-2", "etcd-cp-3"].length = scenario.members.length :=
  EtcdMembers_returns_store_view (fakeWorkload 2) fakeGenerator ⟨scenario, []⟩
    (fakeGenerator.ForLeader scenario.nodes
      ((⟨scenario, []⟩ : State Fake).record Event.getControlPlaneNodes)).2
    scenario.nodes ⟨3, "etcd-cp-2", 2⟩ scenario.members rfl rfl rfl rfl

/-- C17: `ForwardEtcdLeadership` returns nil with the state untouched when the
outgoing machine is nil or has no node reference, whatever the candidate; for an
outgoing machine with a node reference it returns an error with the state
untouched when the candidate is nil or has no node reference. This holds for every
workload, with or without a client generator, and the untouched log shows that no
inventory or store call is made. -/
theorem ForwardEtcdLeadership_validates_inputs {σ : Type} (w : Workload σ) (s : State σ) :
    (∀ candidate : Option Machine, w.ForwardEtcdLeadership none candidate s = (none, s)) ∧
      (∀ candidate : Option Machine,
        w.ForwardEtcdLeadership (some ⟨⟨none⟩⟩) candidate s = (none, s)) ∧
      (∀ ref : ObjectReference,
        w.ForwardEtcdLeadership (some ⟨⟨some ref⟩⟩) none s =
          (some (Err.text "leader candidate cannot be nil"), s)) ∧
      (∀ ref : ObjectReference,
        w.ForwardEtcdLeadership (some ⟨⟨some ref⟩⟩) (some ⟨⟨none⟩⟩) s =
          (some (Err.text "leader has no node reference"), s)) :=
  ⟨fun _ => rfl, fun _ => rfl, fun _ => rfl, fun _ => rfl⟩

/-- C18: when the member of the outgoing node has the leader identifier of the
client and no listed member matches the node name of the candidate,
`ForwardEtcdLeadership` returns an error; after the leader client is obtained the
log gains only the member listing and the close, the whole call adds no
`MoveLeader` or `RemoveMember` entry and the world is unchanged. -/
theorem ForwardEtcdLeadership_unknown_candidate {σ : Type} (w : Workload σ)
    (gen : ClientGenerator σ) (machine candidate : Machine) (mref cref : ObjectReference)
    (s s2 : State σ) (items : List String) (client : Client) (M : List Member) (cur : Member)
    (hgen : w.etcdClientGenerator = some gen)
    (hm : machine.Status.NodeRef = some mref)
    (hc : candidate.Status.NodeRef = some cref)
    (hnodes : w.getControlPlaneNodes s.world = Except.ok items)
    (hleader : gen.ForLeader items (s.record Event.getControlPlaneNodes) =
      ((some client, none), s2))
    (hmembers : gen.etcd.Members s.world client = Except.ok M)
    (hcur : MemberForName M mref.Name = some cur)
    (hid : cur.ID = client.LeaderID)
    (hnext : MemberForName M cref.Name = none) :
    w.ForwardEtcdLeadership (some machine) (some candidate) s =
        (some (Err.errorf "failed to get etcd member from node %q" [cref.Name]),
          ⟨s.world, s2.log ++ [Event.Members client (some M), Event.Close client]⟩) ∧
      mutations (s2.log ++ [Event.Members client (some M), Event.Close client]) =
        mutations s.log := by
  have hq : Quiet s s2 := by
    have h := (Quiet.record s Event.getControlPlaneNodes rfl).trans
      (Quiet.ForLeader gen items (s.record Event.getControlPlaneNodes))
    rw [hleader] at h
    exact h
  have hmembers2 : gen.etcd.Members s2.world client = Except.ok M := by rw [hq.1]; exact hmembers
  have hbody : Workload.forwardBody gen client mref.Name cref.Name s2 =
      (some (Err.errorf "failed to get etcd member from node %q" [cref.Name]),
        s2.record (Event.Members client (some M))) := by
    simp [Workload.forwardBody, Etcd.members, hmembers2, hcur, hid, hnext]
  constructor
  · simp only [Workload.ForwardEtcdLeadership, Option.bind, hm, hc, hgen, Workload.nodes, hnodes,
      hleader, hbody]
    simp [Client.Close, State.record, hq.1]
  · rw [mutations_append, hq.2]
    simp [mutations]

/-- C18, on the scenario of the spec: forwarding from the leader `cp-2` to the
unknown node `cp-9` fails without a transfer. -/
theorem ForwardEtcdLeadership_unknown_candidate_witness :
    (fakeWorkload 2).ForwardEtcdLeadership (some ⟨⟨some ⟨"cp-2"⟩⟩⟩) (some ⟨⟨some ⟨"cp-9"⟩⟩⟩)
        ⟨scenario, []⟩ =
      (some (Err.errorf "failed to get etcd member from node %q" ["cp-9"]),
        ⟨scenario,
          [Event.getControlPlaneNodes,
           Event.createClient "etcd-cp-1" (some ⟨1, "etcd-cp-1", 2⟩),
           Event.Members ⟨1, "etcd-cp-1", 2⟩ (some scenario.members),
           Event.createClient "etcd-cp-2" (some ⟨3, "etcd-cp-2", 2⟩),
           Event.Close ⟨1, "etcd-cp-1", 2⟩,
           Event.Members ⟨3, "etcd-cp-2", 2⟩ (some scenario.members),
           Event.Close ⟨3, "etcd-cp-2", 2⟩]⟩) ∧
      mutations
        [Event.getControlPlaneNodes,
         Event.createClient "etcd-cp-1" (some ⟨1, "etcd-cp-1", 2⟩),
         Event.Members ⟨1, "etcd-cp-1", 2⟩ (some scenario.members),
         Event.createClient "etcd-cp-2" (some ⟨3, "etcd-cp-2", 2⟩),
         Event.Close ⟨1, "etcd-cp-1", 2⟩,
         Event.Members ⟨3, "etcd-cp-2", 2⟩ (some scenario.members),
         Event.Close ⟨3, "etcd-cp-2", 2⟩] = [] :=
  ForwardEtcdLeadership_unknown_candidate (fakeWorkload 2) fakeGenerator
    ⟨⟨some ⟨"cp-2"⟩⟩⟩ ⟨⟨some ⟨"cp-9"⟩⟩⟩ ⟨"cp-2"⟩ ⟨"cp-9"⟩ ⟨scenario, []⟩
    (fakeGenerator.ForLeader scenario.nodes
      ((⟨scenario, []⟩ : State Fake).record Event.getControlPlaneNodes)).2
    scenario.nodes ⟨3, "etcd-cp-2", 2⟩ scenario.members ⟨2, "etcd-cp-2"⟩
    rfl rfl rfl rfl rfl rfl rfl rfl rfl

/-- C19: without a client generator, `ReconcileEtcdMembers` returns the empty
list and nil and `EtcdMembers` returns the empty list and nil, both with the
state untouched; `removeMemberForNode` returns nil once the inventory passes the
guard, after the inventory call alone; and `ForwardEtcdLeadership` returns nil
with the state untouched once both machines have a node reference. None of them
dials or calls the store. -/
theorem no_generator_is_noop {σ : Type} (w : Workload σ) (s : State σ)
    (hgen : w.etcdClientGenerator = none) :
    (∀ nodeNames : List String, w.ReconcileEtcdMembers nodeNames s = (([], none), s)) ∧
      w.EtcdMembers s = ((some [], none), s) ∧
      (∀ (name : String) (items : List String),
        w.getControlPlaneNodes s.world = Except.ok items →
        ¬ items.length < w.minimalNodeCount →
        w.removeMemberForNode name s =
          (none, ⟨s.world, s.log ++ [Event.getControlPlaneNodes,
            Event.removeMemberForNode name none]⟩)) ∧
      (∀ mref cref : ObjectReference,
        w.ForwardEtcdLeadership (some ⟨⟨some mref⟩⟩) (some ⟨⟨some cref⟩⟩) s = (none, s)) := by
  refine ⟨?_, ?_, ?_, ?_⟩
  · intro nodeNames
    simp [Workload.ReconcileEtcdMembers, hgen]
  · simp [Workload.EtcdMembers, hgen]
  · intro name items hnodes hguard
    have hcore : w.removeMemberCore name s = (none, s.record Event.getControlPlaneNodes) := by
      simp [Workload.removeMemberCore, Workload.nodes, hnodes, hguard, hgen]
    simp [Workload.removeMemberForNode, hcore, State.record]
  · intro mref cref
    simp [Workload.ForwardEtcdLeadership, Option.bind, hgen]

/-- C19, on the test double without a generator: reconciliation, enumeration,
the removal of `cp-4` and the forwarding from `cp-2` to `cp-3` all succeed, and the
log shows at most the inventory call. -/
theorem no_generator_is_noop_witness :
    (bareWorkload 2).ReconcileEtcdMembers ["cp-1", "cp-2", "cp-3"] ⟨withStale, []⟩ =
        (([], none), ⟨withStale, []⟩) ∧
      (bareWorkload 2).EtcdMembers ⟨withStale, []⟩ = ((some [], none), ⟨withStale, []⟩) ∧
      (bareWorkload 2).removeMemberForNode "cp-4" ⟨withStale, []⟩ =
        (none, ⟨withStale, [Event.getControlPlaneNodes,
          Event.removeMemberForNode "cp-4" none]⟩) ∧
      (bareWorkload 2).ForwardEtcdLeadership (some ⟨⟨some ⟨"cp-2"⟩⟩⟩) (some ⟨⟨some ⟨"cp-3"⟩⟩⟩)
        ⟨withStale, []⟩ = (none, ⟨withStale, []⟩) :=
  ⟨(no_generator_is_noop (bareWorkload 2) ⟨withStale, []⟩ rfl).1 ["cp-1", "cp-2", "cp-3"],
    (no_generator_is_noop (bareWorkload 2) ⟨withStale, []⟩ rfl).2.1,
    (no_generator_is_noop (bareWorkload 2) ⟨withStale, []⟩ rfl).2.2.1 "cp-4"
      ["cp-1", "cp-2", "cp-3"] rfl (by decide),
    (no_generator_is_noop (bareWorkload 2) ⟨withStale, []⟩ rfl).2.2.2 ⟨"cp-2"⟩ ⟨"cp-3"⟩⟩

/-! ## The candidates of a removal -/

theorem dialled_append (l₁ l₂ : List Event) : dialled (l₁ ++ l₂) = dialled l₁ ++ dialled l₂ := by
  induction l₁ with
  | nil => rfl
  | cons e l ih => cases e <;> simp [dialled, ih]

theorem dialled_record {σ : Type} (s : State σ) (e : Event) (he : dialled [e] = []) :
    dialled (s.record e).log = dialled s.log := by
  simp [State.record, dialled_append, he]

theorem dialled_dial {σ : Type} (c : ClientGenerator σ) (endpoint : String) (s : State σ) :
    dialled (c.dial endpoint s).2.log = dialled s.log ++ [endpoint] := by
  unfold ClientGenerator.dial
  split <;> simp [State.record, dialled_append, dialled]

/-- The dials of the loop of `ForFirstAvailableNode` are an initial part of the
endpoints of its candidates, in order. -/
theorem dialled_firstAvailableLoop {σ : Type} (c : ClientGenerator σ) :
    ∀ (names : List String) (errs : List Err) (s : State σ),
      ∃ d : List String, d <+: names.map (staticPodName "etcd") ∧
        dialled (c.firstAvailableLoop names errs s).2.log = dialled s.log ++ d := by
  intro names
  induction names with
  | nil =>
    intro errs s
    exact ⟨[], List.prefix_refl _, by simp [ClientGenerator.firstAvailableLoop]⟩
  | cons name rest ih =>
    intro errs s
    unfold ClientGenerator.firstAvailableLoop
    have hd := dialled_dial c (staticPodName "etcd" name) s
    split
    · rename_i err s1 heq
      rw [heq] at hd
      obtain ⟨d, hpre, hlog⟩ := ih (errs ++ [err]) s1
      refine ⟨staticPodName "etcd" name :: d, ?_, ?_⟩
      · simpa [List.cons_prefix_cons] using hpre
      · rw [hlog]
        simp only at hd
        rw [hd]
        simp
    · rename_i client s1 heq
      rw [heq] at hd
      refine ⟨[staticPodName "etcd" name], ?_, ?_⟩
      · simp [List.cons_prefix_cons]
      · simpa using hd

theorem dialled_ForFirstAvailableNode {σ : Type} (c : ClientGenerator σ) (names : List String)
    (s : State σ) :
    ∃ d : List String, d <+: names.map (staticPodName "etcd") ∧
      dialled (c.ForFirstAvailableNode names s).2.log = dialled s.log ++ d := by
  unfold ClientGenerator.ForFirstAvailableNode
  split
  · exact ⟨[], List.nil_prefix, by simp⟩
  · exact dialled_firstAvailableLoop c names [] s

theorem dialled_members {σ : Type} (e : Etcd σ) (client : Client) (s : State σ) :
    dialled (e.members client s).2.log = dialled s.log := by
  unfold Etcd.members
  split <;> exact dialled_record _ _ rfl

theorem dialled_removeMember {σ : Type} (e : Etcd σ) (client : Client) (id : Nat)
    (s : State σ) : dialled (e.removeMember client id s).2.log = dialled s.log := by
  simp [Etcd.removeMember, dialled_append, dialled]

theorem dialled_removeMemberBody {σ : Type} (gen : ClientGenerator σ) (client : Client)
    (name : String) (s : State σ) :
    dialled (Workload.removeMemberBody gen client name s).2.log = dialled s.log := by
  unfold Workload.removeMemberBody
  have hm := dialled_members gen.etcd client s
  split
  · rename_i err s1 heq
    rw [heq] at hm
    exact hm
  · rename_i members s1 heq
    rw [heq] at hm
    split
    · exact hm
    · rename_i member _
      have hr := dialled_removeMember gen.etcd client member.ID s1
      split
      · rename_i err s2 heq2
        rw [heq2] at hr
        exact hr.trans hm
      · rename_i s2 heq2
        rw [heq2] at hr
        exact hr.trans hm

theorem stringsContains_self (s : String) : stringsContains s s = true := by
  unfold stringsContains
  cases h : s.toList with
  | nil => simp [List.tails]
  | cons a l => simp [List.tails]

theorem staticPodName_injective (a b : String)
    (h : staticPodName "etcd" a = staticPodName "etcd" b) : a = b := by
  unfold staticPodName at h
  have hdata := congrArg String.data h
  simp only [String.data_append, List.append_cancel_left_eq] at hdata
  exact String.ext hdata

/-- The dials of `removeMemberForNode` are an initial part of the endpoints of
the inventory filtered to the names that the target name does not contain. -/
theorem dialled_removeMemberForNode {σ : Type} (w : Workload σ) (name : String) (s : State σ)
    (items : List String)
    (hnodes : w.getControlPlaneNodes s.world = Except.ok items) :
    ∃ d : List String,
      d <+: (items.filter (fun n => !stringsContains name n)).map (staticPodName "etcd") ∧
      dialled (w.removeMemberForNode name s).2.log = dialled s.log ++ d := by
  have hrec : dialled (w.removeMemberForNode name s).2.log =
      dialled (w.removeMemberCore name s).2.log := by
    simp [Workload.removeMemberForNode, State.record, dialled_append, dialled]
  rw [hrec]
  simp only [Workload.removeMemberCore, Workload.nodes, hnodes]
  have h0 : dialled (s.record Event.getControlPlaneNodes).log = dialled s.log :=
    dialled_record _ _ rfl
  split
  · exact ⟨[], List.nil_prefix, by simpa using h0⟩
  · split
    · exact ⟨[], List.nil_prefix, by simpa using h0⟩
    · rename_i gen _
      obtain ⟨d, hpre, hlog⟩ := dialled_ForFirstAvailableNode gen
        (items.filter (fun n => !stringsContains name n)) (s.record Event.getControlPlaneNodes)
      rw [h0] at hlog
      refine ⟨d, hpre, ?_⟩
      split
      · rename_i heq
        rw [heq] at hlog
        exact hlog
      · rename_i heq
        rw [heq] at hlog
        rw [dialled_record _ Event.nilDereference rfl]
        exact hlog
      · rename_i etcdClient s2 heq
        rw [heq] at hlog
        simp only [Client.Close]
        rw [dialled_record _ (Event.Close etcdClient) rfl, dialled_removeMemberBody]
        exact hlog

theorem dialled_failed (names : List String) :
    dialled (names.map (fun m => Event.createClient (staticPodName "etcd" m) none)) =
      names.map (staticPodName "etcd") := by
  induction names with
  | nil => rfl
  | cons m rest ih => simp [dialled, ih]

theorem ForFirstAvailableNode_fails {σ : Type} (c : ClientGenerator σ) (s : State σ)
    (names : List String) (errOf : String → Err)
    (hfail : ∀ m ∈ names,
      c.createClient s.world (staticPodName "etcd" m) = Except.error (errOf m)) :
    ∃ e : Err, c.ForFirstAvailableNode names s =
      ((none, some e),
        ⟨s.world,
          s.log ++ names.map (fun m => Event.createClient (staticPodName "etcd" m) none)⟩) := by
  unfold ClientGenerator.ForFirstAvailableNode
  cases names with
  | nil =>
    exact ⟨Err.text "invalid argument: forLeader can't be called with an empty list of nodes",
      by simp⟩
  | cons a l =>
    simp only [List.length_cons, Nat.add_one_ne_zero, if_false]
    rw [firstAvailableLoop_all_fail c s.world errOf (a :: l) [] s.log hfail]
    exact ⟨Err.wrap (Err.aggregate (errOf a :: l.map errOf))
      "could not establish a connection to any etcd node", by simp [NewAggregate, Wrap]⟩

/-- C20: the dials of `removeMemberForNode` are made, in inventory order, to
endpoints of an initial part of the inventory filtered to the names that are not
a substring of the target name, and the endpoint of the target name is not among
them; when the guard passes, a generator is configured and every dial fails, the
dials are exactly the endpoints of that filtered inventory. -/
theorem removeMemberForNode_avoids_target {σ : Type} (w : Workload σ) (name : String)
    (s : State σ) (items : List String)
    (hnodes : w.getControlPlaneNodes s.world = Except.ok items) :
    (∃ d : List String,
        d <+: (items.filter (fun n => !stringsContains name n)).map (staticPodName "etcd") ∧
        dialled (w.removeMemberForNode name s).2.log = dialled s.log ++ d ∧
        staticPodName "etcd" name ∉ d) ∧
      ∀ (gen : ClientGenerator σ) (errOf : String → Err),
        w.etcdClientGenerator = some gen →
        ¬ items.length < w.minimalNodeCount →
        (∀ n ∈ items, gen.createClient s.world (staticPodName "etcd" n) =
          Except.error (errOf n)) →
        dialled (w.removeMemberForNode name s).2.log =
          dialled s.log ++
            (items.filter (fun n => !stringsContains name n)).map (staticPodName "etcd") := by
  constructor
  · obtain ⟨d, hpre, hlog⟩ := dialled_removeMemberForNode w name s items hnodes
    refine ⟨d, hpre, hlog, ?_⟩
    intro hmem
    have hmem2 := hpre.subset hmem
    obtain ⟨n, hn, heq⟩ := List.mem_map.mp hmem2
    have hname : n = name := staticPodName_injective n name heq
    have hfilter := (List.mem_filter.mp hn).2
    rw [hname, stringsContains_self] at hfilter
    simp at hfilter
  · intro gen errOf hgen hguard hfail
    have hfail2 : ∀ n ∈ items.filter (fun n => !stringsContains name n),
        gen.createClient (s.record Event.getControlPlaneNodes).world (staticPodName "etcd" n) =
          Except.error (errOf n) :=
      fun n hn => hfail n (List.mem_filter.mp hn).1
    obtain ⟨e, he⟩ := ForFirstAvailableNode_fails gen (s.record Event.getControlPlaneNodes)
      (items.filter (fun n => !stringsContains name n)) errOf hfail2
    have hcore : (w.removeMemberCore name s).2 =
        ⟨s.world, s.log ++ [Event.getControlPlaneNodes] ++
          (items.filter (fun n => !stringsContains name n)).map
            (fun m => Event.createClient (staticPodName "etcd" m) none)⟩ := by
      simp only [Workload.removeMemberCore, Workload.nodes, hnodes, if_neg hguard, hgen, he]
      simp [State.record]
    simp only [Workload.removeMemberForNode, hcore, State.record, dialled_append, dialled_failed]
    simp [dialled]

/-- C20, on the test double: the removal of `cp-2` in the scenario of the spec
never dials `etcd-cp-2`, and with every endpoint down it dials exactly `etcd-cp-1`
and `etcd-cp-3`. -/
theorem removeMemberForNode_avoids_target_witness :
    "etcd-cp-2" ∉ dialled ((fakeWorkload 2).removeMemberForNode "cp-2" ⟨scenario, []⟩).2.log ∧
      dialled ((fakeWorkload 2).removeMemberForNode "cp-2" ⟨allDown, []⟩).2.log =
        ["etcd-cp-1", "etcd-cp-3"] := by
  constructor
  · obtain ⟨d, _, hlog, hnot⟩ :=
      (removeMemberForNode_avoids_target (fakeWorkload 2) "cp-2" ⟨scenario, []⟩
        ["cp-1", "cp-2", "cp-3"] rfl).1
    rw [hlog]
    exact fun h => hnot (by simpa [dialled] using h)
  · exact (removeMemberForNode_avoids_target (fakeWorkload 2) "cp-2" ⟨allDown, []⟩
      ["cp-1", "cp-2", "cp-3"] rfl).2 fakeGenerator (fun _ => Err.text "connection refused")
      rfl (by decide)
      (fun n hn => by
        simp only [List.mem_cons, List.mem_singleton, List.not_mem_nil, or_false] at hn
        rcases hn with h | h | h <;> subst h <;> rfl)

/-! ## An unreachable leader node and overlapping node names -/

/-- C28: when the candidates before `p` are unreachable, the probe of `p`
resolves the leader to the node `n`, and the dial of `n` fails with an error that
`errors.Is` does not classify as `errEtcdNodeConnection`, `ForLeader` returns no
client and the error of that failed connection, itself not of the connectivity
class; the probe is closed and no candidate after `p` is dialled. -/
theorem ForLeader_leader_dial_fails {σ : Type} (c : ClientGenerator σ) (s : State σ)
    (pre post : List String) (p : String) (leader : Nat) (M : List Member) (L : Member)
    (n : String) (e : Err)
    (hpre : ∀ m ∈ pre, ∃ err, c.createClient s.world (staticPodName "etcd" m) = Except.error err)
    (hp : c.createClient s.world (staticPodName "etcd" p) = Except.ok leader)
    (hM : c.etcd.Members s.world ⟨s.log.length + pre.length, staticPodName "etcd" p, leader⟩ =
      Except.ok M)
    (hL : M.find? (fun member => member.ID == leader) = some L)
    (hn : (pre ++ p :: post).find? (fun name => stringsContains L.Name name) = some n)
    (hne : n ≠ "")
    (hdial : c.createClient s.world (staticPodName "etcd" n) = Except.error e)
    (hnot : isEtcdNodeConnection e = false) :
    c.ForLeader (pre ++ p :: post) s =
        ((none, some (Err.wrap (Err.aggregate [e])
            "could not establish a connection to any etcd node")),
          ⟨s.world,
            s.log ++ pre.map (fun m => Event.createClient (staticPodName "etcd" m) none) ++
              [Event.createClient (staticPodName "etcd" p)
                  (some ⟨s.log.length + pre.length, staticPodName "etcd" p, leader⟩),
                Event.Members ⟨s.log.length + pre.length, staticPodName "etcd" p, leader⟩
                  (some M),
                Event.createClient (staticPodName "etcd" n) none,
                Event.Close ⟨s.log.length + pre.length, staticPodName "etcd" p, leader⟩]⟩) ∧
      isEtcdNodeConnection (Err.wrap (Err.aggregate [e])
        "could not establish a connection to any etcd node") = false := by
  obtain ⟨errs, hreach⟩ := ForLeader_reaches c s pre post p hpre
  have hlen : (s.log ++ pre.map
      (fun m => Event.createClient (staticPodName "etcd" m) none)).length =
      s.log.length + pre.length := by simp
  have hg := getLeaderClient_resolved c p (pre ++ p :: post)
    ⟨s.world, s.log ++ pre.map (fun m => Event.createClient (staticPodName "etcd" m) none)⟩
    leader M L n hp (by simpa only [hlen] using hM) hL hn hne
  simp only [hlen] at hg
  have hclass : isEtcdNodeConnection (Err.wrap (Err.aggregate [e])
      "could not establish a connection to any etcd node") = false := by
    simp [isEtcdNodeConnection, anyIsEtcdNodeConnection, hnot]
  have hE : c.ForFirstAvailableNode [n]
      ⟨s.world, s.log ++ pre.map (fun m => Event.createClient (staticPodName "etcd" m) none) ++
        [Event.createClient (staticPodName "etcd" p)
            (some ⟨s.log.length + pre.length, staticPodName "etcd" p, leader⟩),
          Event.Members ⟨s.log.length + pre.length, staticPodName "etcd" p, leader⟩
            (some M)]⟩ =
      ((none, some (Err.wrap (Err.aggregate [e])
          "could not establish a connection to any etcd node")),
        ⟨s.world, s.log ++ pre.map (fun m => Event.createClient (staticPodName "etcd" m) none) ++
          [Event.createClient (staticPodName "etcd" p)
              (some ⟨s.log.length + pre.length, staticPodName "etcd" p, leader⟩),
            Event.Members ⟨s.log.length + pre.length, staticPodName "etcd" p, leader⟩ (some M),
            Event.createClient (staticPodName "etcd" n) none]⟩) := by
    simp [ClientGenerator.ForFirstAvailableNode, ClientGenerator.firstAvailableLoop,
      ClientGenerator.dial, hdial, State.record, NewAggregate, Wrap]
  refine ⟨?_, hclass⟩
  rw [hreach, ClientGenerator.leaderLoop, hg, hE]
  simp [hclass, State.record]

/-- C28, on the test double: the probe of `cp-1` resolves the leader to `cp-2`,
whose endpoint refuses the connection; `ForLeader` returns that failure and never
probes `cp-2` or `cp-3`. -/
theorem ForLeader_leader_dial_fails_witness :
    fakeGenerator.ForLeader ([] ++ "cp-1" :: ["cp-2", "cp-3"]) ⟨leaderDown, []⟩ =
        ((none, some (Err.wrap (Err.aggregate [Err.text "connection refused"])
            "could not establish a connection to any etcd node")),
          ⟨leaderDown,
            [Event.createClient "etcd-cp-1" (some ⟨0, "etcd-cp-1", 2⟩),
             Event.Members ⟨0, "etcd-cp-1", 2⟩ (some leaderDown.members),
             Event.createClient "etcd-cp-2" none,
             Event.Close ⟨0, "etcd-cp-1", 2⟩]⟩) ∧
      isEtcdNodeConnection (Err.wrap (Err.aggregate [Err.text "connection refused"])
        "could not establish a connection to any etcd node") = false :=
  ForLeader_leader_dial_fails fakeGenerator ⟨leaderDown, []⟩ [] ["cp-2", "cp-3"] "cp-1" 2
    leaderDown.members ⟨2, "etcd-cp-2"⟩ "cp-2" (Err.text "connection refused")
    (fun m hm => absurd hm (List.not_mem_nil m)) rfl rfl (by decide) (by decide) (by decide)
    rfl rfl

/-- C30: when the inventory passes the guard, a generator is configured and the
target name contains the name of every live node, the candidate list of
`removeMemberForNode` is empty: the call returns the invalid-argument error of
`ForFirstAvailableNode` wrapped as "failed to create etcd client", and the log
gains only the inventory call and the return marker, so nothing is dialled, listed
or removed. -/
theorem removeMemberForNode_excludes_all {σ : Type} (w : Workload σ) (gen : ClientGenerator σ)
    (name : String) (s : State σ) (items : List String)
    (hgen : w.etcdClientGenerator = some gen)
    (hnodes : w.getControlPlaneNodes s.world = Except.ok items)
    (hguard : ¬ items.length < w.minimalNodeCount)
    (hsub : ∀ n ∈ items, stringsContains name n = true) :
    w.removeMemberForNode name s =
      (some (Err.wrap (Err.text
          "invalid argument: forLeader can't be called with an empty list of nodes")
          "failed to create etcd client"),
        ⟨s.world, s.log ++ [Event.getControlPlaneNodes,
          Event.removeMemberForNode name (some (Err.wrap (Err.text
            "invalid argument: forLeader can't be called with an empty list of nodes")
            "failed to create etcd client"))]⟩) := by
  have hfilter : items.filter (fun n => !stringsContains name n) = [] := by
    rw [List.filter_eq_nil_iff]
    intro n hn
    simp [hsub n hn]
  have hcore : w.removeMemberCore name s =
      (some (Err.wrap (Err.text
          "invalid argument: forLeader can't be called with an empty list of nodes")
          "failed to create etcd client"), s.record Event.getControlPlaneNodes) := by
    simp [Workload.removeMemberCore, Workload.nodes, hnodes, hguard, hgen, hfilter,
      ClientGenerator.ForFirstAvailableNode, Wrap]
  simp [Workload.removeMemberForNode, hcore, State.record]

/-- C30, on the test double: with the live nodes `cp-1` and `cp-10`, both
reachable, and a minimum of 2, the removal of `cp-10` excludes both nodes and
fails without any dial. -/
theorem removeMemberForNode_excludes_all_witness :
    overlapping.nodes.filter (fun n => !stringsContains "cp-10" n) = [] ∧
      (fakeWorkload 2).removeMemberForNode "cp-10" ⟨overlapping, []⟩ =
        (some (Err.wrap (Err.text
            "invalid argument: forLeader can't be called with an empty list of nodes")
            "failed to create etcd client"),
          ⟨overlapping, [Event.getControlPlaneNodes,
            Event.removeMemberForNode "cp-10" (some (Err.wrap (Err.text
              "invalid argument: forLeader can't be called with an empty list of nodes")
              "failed to create etcd client"))]⟩) :=
  ⟨by decide,
    removeMemberForNode_excludes_all (fakeWorkload 2) fakeGenerator "cp-10" ⟨overlapping, []⟩
      ["cp-1", "cp-10"] rfl rfl (by decide) (by decide)⟩

/-! ## The log only grows during removal and reconciliation -/

theorem grows_removeMember {σ : Type} (e : Etcd σ) (client : Client) (id : Nat) (s : State σ) :
    Grows s (e.removeMember client id s).2 :=
  List.prefix_append _ _

theorem grows_moveLeader {σ : Type} (e : Etcd σ) (client : Client) (id : Nat) (s : State σ) :
    Grows s (e.moveLeader client id s).2 :=
  List.prefix_append _ _

theorem grows_removeMemberBody {σ : Type} (gen : ClientGenerator σ) (client : Client)
    (name : String) (s : State σ) :
    Grows s (Workload.removeMemberBody gen client name s).2 := by
  unfold Workload.removeMemberBody
  have hm := grows_members gen.etcd client s
  split
  · rename_i err s1 heq
    rw [heq] at hm
    exact hm
  · rename_i members s1 heq
    rw [heq] at hm
    split
    · exact hm
    · rename_i member _
      have hr := grows_removeMember gen.etcd client member.ID s1
      split
      · rename_i err s2 heq2
        rw [heq2] at hr
        exact grows_trans hm hr
      · rename_i s2 heq2
        rw [heq2] at hr
        exact grows_trans hm hr

theorem grows_removeMemberCore {σ : Type} (w : Workload σ) (name : String) (s : State σ) :
    Grows s (w.removeMemberCore name s).2 := by
  unfold Workload.removeMemberCore
  have hn : Grows s (w.nodes s).2 := grows_record _ _
  split
  · rename_i err s1 heq
    rw [heq] at hn
    exact hn
  · rename_i items s1 heq
    rw [heq] at hn
    split
    · exact hn
    · split
      · exact hn
      · rename_i gen _
        have hf := grows_ForFirstAvailableNode gen
          (items.filter (fun n => !stringsContains name n)) s1
        simp only
        split
        · rename_i heq2
          rw [heq2] at hf
          exact grows_trans hn hf
        · rename_i heq2
          rw [heq2] at hf
          exact grows_trans (grows_trans hn hf) (grows_record _ _)
        · rename_i etcdClient s2 heq2
          rw [heq2] at hf
          exact grows_trans (grows_trans (grows_trans hn hf)
            (grows_removeMemberBody gen etcdClient name s2)) (grows_record _ _)

theorem grows_removeMemberForNode {σ : Type} (w : Workload σ) (name : String) (s : State σ) :
    Grows s (w.removeMemberForNode name s).2 :=
  grows_trans (grows_removeMemberCore w name s) (grows_record _ _)

theorem grows_reconcileLoop {σ : Type} (w : Workload σ) (nodeNames : List String) :
    ∀ (members : List Member) (removed : List String) (errs : List Err) (s : State σ),
      Grows s (w.reconcileLoop nodeNames members removed errs s).2 := by
  intro members
  induction members with
  | nil => intro removed errs s; exact grows_refl s
  | cons member rest ih =>
    intro removed errs s
    unfold Workload.reconcileLoop
    split
    · exact ih removed errs s
    · split
      · exact ih removed errs s
      · have hr := grows_removeMemberForNode w member.Name s
        split
        · rename_i err s1 heq
          rw [heq] at hr
          exact grows_trans hr (ih _ _ s1)
        · rename_i s1 heq
          rw [heq] at hr
          exact grows_trans hr (ih _ _ s1)

theorem grows_reconcileBody {σ : Type} (w : Workload σ) (gen : ClientGenerator σ)
    (client : Client) (nodeNames : List String) (s : State σ) :
    Grows s (w.reconcileBody gen client nodeNames s).2 := by
  unfold Workload.reconcileBody
  have hm := grows_members gen.etcd client s
  split
  · rename_i heq
    rw [heq] at hm
    exact hm
  · rename_i members s1 heq
    rw [heq] at hm
    exact grows_trans hm (grows_reconcileLoop w nodeNames members [] [] s1)

theorem grows_reconcileEtcdMember {σ : Type} (w : Workload σ) (gen : ClientGenerator σ)
    (nodeNames : List String) (nodeName : String) (s : State σ) :
    Grows s (w.reconcileEtcdMember gen nodeNames nodeName s).2 := by
  unfold Workload.reconcileEtcdMember
  have hf := grows_ForFirstAvailableNode gen [nodeName] s
  split
  · rename_i heq
    rw [heq] at hf
    exact hf
  · rename_i heq
    rw [heq] at hf
    exact grows_trans hf (grows_record _ _)
  · rename_i etcdClient s1 heq
    rw [heq] at hf
    exact grows_trans (grows_trans hf (grows_reconcileBody w gen etcdClient nodeNames s1))
      (grows_record _ _)

theorem grows_reconcileAll {σ : Type} (w : Workload σ) (gen : ClientGenerator σ)
    (nodeNames : List String) :
    ∀ (names : List String) (removed : List String) (errs : List Err) (s : State σ),
      Grows s (w.reconcileAll gen nodeNames names removed errs s).2 := by
  intro names
  induction names with
  | nil => intro removed errs s; exact grows_refl s
  | cons nodeName rest ih =>
    intro removed errs s
    unfold Workload.reconcileAll
    exact grows_trans (grows_reconcileEtcdMember w gen nodeNames nodeName s) (ih _ _ _)

theorem dialled_mono {σ : Type} {s t : State σ} (h : Grows s t) (endpoint : String)
    (hmem : endpoint ∈ dialled s.log) : endpoint ∈ dialled t.log := by
  obtain ⟨ext, hext⟩ := h
  rw [← hext, dialled_append]
  exact List.mem_append_left _ hmem

theorem dialled_reconcileEtcdMember {σ : Type} (w : Workload σ) (gen : ClientGenerator σ)
    (nodeNames : List String) (nodeName : String) (s : State σ) :
    staticPodName "etcd" nodeName ∈
      dialled (w.reconcileEtcdMember gen nodeNames nodeName s).2.log := by
  have hfirst : staticPodName "etcd" nodeName ∈
      dialled (gen.ForFirstAvailableNode [nodeName] s).2.log := by
    have hd := dialled_dial gen (staticPodName "etcd" nodeName) s
    simp only [ClientGenerator.ForFirstAvailableNode, List.length_singleton, Nat.add_one_ne_zero,
      if_false, ClientGenerator.firstAvailableLoop]
    split
    · rename_i err s1 heq
      rw [heq] at hd
      simp only at hd
      rw [hd]
      simp
    · rename_i client s1 heq
      rw [heq] at hd
      simp only at hd
      rw [hd]
      simp
  unfold Workload.reconcileEtcdMember
  split
  · rename_i heq
    rw [heq] at hfirst
    exact hfirst
  · rename_i heq
    rw [heq] at hfirst
    exact dialled_mono (grows_record _ _) _ hfirst
  · rename_i etcdClient s1 heq
    rw [heq] at hfirst
    exact dialled_mono (grows_trans (grows_reconcileBody w gen etcdClient nodeNames s1)
      (grows_record _ _)) _ hfirst

theorem dialled_reconcileAll {σ : Type} (w : Workload σ) (gen : ClientGenerator σ)
    (nodeNames : List String) :
    ∀ (names : List String) (removed : List String) (errs : List Err) (s : State σ),
      ∀ n ∈ names,
        staticPodName "etcd" n ∈ dialled (w.reconcileAll gen nodeNames names removed errs s).2.log := by
  intro names
  induction names with
  | nil => intro removed errs s n hn; exact absurd hn (List.not_mem_nil n)
  | cons nodeName rest ih =>
    intro removed errs s n hn
    unfold Workload.reconcileAll
    rcases List.mem_cons.mp hn with h | h
    · rw [h]
      exact dialled_mono (grows_reconcileAll w gen nodeNames rest _ _ _) _
        (dialled_reconcileEtcdMember w gen nodeNames nodeName s)
    · exact ih _ _ _ n h

/-! ## Unreachable nodes during reconciliation -/

theorem reconcileEtcdMember_dial_fails {σ : Type} (w : Workload σ) (gen : ClientGenerator σ)
    (nodeNames : List String) (n : String) (t : State σ) (e : Err)
    (hdial : gen.createClient t.world (staticPodName "etcd" n) = Except.error e) :
    w.reconcileEtcdMember gen nodeNames n t =
      (([], []), ⟨t.world, t.log ++ [Event.createClient (staticPodName "etcd" n) none]⟩) := by
  simp [Workload.reconcileEtcdMember, ClientGenerator.ForFirstAvailableNode,
    ClientGenerator.firstAvailableLoop, ClientGenerator.dial, hdial, State.record, NewAggregate,
    Wrap]

theorem reconcileEtcdMember_listing_fails {σ : Type} (w : Workload σ) (gen : ClientGenerator σ)
    (nodeNames : List String) (n : String) (t : State σ) (leader : Nat) (e : Err)
    (hdial : gen.createClient t.world (staticPodName "etcd" n) = Except.ok leader)
    (hlist : gen.etcd.Members t.world ⟨t.log.length, staticPodName "etcd" n, leader⟩ =
      Except.error e) :
    w.reconcileEtcdMember gen nodeNames n t =
      (([], []),
        ⟨t.world, t.log ++ [Event.createClient (staticPodName "etcd" n)
            (some ⟨t.log.length, staticPodName "etcd" n, leader⟩),
          Event.Members ⟨t.log.length, staticPodName "etcd" n, leader⟩ none,
          Event.Close ⟨t.log.length, staticPodName "etcd" n, leader⟩]⟩) := by
  simp [Workload.reconcileEtcdMember, ForFirstAvailableNode_single gen n t leader hdial,
    Workload.reconcileBody, Etcd.members, State.record, hlist, Client.Close]

theorem reconcileAll_unreachable {σ : Type} (w : Workload σ) (gen : ClientGenerator σ)
    (nodeNames : List String) (wd : σ) :
    ∀ (names : List String) (removed : List String) (errs : List Err) (log : List Event),
      (∀ n ∈ names,
        (∃ e, gen.createClient wd (staticPodName "etcd" n) = Except.error e) ∨
        (∀ c, ∃ e, gen.etcd.Members wd c = Except.error e)) →
      (w.reconcileAll gen nodeNames names removed errs ⟨wd, log⟩).1 = (removed, errs) ∧
        (w.reconcileAll gen nodeNames names removed errs ⟨wd, log⟩).2.world = wd := by
  intro names
  induction names with
  | nil =>
    intro removed errs log _
    exact ⟨rfl, rfl⟩
  | cons n rest ih =>
    intro removed errs log h
    have hrest : ∀ k ∈ rest,
        (∃ e, gen.createClient wd (staticPodName "etcd" k) = Except.error e) ∨
        (∀ c, ∃ e, gen.etcd.Members wd c = Except.error e) :=
      fun k hk => h k (List.mem_cons_of_mem n hk)
    unfold Workload.reconcileAll
    cases hd : gen.createClient wd (staticPodName "etcd" n) with
    | error e =>
      rw [reconcileEtcdMember_dial_fails w gen nodeNames n ⟨wd, log⟩ e hd]
      simpa using ih removed errs _ hrest
    | ok leader =>
      rcases h n (List.mem_cons_self n rest) with ⟨e, he⟩ | hall
      · rw [hd] at he
        cases he
      · obtain ⟨e, he⟩ := hall ⟨log.length, staticPodName "etcd" n, leader⟩
        rw [reconcileEtcdMember_listing_fails w gen nodeNames n ⟨wd, log⟩ leader e hd he]
        simpa using ih removed errs _ hrest

/-- C21: a node whose dial fails, or whose member listing fails, makes
`reconcileEtcdMember` return no names and no errors after that dial (and the
close of its client); `ReconcileEtcdMembers` dials the endpoint of every node of
its list whatever happens at the others; and when every node is unreachable in
one of these two ways the result is the empty list and a nil error, with the world
unchanged. -/
theorem ReconcileEtcdMembers_skips_unreachable {σ : Type} (w : Workload σ)
    (gen : ClientGenerator σ) (nodeNames : List String) (s : State σ)
    (hgen : w.etcdClientGenerator = some gen) :
    (∀ (n : String) (t : State σ) (e : Err),
        gen.createClient t.world (staticPodName "etcd" n) = Except.error e →
        w.reconcileEtcdMember gen nodeNames n t =
          (([], []), ⟨t.world, t.log ++ [Event.createClient (staticPodName "etcd" n) none]⟩)) ∧
      (∀ (n : String) (t : State σ) (leader : Nat) (e : Err),
        gen.createClient t.world (staticPodName "etcd" n) = Except.ok leader →
        gen.etcd.Members t.world ⟨t.log.length, staticPodName "etcd" n, leader⟩ =
          Except.error e →
        w.reconcileEtcdMember gen nodeNames n t =
          (([], []),
            ⟨t.world, t.log ++ [Event.createClient (staticPodName "etcd" n)
                (some ⟨t.log.length, staticPodName "etcd" n, leader⟩),
              Event.Members ⟨t.log.length, staticPodName "etcd" n, leader⟩ none,
              Event.Close ⟨t.log.length, staticPodName "etcd" n, leader⟩]⟩)) ∧
      (∀ n ∈ nodeNames,
        staticPodName "etcd" n ∈ dialled (w.ReconcileEtcdMembers nodeNames s).2.log) ∧
      ((∀ n ∈ nodeNames,
          (∃ e, gen.createClient s.world (staticPodName "etcd" n) = Except.error e) ∨
          (∀ c, ∃ e, gen.etcd.Members s.world c = Except.error e)) →
        (w.ReconcileEtcdMembers nodeNames s).1 = ([], none) ∧
          (w.ReconcileEtcdMembers nodeNames s).2.world = s.world) := by
  refine ⟨fun n t e h => reconcileEtcdMember_dial_fails w gen nodeNames n t e h,
    fun n t leader e h₁ h₂ => reconcileEtcdMember_listing_fails w gen nodeNames n t leader e h₁ h₂,
    ?_, ?_⟩
  · intro n hn
    simp only [Workload.ReconcileEtcdMembers, hgen]
    exact dialled_reconcileAll w gen nodeNames nodeNames [] [] s n hn
  · intro h
    have hall := reconcileAll_unreachable w gen nodeNames s.world nodeNames [] [] s.log h
    simp only [Workload.ReconcileEtcdMembers, hgen]
    refine ⟨?_, hall.2⟩
    rw [hall.1]
    simp [NewAggregate]

/-- C21, on the test double: with `cp-1` down the stale member is still found
through `cp-2` and all three endpoints are dialled; with every endpoint down the
result is empty and nil. -/
theorem ReconcileEtcdMembers_skips_unreachable_witness :
    ((fakeWorkload 2).ReconcileEtcdMembers ["cp-1", "cp-2", "cp-3"] ⟨staleFirstDown, []⟩).1 =
        (["etcd-cp-4"], none) ∧
      (∀ n ∈ ["cp-1", "cp-2", "cp-3"], staticPodName "etcd" n ∈
        dialled ((fakeWorkload 2).ReconcileEtcdMembers ["cp-1", "cp-2", "cp-3"]
          ⟨staleFirstDown, []⟩).2.log) ∧
      ((fakeWorkload 2).ReconcileEtcdMembers ["cp-1", "cp-2", "cp-3"] ⟨allDown, []⟩).1 =
        ([], none) ∧
      ((fakeWorkload 2).ReconcileEtcdMembers ["cp-1", "cp-2", "cp-3"] ⟨allDown, []⟩).2.world =
        allDown :=
  ⟨rfl,
    (ReconcileEtcdMembers_skips_unreachable (fakeWorkload 2) fakeGenerator
      ["cp-1", "cp-2", "cp-3"] ⟨staleFirstDown, []⟩ rfl).2.2.1,
    (ReconcileEtcdMembers_skips_unreachable (fakeWorkload 2) fakeGenerator
      ["cp-1", "cp-2", "cp-3"] ⟨allDown, []⟩ rfl).2.2.2
      (fun n hn => Or.inl ⟨Err.text "connection refused", by
        simp only [List.mem_cons, List.mem_singleton, List.not_mem_nil, or_false] at hn
        rcases hn with h | h | h <;> subst h <;> rfl⟩)⟩

/-! ## Reconciliation against an unchanged member list -/

theorem repeatList_length (k : Nat) (l : List String) :
    (repeatList k l).length = k * l.length := by
  induction k with
  | zero => simp [repeatList]
  | succ k ih =>
    simp only [repeatList, List.length_append, ih]
    rw [Nat.add_mul, Nat.one_mul, Nat.add_comm]

theorem inv_removeMemberBody {σ : Type} (gen : ClientGenerator σ) (I : σ → Prop)
    (hstep : ∀ wd c id, I wd → I (gen.etcd.RemoveMember wd c id).2)
    (client : Client) (name : String) (s : State σ) (hI : I s.world) :
    I (Workload.removeMemberBody gen client name s).2.world := by
  unfold Workload.removeMemberBody Etcd.members
  split
  · rename_i heq
    split at heq
    · cases heq
      exact hI
    · cases heq
  · rename_i members s1 heq
    have hw : s1.world = s.world := by
      split at heq
      · cases heq
      · cases heq
        rfl
    split
    · rw [hw]; exact hI
    · rename_i member _
      have hr : I (gen.etcd.removeMember client member.ID s1).2.world := by
        simp only [Etcd.removeMember]
        rw [hw]
        exact hstep _ _ _ hI
      split
      · rename_i heq2
        rw [heq2] at hr
        exact hr
      · rename_i heq2
        rw [heq2] at hr
        exact hr

theorem inv_removeMemberForNode {σ : Type} (w : Workload σ) (gen : ClientGenerator σ)
    (I : σ → Prop) (hgen : w.etcdClientGenerator = some gen)
    (hstep : ∀ wd c id, I wd → I (gen.etcd.RemoveMember wd c id).2)
    (name : String) (s : State σ) (hI : I s.world) :
    I (w.removeMemberForNode name s).2.world := by
  have hcore : I (w.removeMemberCore name s).2.world := by
    unfold Workload.removeMemberCore
    have hn : (w.nodes s).2.world = s.world := rfl
    split
    · rename_i err s1 heq
      rw [heq] at hn
      simp only at hn ⊢
      rw [hn]
      exact hI
    · rename_i items s1 heq
      rw [heq] at hn
      simp only at hn
      split
      · simp only
        rw [hn]
        exact hI
      · simp only [hgen]
        have hq := Quiet.ForFirstAvailableNode gen
          (items.filter (fun n => !stringsContains name n)) s1
        split
        · rename_i heq2
          rw [heq2] at hq
          simp only
          rw [hq.1, hn]
          exact hI
        · rename_i heq2
          rw [heq2] at hq
          simp only [State.record]
          rw [hq.1, hn]
          exact hI
        · rename_i etcdClient s2 heq2
          rw [heq2] at hq
          exact inv_removeMemberBody gen I hstep etcdClient name s2
            (by rw [hq.1, hn]; exact hI)
  exact hcore

theorem inv_reconcileLoop {σ : Type} (w : Workload σ) (gen : ClientGenerator σ)
    (I : σ → Prop) (hgen : w.etcdClientGenerator = some gen)
    (hstep : ∀ wd c id, I wd → I (gen.etcd.RemoveMember wd c id).2)
    (nodeNames : List String) :
    ∀ (members : List Member) (removed : List String) (errs : List Err) (s : State σ),
      I s.world → I (w.reconcileLoop nodeNames members removed errs s).2.world := by
  intro members
  induction members with
  | nil => intro removed errs s hI; exact hI
  | cons member rest ih =>
    intro removed errs s hI
    unfold Workload.reconcileLoop
    split
    · exact ih removed errs s hI
    · split
      · exact ih removed errs s hI
      · have hr := inv_removeMemberForNode w gen I hgen hstep member.Name s hI
        split
        · rename_i err s1 heq
          rw [heq] at hr
          exact ih _ _ s1 hr
        · rename_i s1 heq
          rw [heq] at hr
          exact ih _ _ s1 hr

/-- A node that connects and lists `M` reports the stale names of `M`, whatever
the removals do, and keeps the world inside `I`. -/
theorem reconcileEtcdMember_reports {σ : Type} (w : Workload σ) (gen : ClientGenerator σ)
    (I : σ → Prop) (hgen : w.etcdClientGenerator = some gen)
    (hstep : ∀ wd c id, I wd → I (gen.etcd.RemoveMember wd c id).2)
    (nodeNames : List String) (n : String) (t : State σ) (leader : Nat) (M : List Member)
    (hI : I t.world)
    (hdial : gen.createClient t.world (staticPodName "etcd" n) = Except.ok leader)
    (hM : gen.etcd.Members t.world ⟨t.log.length, staticPodName "etcd" n, leader⟩ = Except.ok M) :
    (w.reconcileEtcdMember gen nodeNames n t).1.1 =
        (M.filter (fun m => decide (m.Name ≠ "") &&
          !nodeNames.any (fun k => stringsContains m.Name k))).map (fun m => m.Name) ∧
      I (w.reconcileEtcdMember gen nodeNames n t).2.world := by
  have hbody : w.reconcileBody gen ⟨t.log.length, staticPodName "etcd" n, leader⟩ nodeNames
      (t.record (Event.createClient (staticPodName "etcd" n)
        (some ⟨t.log.length, staticPodName "etcd" n, leader⟩))) =
      w.reconcileLoop nodeNames M [] []
        ((t.record (Event.createClient (staticPodName "etcd" n)
          (some ⟨t.log.length, staticPodName "etcd" n, leader⟩))).record
          (Event.Members ⟨t.log.length, staticPodName "etcd" n, leader⟩ (some M))) := by
    simp [Workload.reconcileBody, Etcd.members, State.record, hM]
  obtain ⟨att, _, h2, _, h4⟩ := reconcileLoop_attempts w nodeNames M [] []
    ((t.record (Event.createClient (staticPodName "etcd" n)
      (some ⟨t.log.length, staticPodName "etcd" n, leader⟩))).record
      (Event.Members ⟨t.log.length, staticPodName "etcd" n, leader⟩ (some M)))
  have hinv := inv_reconcileLoop w gen I hgen hstep nodeNames M [] []
    ((t.record (Event.createClient (staticPodName "etcd" n)
      (some ⟨t.log.length, staticPodName "etcd" n, leader⟩))).record
      (Event.Members ⟨t.log.length, staticPodName "etcd" n, leader⟩ (some M))) hI
  simp only [Workload.reconcileEtcdMember, ForFirstAvailableNode_single gen n t leader hdial,
    hbody]
  constructor
  · rw [h2, ← h4]
    simp
  · exact hinv

theorem reconcileAll_repeats {σ : Type} (w : Workload σ) (gen : ClientGenerator σ)
    (I : σ → Prop) (hgen : w.etcdClientGenerator = some gen)
    (hstep : ∀ wd c id, I wd → I (gen.etcd.RemoveMember wd c id).2)
    (nodeNames : List String) (M : List Member) (up : String → Bool)
    (hM : ∀ wd c, I wd → gen.etcd.Members wd c = Except.ok M) :
    ∀ (names : List String) (removed : List String) (errs : List Err) (t : State σ),
      I t.world →
      (∀ wd, I wd → ∀ n ∈ names, up n = true →
        ∃ leader, gen.createClient wd (staticPodName "etcd" n) = Except.ok leader) →
      (∀ wd, I wd → ∀ n ∈ names, up n = false →
        ∃ e, gen.createClient wd (staticPodName "etcd" n) = Except.error e) →
      (w.reconcileAll gen nodeNames names removed errs t).1.1 =
        removed ++ repeatList (names.filter up).length
          ((M.filter (fun m => decide (m.Name ≠ "") &&
            !nodeNames.any (fun k => stringsContains m.Name k))).map (fun m => m.Name)) := by
  intro names
  induction names with
  | nil =>
    intro removed errs t _ _ _
    simp [Workload.reconcileAll, repeatList]
  | cons n rest ih =>
    intro removed errs t hI hup hdown
    have hup2 : ∀ wd, I wd → ∀ k ∈ rest, up k = true →
        ∃ leader, gen.createClient wd (staticPodName "etcd" k) = Except.ok leader :=
      fun wd hw k hk => hup wd hw k (List.mem_cons_of_mem n hk)
    have hdown2 : ∀ wd, I wd → ∀ k ∈ rest, up k = false →
        ∃ e, gen.createClient wd (staticPodName "etcd" k) = Except.error e :=
      fun wd hw k hk => hdown wd hw k (List.mem_cons_of_mem n hk)
    unfold Workload.reconcileAll
    cases hn : up n with
    | true =>
      obtain ⟨leader, hdial⟩ := hup t.world hI n (List.mem_cons_self n rest) hn
      obtain ⟨hrep, hinv⟩ := reconcileEtcdMember_reports w gen I hgen hstep nodeNames n t leader M
        hI hdial (hM t.world _ hI)
      rw [ih _ _ _ hinv hup2 hdown2, hrep]
      simp [List.filter_cons, hn, repeatList]
    | false =>
      obtain ⟨e, hdial⟩ := hdown t.world hI n (List.mem_cons_self n rest) hn
      rw [reconcileEtcdMember_dial_fails w gen nodeNames n t e hdial]
      have hi := ih (removed ++ []) (errs ++ [])
        ⟨t.world, t.log ++ [Event.createClient (staticPodName "etcd" n) none]⟩ hI hup2 hdown2
      simp only [hi]
      simp [List.filter_cons, hn]

/-- C29: when the store stays inside a set of worlds in which every client lists
the same members `M`, each node marked `up` connects and each other node fails to
connect, `ReconcileEtcdMembers` returns the stale names of `M` repeated once per
`up` node, so the length of the list is the number of `up` nodes times the number
of stale members; the returned names are those of the removal attempts and the
returned error is the aggregate of the errors of the failed attempts, one each. -/
theorem ReconcileEtcdMembers_repeats_stale {σ : Type} (w : Workload σ)
    (gen : ClientGenerator σ) (nodeNames : List String) (s : State σ) (M : List Member)
    (up : String → Bool) (I : σ → Prop)
    (hgen : w.etcdClientGenerator = some gen)
    (hI : I s.world)
    (hstep : ∀ wd c id, I wd → I (gen.etcd.RemoveMember wd c id).2)
    (hM : ∀ wd c, I wd → gen.etcd.Members wd c = Except.ok M)
    (hup : ∀ wd, I wd → ∀ n ∈ nodeNames, up n = true →
      ∃ leader, gen.createClient wd (staticPodName "etcd" n) = Except.ok leader)
    (hdown : ∀ wd, I wd → ∀ n ∈ nodeNames, up n = false →
      ∃ e, gen.createClient wd (staticPodName "etcd" n) = Except.error e) :
    (w.ReconcileEtcdMembers nodeNames s).1.1 =
        repeatList (nodeNames.filter up).length
          ((M.filter (fun m => decide (m.Name ≠ "") &&
            !nodeNames.any (fun k => stringsContains m.Name k))).map (fun m => m.Name)) ∧
      (w.ReconcileEtcdMembers nodeNames s).1.1.length =
        (nodeNames.filter up).length *
          (M.filter (fun m => decide (m.Name ≠ "") &&
            !nodeNames.any (fun k => stringsContains m.Name k))).length ∧
      ∃ att : List (String × Option Err),
        removalAttempts (w.ReconcileEtcdMembers nodeNames s).2.log =
          removalAttempts s.log ++ att ∧
        (w.ReconcileEtcdMembers nodeNames s).1.1 = att.map Prod.fst ∧
        (w.ReconcileEtcdMembers nodeNames s).1.2 = NewAggregate (att.filterMap Prod.snd) := by
  have hrep := reconcileAll_repeats w gen I hgen hstep nodeNames M up hM nodeNames [] [] s hI
    hup hdown
  obtain ⟨att, h1, h2, h3, _⟩ := reconcileAll_attempts w gen nodeNames nodeNames [] [] s
  simp only [Workload.ReconcileEtcdMembers, hgen]
  refine ⟨by simpa using hrep, ?_, att, h1, by simpa using h2, ?_⟩
  · rw [hrep]
    simp [repeatList_length]
  · simp only [h3, List.nil_append]

/-- C29, on the test double in front of a store that refuses removals: the
stale name `etcd-cp-4` is returned three times, once per node, with the three
failures aggregated. -/
theorem ReconcileEtcdMembers_repeats_stale_witness :
    ((stuckWorkload 2).ReconcileEtcdMembers ["cp-1", "cp-2", "cp-3"] ⟨withStale, []⟩).1 =
        (["etcd-cp-4", "etcd-cp-4", "etcd-cp-4"],
          some (Err.aggregate
            [Err.wrap (Err.text "etcdserver: unhealthy cluster")
                "failed to remove member from etcd",
              Err.wrap (Err.text "etcdserver: unhealthy cluster")
                "failed to remove member from etcd",
              Err.wrap (Err.text "etcdserver: unhealthy cluster")
                "failed to remove member from etcd"])) ∧
      ((stuckWorkload 2).ReconcileEtcdMembers ["cp-1", "cp-2", "cp-3"] ⟨withStale, []⟩).1.1 =
        repeatList 3 ["etcd-cp-4"] ∧
      ((stuckWorkload 2).ReconcileEtcdMembers ["cp-1", "cp-2", "cp-3"]
        ⟨withStale, []⟩).1.1.length = 3 * 1 :=
  ⟨rfl,
    (ReconcileEtcdMembers_repeats_stale (stuckWorkload 2) stuckGenerator
      ["cp-1", "cp-2", "cp-3"] ⟨withStale, []⟩ withStale.members (fun _ => true)
      (fun f => f = withStale) rfl rfl
      (fun wd _ _ h => h)
      (fun wd _ h => by rw [h]; rfl)
      (fun wd h n hn _ => ⟨2, by
        rw [h]
        simp only [List.mem_cons, List.mem_singleton, List.not_mem_nil, or_false] at hn
        rcases hn with h | h | h <;> subst h <;> rfl⟩)
      (fun _ _ _ _ h => absurd h (by simp))).1,
    (ReconcileEtcdMembers_repeats_stale (stuckWorkload 2) stuckGenerator
      ["cp-1", "cp-2", "cp-3"] ⟨withStale, []⟩ withStale.members (fun _ => true)
      (fun f => f = withStale) rfl rfl
      (fun wd _ _ h => h)
      (fun wd _ h => by rw [h]; rfl)
      (fun wd h n hn _ => ⟨2, by
        rw [h]
        simp only [List.mem_cons, List.mem_singleton, List.not_mem_nil, or_false] at hn
        rcases hn with h | h | h <;> subst h <;> rfl⟩)
      (fun _ _ _ _ h => absurd h (by simp))).2.1⟩

/-! ## Store-changing calls follow a fresh member listing -/

theorem freshActions_append (A B : List Event) (hB : ∀ prev, freshActions prev B = true) :
    ∀ prev, freshActions prev A = true → freshActions prev (A ++ B) = true := by
  induction A with
  | nil => intro prev _; exact hB prev
  | cons e rest ih =>
    intro prev h
    simp only [freshActions, Bool.and_eq_true] at h
    simp only [List.cons_append, freshActions, Bool.and_eq_true]
    exact ⟨h.1, ih (some e) h.2⟩

theorem freshActions_of_no_mutation (A : List Event) (hA : mutations A = []) :
    ∀ prev, freshActions prev A = true := by
  induction A with
  | nil => intro prev; rfl
  | cons e rest ih =>
    intro prev
    cases e <;> simp_all [mutations, freshActions, licensed]

theorem freshRun_refl {σ : Type} (s : State σ) : FreshRun s s :=
  ⟨[], by simp, fun _ => rfl⟩

theorem freshRun_then {σ : Type} {s t u : State σ} (h₁ : FreshRun s t) (h₂ : FreshRun t u) :
    FreshRun s u := by
  obtain ⟨a, ha, hfa⟩ := h₁
  obtain ⟨b, hb, hfb⟩ := h₂
  exact ⟨a ++ b, by rw [hb, ha, List.append_assoc],
    fun prev => freshActions_append a b hfb prev (hfa prev)⟩

theorem freshRun_of_quiet {σ : Type} {s t : State σ} (hq : Quiet s t) (hg : Grows s t) :
    FreshRun s t := by
  obtain ⟨ext, hext⟩ := hg
  refine ⟨ext, hext.symm, freshActions_of_no_mutation ext ?_⟩
  have h := hq.2
  rw [← hext, mutations_append] at h
  exact List.append_right_eq_self.mp h

theorem freshRun_note {σ : Type} (s : State σ) (e : Event) (he : mutations [e] = []) :
    FreshRun s (s.record e) :=
  freshRun_of_quiet (Quiet.record s e he) (grows_record s e)

theorem MemberForName_mem (M : List Member) (name : String) (m : Member)
    (h : MemberForName M name = some m) : m ∈ M :=
  List.mem_of_find?_eq_some h

theorem freshRun_removeMemberBody {σ : Type} (gen : ClientGenerator σ) (client : Client)
    (name : String) (s : State σ) :
    FreshRun s (Workload.removeMemberBody gen client name s).2 := by
  unfold Workload.removeMemberBody Etcd.members
  cases hM : gen.etcd.Members s.world client with
  | error err => exact freshRun_note s _ rfl
  | ok M =>
    simp only
    cases hfind : MemberForName M name with
    | none => exact freshRun_note s _ rfl
    | some member =>
      have hmem := MemberForName_mem M name member hfind
      have hrun : FreshRun s (gen.etcd.removeMember client member.ID
          (s.record (Event.Members client (some M)))).2 := by
        refine ⟨[Event.Members client (some M), Event.RemoveMember client member.ID], ?_, ?_⟩
        · simp [Etcd.removeMember, State.record]
        · intro prev
          simp only [freshActions, licensed, decide_True, Bool.true_and, Bool.and_true,
            List.any_eq_true, beq_iff_eq]
          exact ⟨member, hmem, rfl⟩
      simp only
      split
      · rename_i heq
        rw [heq] at hrun
        exact hrun
      · rename_i heq
        rw [heq] at hrun
        exact hrun

theorem freshRun_forwardBody {σ : Type} (gen : ClientGenerator σ) (client : Client)
    (machineNode candidateNode : String) (s : State σ) :
    FreshRun s (Workload.forwardBody gen client machineNode candidateNode s).2 := by
  unfold Workload.forwardBody Etcd.members
  cases hM : gen.etcd.Members s.world client with
  | error err => exact freshRun_note s _ rfl
  | ok M =>
    simp only
    cases hcur : MemberForName M machineNode with
    | none => exact freshRun_note s _ rfl
    | some cur =>
      simp only
      split
      · exact freshRun_note s _ rfl
      · cases hnext : MemberForName M candidateNode with
        | none => exact freshRun_note s _ rfl
        | some next =>
          have hmem := MemberForName_mem M candidateNode next hnext
          have hrun : FreshRun s (gen.etcd.moveLeader client next.ID
              (s.record (Event.Members client (some M)))).2 := by
            refine ⟨[Event.Members client (some M), Event.MoveLeader client next.ID], ?_, ?_⟩
            · simp [Etcd.moveLeader, State.record]
            · intro prev
              simp only [freshActions, licensed, decide_True, Bool.true_and, Bool.and_true,
                List.any_eq_true, beq_iff_eq]
              exact ⟨next, hmem, rfl⟩
          simp only
          split
          · rename_i heq
            rw [heq] at hrun
            exact hrun
          · rename_i heq
            rw [heq] at hrun
            exact hrun

theorem grows_ForLeader {σ : Type} (c : ClientGenerator σ) (names : List String)
    (s : State σ) : Grows s (c.ForLeader names s).2 := by
  unfold ClientGenerator.ForLeader
  split
  · exact grows_refl s
  · exact grows_leaderLoop c names names [] s

theorem freshRun_removeMemberForNode {σ : Type} (w : Workload σ) (name : String)
    (s : State σ) : FreshRun s (w.removeMemberForNode name s).2 := by
  have hcore : FreshRun s (w.removeMemberCore name s).2 := by
    unfold Workload.removeMemberCore
    have hn : FreshRun s (w.nodes s).2 := freshRun_note s _ rfl
    split
    · rename_i err s1 heq
      rw [heq] at hn
      exact hn
    · rename_i items s1 heq
      rw [heq] at hn
      split
      · exact hn
      · split
        · exact hn
        · rename_i gen _
          have hf : FreshRun s1 (gen.ForFirstAvailableNode
              (items.filter (fun n => !stringsContains name n)) s1).2 :=
            freshRun_of_quiet (Quiet.ForFirstAvailableNode gen _ s1)
              (grows_ForFirstAvailableNode gen _ s1)
          simp only
          split
          · rename_i heq2
            rw [heq2] at hf
            exact freshRun_then hn hf
          · rename_i heq2
            rw [heq2] at hf
            exact freshRun_then (freshRun_then hn hf) (freshRun_note _ Event.nilDereference rfl)
          · rename_i etcdClient s2 heq2
            rw [heq2] at hf
            exact freshRun_then (freshRun_then (freshRun_then hn hf)
              (freshRun_removeMemberBody gen etcdClient name s2))
              (freshRun_note _ (Event.Close etcdClient) rfl)
  exact freshRun_then hcore (freshRun_note _ (Event.removeMemberForNode name _) rfl)

theorem freshRun_ForwardEtcdLeadership {σ : Type} (w : Workload σ)
    (machine leaderCandidate : Option Machine) (s : State σ) :
    FreshRun s (w.ForwardEtcdLeadership machine leaderCandidate s).2 := by
  unfold Workload.ForwardEtcdLeadership
  split
  · exact freshRun_refl s
  · split
    · exact freshRun_refl s
    · split
      · exact freshRun_refl s
      · split
        · exact freshRun_refl s
        · rename_i gen _
          have hn : FreshRun s (w.nodes s).2 := freshRun_note s _ rfl
          split
          · rename_i err s1 heq
            rw [heq] at hn
            exact hn
          · rename_i nodeNames s1 heq
            rw [heq] at hn
            have hf : FreshRun s1 (gen.ForLeader nodeNames s1).2 :=
              freshRun_of_quiet (Quiet.ForLeader gen nodeNames s1)
                (grows_ForLeader gen nodeNames s1)
            split
            · rename_i heq2
              rw [heq2] at hf
              exact freshRun_then hn hf
            · rename_i heq2
              rw [heq2] at hf
              exact freshRun_then (freshRun_then hn hf)
                (freshRun_note _ Event.nilDereference rfl)
            · rename_i etcdClient s2 heq2
              rw [heq2] at hf
              exact freshRun_then (freshRun_then (freshRun_then hn hf)
                (freshRun_forwardBody gen etcdClient _ _ s2))
                (freshRun_note _ (Event.Close etcdClient) rfl)

theorem freshActions_of_run {σ : Type} {s t : State σ} (h : FreshRun s t) :
    freshActions none (t.log.drop s.log.length) = true := by
  obtain ⟨ext, hext, hf⟩ := h
  rw [hext, List.drop_left]
  exact hf none

/-- C24: among the log entries that one call of `removeMemberForNode` or of
`ForwardEtcdLeadership` adds, every `RemoveMember` and every `MoveLeader` entry
directly follows a successful `Members` entry of the same client whose list holds
a member with the targeted identifier. -/
theorem membership_actions_follow_fetch {σ : Type} (w : Workload σ) (s : State σ) :
    (∀ name : String,
        freshActions none ((w.removeMemberForNode name s).2.log.drop s.log.length) = true) ∧
      (∀ machine leaderCandidate : Option Machine,
        freshActions none
          ((w.ForwardEtcdLeadership machine leaderCandidate s).2.log.drop s.log.length) =
            true) :=
  ⟨fun name => freshActions_of_run (freshRun_removeMemberForNode w name s),
    fun machine leaderCandidate =>
      freshActions_of_run (freshRun_ForwardEtcdLeadership w machine leaderCandidate s)⟩

/-! ## Every client obtained is closed -/

theorem track_append (a b : List Event) :
    ∀ acc : List Client, track (a ++ b) acc = (track a acc).bind (track b) := by
  induction a with
  | nil => intro acc; rfl
  | cons e rest ih =>
    intro acc
    cases e with
    | createClient endpoint client =>
      cases client with
      | none => simp [track, ih]
      | some c => simp [track, ih]
    | Close client =>
      by_cases h : client ∈ acc <;> simp [track, h, ih]
    | getControlPlaneNodes => simp [track, ih]
    | Members client result => simp [track, ih]
    | RemoveMember client id => simp [track, ih]
    | MoveLeader client id => simp [track, ih]
    | removeMemberForNode name result => simp [track, ih]
    | nilDereference => simp [track, ih]

theorem tracked_refl {σ : Type} (s : State σ) : Tracked s s [] :=
  ⟨⟨[], by simp, fun acc _ => by simp [track]⟩, fun c hc => absurd hc (List.not_mem_nil c)⟩

theorem tracked_then {σ : Type} {s t u : State σ} {r₁ r₂ : List Client}
    (h₁ : Tracked s t r₁) (h₂ : Tracked t u r₂) : Tracked s u (r₁ ++ r₂) := by
  obtain ⟨⟨a, ha, hta⟩, hb₁⟩ := h₁
  obtain ⟨⟨b, hb, htb⟩, hb₂⟩ := h₂
  have hst : s.log.length ≤ t.log.length := by rw [ha]; simp
  have htu : t.log.length ≤ u.log.length := by rw [hb]; simp
  refine ⟨⟨a ++ b, by rw [hb, ha, List.append_assoc], ?_⟩, ?_⟩
  · intro acc hacc
    rw [track_append, hta acc hacc]
    simp only [Option.some_bind]
    rw [htb (acc ++ r₁), List.append_assoc]
    intro x hx
    rcases List.mem_append.mp hx with h | h
    · exact Nat.lt_of_lt_of_le (hacc x h) hst
    · exact (hb₁ x h).2
  · intro c hc
    rcases List.mem_append.mp hc with h | h
    · exact ⟨(hb₁ c h).1, Nat.lt_of_lt_of_le (hb₁ c h).2 htu⟩
    · exact ⟨Nat.le_trans hst (hb₂ c h).1, (hb₂ c h).2⟩

theorem tracked_note {σ : Type} (s : State σ) (e : Event)
    (he : ∀ acc, track [e] acc = some acc) : Tracked s (s.record e) [] :=
  ⟨⟨[e], rfl, fun acc _ => by simp [he acc]⟩, fun c hc => absurd hc (List.not_mem_nil c)⟩

theorem tracked_close {σ : Type} {s t : State σ} {c : Client} {r : List Client}
    (h : Tracked s t (c :: r)) : Tracked s (t.record (Event.Close c)) r := by
  obtain ⟨⟨a, ha, hta⟩, hb⟩ := h
  refine ⟨⟨a ++ [Event.Close c], by simp [State.record, ha], ?_⟩, ?_⟩
  · intro acc hacc
    have hc : c ∉ acc := by
      intro hmem
      have h1 := hacc c hmem
      have h2 := (hb c (List.mem_cons_self c r)).1
      omega
    rw [track_append, hta acc hacc]
    simp only [Option.some_bind, track, List.mem_append, List.mem_cons, true_or, or_true, if_true]
    rw [List.erase_append_right _ hc]
    simp
  · intro x hx
    have h := hb x (List.mem_cons_of_mem c hx)
    exact ⟨h.1, by simp only [State.record, List.length_append, List.length_singleton]; omega⟩

theorem tracked_dial {σ : Type} (c : ClientGenerator σ) (endpoint : String) (s : State σ) :
    Tracked s (c.dial endpoint s).2
      (match (c.dial endpoint s).1 with
        | Except.ok client => [client]
        | Except.error _ => []) := by
  unfold ClientGenerator.dial
  cases c.createClient s.world endpoint with
  | error err => exact tracked_note s _ (fun acc => rfl)
  | ok leader =>
    refine ⟨⟨[Event.createClient endpoint (some ⟨s.log.length, endpoint, leader⟩)], rfl,
      fun acc _ => by simp [track]⟩, ?_⟩
    intro x hx
    simp only [List.mem_singleton] at hx
    subst hx
    simp [State.record]

theorem tracked_firstAvailableLoop {σ : Type} (c : ClientGenerator σ) :
    ∀ (names : List String) (errs : List Err) (s : State σ),
      Tracked s (c.firstAvailableLoop names errs s).2
          (c.firstAvailableLoop names errs s).1.1.toList ∧
        ∀ e, (c.firstAvailableLoop names errs s).1.2 = some e →
          (c.firstAvailableLoop names errs s).1.1 = none := by
  intro names
  induction names with
  | nil =>
    intro errs s
    exact ⟨tracked_refl s, fun _ _ => rfl⟩
  | cons name rest ih =>
    intro errs s
    unfold ClientGenerator.firstAvailableLoop
    have hd := tracked_dial c (staticPodName "etcd" name) s
    split
    · rename_i err s1 heq
      rw [heq] at hd
      obtain ⟨ht, hex⟩ := ih (errs ++ [err]) s1
      exact ⟨by simpa using tracked_then hd ht, hex⟩
    · rename_i client s1 heq
      rw [heq] at hd
      exact ⟨hd, fun e he => by simp at he⟩

theorem tracked_ForFirstAvailableNode {σ : Type} (c : ClientGenerator σ) (names : List String)
    (s : State σ) :
    Tracked s (c.ForFirstAvailableNode names s).2 (c.ForFirstAvailableNode names s).1.1.toList ∧
      ∀ e, (c.ForFirstAvailableNode names s).1.2 = some e →
        (c.ForFirstAvailableNode names s).1.1 = none := by
  unfold ClientGenerator.ForFirstAvailableNode
  split
  · exact ⟨tracked_refl s, fun _ _ => rfl⟩
  · exact tracked_firstAvailableLoop c names [] s

theorem tracked_members {σ : Type} (e : Etcd σ) (client : Client) (s : State σ) :
    Tracked s (e.members client s).2 [] := by
  unfold Etcd.members
  split <;> exact tracked_note s _ (fun acc => rfl)

theorem tracked_removeMember {σ : Type} (e : Etcd σ) (client : Client) (id : Nat)
    (s : State σ) : Tracked s (e.removeMember client id s).2 [] :=
  ⟨⟨[Event.RemoveMember client id], rfl, fun acc _ => by simp [track]⟩,
    fun c hc => absurd hc (List.not_mem_nil c)⟩

theorem tracked_moveLeader {σ : Type} (e : Etcd σ) (client : Client) (id : Nat)
    (s : State σ) : Tracked s (e.moveLeader client id s).2 [] :=
  ⟨⟨[Event.MoveLeader client id], rfl, fun acc _ => by simp [track]⟩,
    fun c hc => absurd hc (List.not_mem_nil c)⟩

theorem tracked_getLeaderClientBody {σ : Type} (c : ClientGenerator σ) (client : Client)
    (nodeNames : List String) (s : State σ) :
    Tracked s (c.getLeaderClientBody client nodeNames s).2
        (c.getLeaderClientBody client nodeNames s).1.1.toList ∧
      ∀ e, (c.getLeaderClientBody client nodeNames s).1.2 = some e →
        (c.getLeaderClientBody client nodeNames s).1.1 = none := by
  unfold ClientGenerator.getLeaderClientBody
  have hm := tracked_members c.etcd client s
  split
  · rename_i heq
    rw [heq] at hm
    exact ⟨hm, fun _ _ => rfl⟩
  · rename_i members s1 heq
    rw [heq] at hm
    split
    · simp only
      split
      · exact ⟨hm, fun _ _ => rfl⟩
      · rename_i hne
        obtain ⟨ht, hex⟩ := tracked_ForFirstAvailableNode c
          [match nodeNames.find? (fun name => stringsContains (‹Member›).Name name) with
            | some name => name
            | none => ""] s1
        exact ⟨by simpa using tracked_then hm ht, hex⟩
    · exact ⟨hm, fun _ _ => rfl⟩

theorem tracked_getLeaderClient {σ : Type} (c : ClientGenerator σ) (nodeName : String)
    (nodeNames : List String) (s : State σ) :
    Tracked s (c.getLeaderClient nodeName nodeNames s).2
        (c.getLeaderClient nodeName nodeNames s).1.1.toList ∧
      ∀ e, (c.getLeaderClient nodeName nodeNames s).1.2 = some e →
        (c.getLeaderClient nodeName nodeNames s).1.1 = none := by
  unfold ClientGenerator.getLeaderClient
  obtain ⟨hf, hfex⟩ := tracked_ForFirstAvailableNode c [nodeName] s
  split
  · rename_i fst err s1 heq
    rw [heq] at hf hfex
    have hnone : fst = none := hfex err rfl
    subst hnone
    exact ⟨hf, fun _ _ => rfl⟩
  · rename_i s1 heq
    rw [heq] at hf
    exact ⟨by simpa using tracked_then hf (tracked_note s1 Event.nilDereference (fun acc => rfl)),
      fun _ _ => rfl⟩
  · rename_i client s1 heq
    rw [heq] at hf
    obtain ⟨hb, hbex⟩ := tracked_getLeaderClientBody c client nodeNames s1
    refine ⟨?_, hbex⟩
    have h := tracked_then hf hb
    simp only [Option.toList, List.singleton_append] at h
    exact tracked_close h

theorem tracked_leaderLoop {σ : Type} (c : ClientGenerator σ) (nodeNames : List String) :
    ∀ (names : List String) (errs : List Err) (s : State σ),
      Tracked s (c.leaderLoop nodeNames names errs s).2
          (c.leaderLoop nodeNames names errs s).1.1.toList ∧
        ∀ e, (c.leaderLoop nodeNames names errs s).1.2 = some e →
          (c.leaderLoop nodeNames names errs s).1.1 = none := by
  intro names
  induction names with
  | nil =>
    intro errs s
    exact ⟨tracked_refl s, fun _ _ => rfl⟩
  | cons name rest ih =>
    intro errs s
    unfold ClientGenerator.leaderLoop
    obtain ⟨hg, hgex⟩ := tracked_getLeaderClient c name nodeNames s
    split
    · rename_i fst err s1 heq
      rw [heq] at hg hgex
      have hnone : fst = none := hgex err rfl
      subst hnone
      split
      · obtain ⟨ht, hex⟩ := ih (errs ++ [err]) s1
        exact ⟨by simpa using tracked_then hg ht, hex⟩
      · exact ⟨hg, fun _ _ => rfl⟩
    · rename_i cl s1 heq
      rw [heq] at hg
      exact ⟨hg, fun e he => by simp at he⟩

theorem tracked_ForLeader {σ : Type} (c : ClientGenerator σ) (names : List String)
    (s : State σ) :
    Tracked s (c.ForLeader names s).2 (c.ForLeader names s).1.1.toList ∧
      ∀ e, (c.ForLeader names s).1.2 = some e → (c.ForLeader names s).1.1 = none := by
  unfold ClientGenerator.ForLeader
  split
  · exact ⟨tracked_refl s, fun _ _ => rfl⟩
  · exact tracked_leaderLoop c names names [] s

theorem tracked_removeMemberBody {σ : Type} (gen : ClientGenerator σ) (client : Client)
    (name : String) (s : State σ) :
    Tracked s (Workload.removeMemberBody gen client name s).2 [] := by
  unfold Workload.removeMemberBody
  have hm := tracked_members gen.etcd client s
  split
  · rename_i heq
    rw [heq] at hm
    exact hm
  · rename_i members s1 heq
    rw [heq] at hm
    split
    · exact hm
    · rename_i member _
      have hr := tracked_removeMember gen.etcd client member.ID s1
      split
      · rename_i heq2
        rw [heq2] at hr
        exact tracked_then hm hr
      · rename_i heq2
        rw [heq2] at hr
        exact tracked_then hm hr

theorem tracked_removeMemberForNode {σ : Type} (w : Workload σ) (name : String)
    (s : State σ) : Tracked s (w.removeMemberForNode name s).2 [] := by
  have hcore : Tracked s (w.removeMemberCore name s).2 [] := by
    unfold Workload.removeMemberCore
    have hn : Tracked s (w.nodes s).2 [] := tracked_note s _ (fun acc => rfl)
    split
    · rename_i heq
      rw [heq] at hn
      exact hn
    · rename_i items s1 heq
      rw [heq] at hn
      split
      · exact hn
      · split
        · exact hn
        · rename_i gen _
          obtain ⟨hf, hfex⟩ := tracked_ForFirstAvailableNode gen
            (items.filter (fun n => !stringsContains name n)) s1
          simp only
          split
          · rename_i fst err s2 heq2
            rw [heq2] at hf hfex
            have hnone : fst = none := hfex err rfl
            subst hnone
            exact tracked_then hn hf
          · rename_i s2 heq2
            rw [heq2] at hf
            exact tracked_then (tracked_then hn hf)
              (tracked_note s2 Event.nilDereference (fun acc => rfl))
          · rename_i etcdClient s2 heq2
            rw [heq2] at hf
            have h := tracked_then (tracked_then hn hf)
              (tracked_removeMemberBody gen etcdClient name s2)
            simp only [Option.toList, List.nil_append, List.append_nil] at h
            exact tracked_close h
  exact tracked_then hcore (tracked_note _ (Event.removeMemberForNode name _) (fun acc => rfl))

theorem tracked_reconcileLoop {σ : Type} (w : Workload σ) (nodeNames : List String) :
    ∀ (members : List Member) (removed : List String) (errs : List Err) (s : State σ),
      Tracked s (w.reconcileLoop nodeNames members removed errs s).2 [] := by
  intro members
  induction members with
  | nil => intro removed errs s; exact tracked_refl s
  | cons member rest ih =>
    intro removed errs s
    unfold Workload.reconcileLoop
    split
    · exact ih removed errs s
    · split
      · exact ih removed errs s
      · have hr := tracked_removeMemberForNode w member.Name s
        split
        · rename_i err s1 heq
          rw [heq] at hr
          exact tracked_then hr (ih _ _ s1)
        · rename_i s1 heq
          rw [heq] at hr
          exact tracked_then hr (ih _ _ s1)

theorem tracked_reconcileEtcdMember {σ : Type} (w : Workload σ) (gen : ClientGenerator σ)
    (nodeNames : List String) (nodeName : String) (s : State σ) :
    Tracked s (w.reconcileEtcdMember gen nodeNames nodeName s).2 [] := by
  unfold Workload.reconcileEtcdMember
  obtain ⟨hf, hfex⟩ := tracked_ForFirstAvailableNode gen [nodeName] s
  split
  · rename_i fst err s1 heq
    rw [heq] at hf hfex
    have hnone : fst = none := hfex err rfl
    subst hnone
    exact hf
  · rename_i s1 heq
    rw [heq] at hf
    exact tracked_then hf (tracked_note s1 Event.nilDereference (fun acc => rfl))
  · rename_i etcdClient s1 heq
    rw [heq] at hf
    have hbody : Tracked s1 (w.reconcileBody gen etcdClient nodeNames s1).2 [] := by
      unfold Workload.reconcileBody
      have hm := tracked_members gen.etcd etcdClient s1
      split
      · rename_i heq2
        rw [heq2] at hm
        exact hm
      · rename_i members s2 heq2
        rw [heq2] at hm
        exact tracked_then hm (tracked_reconcileLoop w nodeNames members [] [] s2)
    have h := tracked_then hf hbody
    simp only [Option.toList, List.append_nil] at h
    exact tracked_close h

theorem tracked_forwardBody {σ : Type} (gen : ClientGenerator σ) (client : Client)
    (machineNode candidateNode : String) (s : State σ) :
    Tracked s (Workload.forwardBody gen client machineNode candidateNode s).2 [] := by
  unfold Workload.forwardBody
  have hm := tracked_members gen.etcd client s
  split
  · rename_i heq
    rw [heq] at hm
    exact hm
  · rename_i members s1 heq
    rw [heq] at hm
    split
    · exact hm
    · split
      · exact hm
      · split
        · exact hm
        · rename_i nextLeader _
          have hr := tracked_moveLeader gen.etcd client nextLeader.ID s1
          split
          · rename_i heq2
            rw [heq2] at hr
            exact tracked_then hm hr
          · rename_i heq2
            rw [heq2] at hr
            exact tracked_then hm hr

theorem tracked_ForwardEtcdLeadership {σ : Type} (w : Workload σ)
    (machine leaderCandidate : Option Machine) (s : State σ) :
    Tracked s (w.ForwardEtcdLeadership machine leaderCandidate s).2 [] := by
  unfold Workload.ForwardEtcdLeadership
  split
  · exact tracked_refl s
  · split
    · exact tracked_refl s
    · split
      · exact tracked_refl s
      · split
        · exact tracked_refl s
        · rename_i gen _
          have hn : Tracked s (w.nodes s).2 [] := tracked_note s _ (fun acc => rfl)
          split
          · rename_i heq
            rw [heq] at hn
            exact hn
          · rename_i nodeNames s1 heq
            rw [heq] at hn
            obtain ⟨hf, hfex⟩ := tracked_ForLeader gen nodeNames s1
            split
            · rename_i fst err s2 heq2
              rw [heq2] at hf hfex
              have hnone : fst = none := hfex err rfl
              subst hnone
              exact tracked_then hn hf
            · rename_i s2 heq2
              rw [heq2] at hf
              exact tracked_then (tracked_then hn hf)
                (tracked_note s2 Event.nilDereference (fun acc => rfl))
            · rename_i etcdClient s2 heq2
              rw [heq2] at hf
              have key : ∀ t, Tracked s2 t [] → Tracked s t [etcdClient] := fun t ht => by
                simpa using tracked_then (tracked_then hn hf) ht
              exact tracked_close (key _ (tracked_forwardBody gen etcdClient _ _ s2))

theorem tracked_EtcdMembers {σ : Type} (w : Workload σ) (s : State σ) :
    Tracked s (w.EtcdMembers s).2 [] := by
  unfold Workload.EtcdMembers
  split
  · exact tracked_refl s
  · rename_i gen _
    have hn : Tracked s (w.nodes s).2 [] := tracked_note s _ (fun acc => rfl)
    split
    · rename_i heq
      rw [heq] at hn
      exact hn
    · rename_i nodeNames s1 heq
      rw [heq] at hn
      obtain ⟨hf, hfex⟩ := tracked_ForLeader gen nodeNames s1
      split
      · rename_i fst err s2 heq2
        rw [heq2] at hf hfex
        have hnone : fst = none := hfex err rfl
        subst hnone
        exact tracked_then hn hf
      · rename_i s2 heq2
        rw [heq2] at hf
        exact tracked_then (tracked_then hn hf)
          (tracked_note s2 Event.nilDereference (fun acc => rfl))
      · rename_i etcdClient s2 heq2
        rw [heq2] at hf
        have hbody : Tracked s2 (Workload.etcdMembersBody gen etcdClient s2).2 [] := by
          unfold Workload.etcdMembersBody
          have hm := tracked_members gen.etcd etcdClient s2
          split
          · rename_i heq3
            rw [heq3] at hm
            exact hm
          · rename_i heq3
            rw [heq3] at hm
            exact hm
        have h := tracked_then (tracked_then hn hf) hbody
        simp only [Option.toList, List.nil_append, List.append_nil] at h
        exact tracked_close h

theorem track_of_tracked {σ : Type} {s t : State σ} {r : List Client} (h : Tracked s t r) :
    track (t.log.drop s.log.length) [] = some r := by
  obtain ⟨⟨ext, hext, ht⟩, _⟩ := h
  rw [hext, List.drop_left]
  simpa using ht [] (fun a ha => absurd ha (List.not_mem_nil a))

/-- C23: the log entries that one call adds close only clients that are open,
each once, and leave open exactly the client that the call returns: for every
probe step `getLeaderClient` and for `ForLeader` the returned client, if any, and
nothing else, so that no probe is open when the next candidate is dialled or the
call returns; for `removeMemberForNode`, `reconcileEtcdMember`,
`ForwardEtcdLeadership` and `EtcdMembers` nothing at all. -/
theorem no_client_is_leaked {σ : Type} (w : Workload σ) (gen : ClientGenerator σ)
    (s : State σ) :
    (∀ (nodeName : String) (nodeNames : List String),
        track ((gen.getLeaderClient nodeName nodeNames s).2.log.drop s.log.length) [] =
          some (gen.getLeaderClient nodeName nodeNames s).1.1.toList) ∧
      (∀ nodeNames : List String,
        track ((gen.ForLeader nodeNames s).2.log.drop s.log.length) [] =
          some (gen.ForLeader nodeNames s).1.1.toList) ∧
      (∀ name : String,
        track ((w.removeMemberForNode name s).2.log.drop s.log.length) [] = some []) ∧
      (∀ (nodeNames : List String) (nodeName : String),
        track ((w.reconcileEtcdMember gen nodeNames nodeName s).2.log.drop s.log.length) [] =
          some []) ∧
      (∀ machine leaderCandidate : Option Machine,
        track ((w.ForwardEtcdLeadership machine leaderCandidate s).2.log.drop s.log.length) [] =
          some []) ∧
      track ((w.EtcdMembers s).2.log.drop s.log.length) [] = some [] :=
  ⟨fun nodeName nodeNames => track_of_tracked (tracked_getLeaderClient gen nodeName nodeNames s).1,
    fun nodeNames => track_of_tracked (tracked_ForLeader gen nodeNames s).1,
    fun name => track_of_tracked (tracked_removeMemberForNode w name s),
    fun nodeNames nodeName =>
      track_of_tracked (tracked_reconcileEtcdMember w gen nodeNames nodeName s),
    fun machine leaderCandidate =>
      track_of_tracked (tracked_ForwardEtcdLeadership w machine leaderCandidate s),
    track_of_tracked (tracked_EtcdMembers w s)⟩

/-! ## Reconciliation against a store that applies removals -/

theorem removedIDs_append (l₁ l₂ : List Event) :
    removedIDs (l₁ ++ l₂) = removedIDs l₁ ++ removedIDs l₂ := by
  induction l₁ with
  | nil => rfl
  | cons e l ih => cases e <;> simp [removedIDs, ih]

/-- One removal on the test double: when the first live node is reachable, the
guard passes, no live node name is contained in the name of `m` and the store
resolves that name to `m`, the call returns nil, the store loses the members with
the identifier of `m`, and one `RemoveMember` call for it is logged. -/
theorem fake_removeMemberForNode {k : Nat} (g : Fake) (log : List Event) (m : Member)
    (n0 : String) (restN : List String)
    (hnodes : g.nodes = n0 :: restN)
    (hreach : staticPodName "etcd" n0 ∉ g.down)
    (hguard : ¬ g.nodes.length < k)
    (hstale : ∀ n ∈ g.nodes, stringsContains m.Name n = false)
    (hfind : MemberForName g.members m.Name = some m) :
    ((fakeWorkload k).removeMemberForNode m.Name ⟨g, log⟩).1 = none ∧
      ((fakeWorkload k).removeMemberForNode m.Name ⟨g, log⟩).2.world =
        { g with members := g.members.filter (fun x => x.ID != m.ID) } ∧
      removedIDs ((fakeWorkload k).removeMemberForNode m.Name ⟨g, log⟩).2.log =
        removedIDs log ++ [m.ID] := by
  have hfilter : g.nodes.filter (fun n => !stringsContains m.Name n) = n0 :: restN := by
    rw [← hnodes, List.filter_eq_self]
    intro n hn
    simp [hstale n hn]
  have hcore : (fakeWorkload k).removeMemberCore m.Name ⟨g, log⟩ =
      (none, ⟨{ g with members := g.members.filter (fun x => x.ID != m.ID) },
        log ++ [Event.getControlPlaneNodes,
          Event.createClient (staticPodName "etcd" n0)
            (some ⟨log.length + 1, staticPodName "etcd" n0, g.leader⟩),
          Event.Members ⟨log.length + 1, staticPodName "etcd" n0, g.leader⟩ (some g.members),
          Event.RemoveMember ⟨log.length + 1, staticPodName "etcd" n0, g.leader⟩ m.ID,
          Event.Close ⟨log.length + 1, staticPodName "etcd" n0, g.leader⟩]⟩) := by
    simp [Workload.removeMemberCore, Workload.nodes, fakeWorkload, hguard, hfilter,
      ClientGenerator.ForFirstAvailableNode, ClientGenerator.firstAvailableLoop,
      ClientGenerator.dial, fakeGenerator, hreach, State.record, Workload.removeMemberBody,
      Etcd.members, fakeEtcd, hfind, Etcd.removeMember, Client.Close]
  simp [Workload.removeMemberForNode, hcore, State.record, removedIDs_append, removedIDs]

theorem find?_filter_of_find? {α : Type} (p q : α → Bool) :
    ∀ (l : List α) (a : α), l.find? p = some a → q a = true →
      (l.filter q).find? p = some a := by
  intro l
  induction l with
  | nil => intro a h _; simp at h
  | cons x xs ih =>
    intro a h hq
    by_cases hp : p x = true
    · have hx : x = a := by simpa [List.find?_cons, hp] using h
      subst hx
      simp [List.filter_cons, hq, List.find?_cons, hp]
    · have hrest : xs.find? p = some a := by simpa [List.find?_cons, hp] using h
      have hi := ih a hrest hq
      by_cases hqx : q x = true
      · simp [List.filter_cons, hqx, List.find?_cons, hp, hi]
      · simp [List.filter_cons, hqx, hi]

/-- The member loop on the test double: every stale member of `rest` is reported
and removed by one `RemoveMember` call, in order, and the store loses exactly the
members with those identifiers. -/
theorem fake_reconcileLoop {k : Nat} (N : List String) (n0 : String) (restN : List String)
    (hN : N = n0 :: restN) (hguard : ¬ N.length < k) :
    ∀ (rest : List Member) (removed : List String) (errs : List Err) (g : Fake)
      (log : List Event),
      g.nodes = N → staticPodName "etcd" n0 ∉ g.down →
      (rest.map (fun m => m.ID)).Nodup →
      (∀ m ∈ rest, isStale N m = true → MemberForName g.members m.Name = some m) →
      ((fakeWorkload k).reconcileLoop N rest removed errs ⟨g, log⟩).1 =
          (removed ++ (rest.filter (isStale N)).map (fun m => m.Name), errs) ∧
        ((fakeWorkload k).reconcileLoop N rest removed errs ⟨g, log⟩).2.world =
          { g with
            members := g.members.filter
              (fun x => !((rest.filter (isStale N)).map (fun m => m.ID)).contains x.ID) } ∧
        removedIDs ((fakeWorkload k).reconcileLoop N rest removed errs ⟨g, log⟩).2.log =
          removedIDs log ++ (rest.filter (isStale N)).map (fun m => m.ID) := by
  intro rest
  induction rest with
  | nil =>
    intro removed errs g log _ _ _ _
    simp [Workload.reconcileLoop]
  | cons m rest ih =>
    intro removed errs g log hnodes hreach hnodup hres
    have hnodup2 : (rest.map (fun m => m.ID)).Nodup := (List.nodup_cons.mp hnodup).2
    have hnotin : m.ID ∉ rest.map (fun m => m.ID) := (List.nodup_cons.mp hnodup).1
    have hres2 : ∀ x ∈ rest, isStale N x = true → MemberForName g.members x.Name = some x :=
      fun x hx => hres x (List.mem_cons_of_mem m hx)
    unfold Workload.reconcileLoop
    by_cases hname : m.Name = ""
    · have hst : isStale N m = false := by simp [isStale, hname]
      simpa [hname, List.filter_cons, hst] using ih removed errs g log hnodes hreach hnodup2 hres2
    · by_cases hany : N.any (fun n => stringsContains m.Name n) = true
      · have hst : isStale N m = false := by simp [isStale, hany]
        simpa [hname, hany, List.filter_cons, hst] using
          ih removed errs g log hnodes hreach hnodup2 hres2
      · have hanyf : N.any (fun n => stringsContains m.Name n) = false := by
          simpa using hany
        have hst : isStale N m = true := by simp [isStale, hname, hanyf]
        have hstale : ∀ n ∈ g.nodes, stringsContains m.Name n = false := by
          rw [hnodes]
          intro n hn
          have h := List.any_eq_false.mp hanyf n hn
          simpa using h
        have hfind := hres m (List.mem_cons_self m rest) hst
        obtain ⟨h1, h2, h3⟩ := fake_removeMemberForNode (k := k) g log m n0 restN
          (by rw [hnodes, hN]) hreach (by rw [hnodes]; exact hguard) hstale hfind
        rw [if_neg hname, if_neg hany]
        cases hrm : (fakeWorkload k).removeMemberForNode m.Name ⟨g, log⟩ with
        | mk res s1 =>
          rw [hrm] at h1 h2 h3
          simp only at h1 h2 h3
          subst h1
          have hres3 : ∀ x ∈ rest, isStale N x = true →
              MemberForName s1.world.members x.Name = some x := by
            intro x hx hxs
            rw [h2]
            have hne : (x.ID != m.ID) = true := by
              have : x.ID ≠ m.ID := by
                intro heq
                exact hnotin (heq ▸ List.mem_map_of_mem (fun m => m.ID) hx)
              simpa using this
            exact find?_filter_of_find? _ (fun y => y.ID != m.ID) g.members x
              (hres2 x hx hxs) hne
          obtain ⟨i1, i2, i3⟩ := ih (removed ++ [m.Name]) errs s1.world s1.log
            (by rw [h2]; exact hnodes) (by rw [h2]; exact hreach) hnodup2 hres3
          refine ⟨?_, ?_, ?_⟩
          · simp only [i1, List.filter_cons, hst, if_true, List.map_cons, List.append_assoc,
              List.singleton_append]
          · simp only [i2, h2, List.filter_cons, hst, if_true, List.map_cons, List.filter_filter]
            congr 1
            apply List.filter_congr
            intro y _
            simp only [List.contains_cons, Bool.not_or]
            cases hy : (y.ID == m.ID) <;> simp [bne, hy]
          · simp only [i3, h3, List.filter_cons, hst, if_true, List.map_cons, List.append_assoc,
              List.singleton_append]

theorem reconcileLoop_no_stale {σ : Type} (w : Workload σ) (N : List String) :
    ∀ (M : List Member) (removed : List String) (errs : List Err) (s : State σ),
      (∀ m ∈ M, isStale N m = false) →
      w.reconcileLoop N M removed errs s = ((removed, errs), s) := by
  intro M
  induction M with
  | nil => intro removed errs s _; rfl
  | cons m rest ih =>
    intro removed errs s h
    have hm := h m (List.mem_cons_self m rest)
    have hrest : ∀ x ∈ rest, isStale N x = false := fun x hx => h x (List.mem_cons_of_mem m hx)
    unfold Workload.reconcileLoop
    by_cases hname : m.Name = ""
    · simp [hname, ih removed errs s hrest]
    · have hany : N.any (fun n => stringsContains m.Name n) = true := by
        simpa [isStale, hname] using hm
      rw [if_neg hname, if_pos hany]
      exact ih removed errs s hrest

theorem fake_reconcileAll_no_stale {k : Nat} (N : List String) (g : Fake)
    (hclean : ∀ m ∈ g.members, isStale N m = false) :
    ∀ (names : List String) (removed : List String) (errs : List Err) (log : List Event),
      (∀ n ∈ names, staticPodName "etcd" n ∉ g.down) →
      ((fakeWorkload k).reconcileAll fakeGenerator N names removed errs ⟨g, log⟩).1 =
          (removed, errs) ∧
        ((fakeWorkload k).reconcileAll fakeGenerator N names removed errs ⟨g, log⟩).2.world = g ∧
        removedIDs ((fakeWorkload k).reconcileAll fakeGenerator N names removed errs
          ⟨g, log⟩).2.log = removedIDs log := by
  intro names
  induction names with
  | nil => intro removed errs log _; exact ⟨rfl, rfl, rfl⟩
  | cons n rest ih =>
    intro removed errs log hup
    have hn := hup n (List.mem_cons_self n rest)
    have hrest : ∀ x ∈ rest, staticPodName "etcd" x ∉ g.down :=
      fun x hx => hup x (List.mem_cons_of_mem n hx)
    have hnode : (fakeWorkload k).reconcileEtcdMember fakeGenerator N n ⟨g, log⟩ =
        (([], []), ⟨g, log ++ [Event.createClient (staticPodName "etcd" n)
            (some ⟨log.length, staticPodName "etcd" n, g.leader⟩),
          Event.Members ⟨log.length, staticPodName "etcd" n, g.leader⟩ (some g.members),
          Event.Close ⟨log.length, staticPodName "etcd" n, g.leader⟩]⟩) := by
      simp [Workload.reconcileEtcdMember, ClientGenerator.ForFirstAvailableNode,
        ClientGenerator.firstAvailableLoop, ClientGenerator.dial, fakeGenerator, hn,
        State.record, Workload.reconcileBody, Etcd.members, fakeEtcd,
        reconcileLoop_no_stale _ N g.members [] [] _ hclean, Client.Close]
    unfold Workload.reconcileAll
    rw [hnode]
    obtain ⟨i1, i2, i3⟩ := ih (removed ++ []) (errs ++ []) (log ++
      [Event.createClient (staticPodName "etcd" n)
          (some ⟨log.length, staticPodName "etcd" n, g.leader⟩),
        Event.Members ⟨log.length, staticPodName "etcd" n, g.leader⟩ (some g.members),
        Event.Close ⟨log.length, staticPodName "etcd" n, g.leader⟩]) hrest
    refine ⟨by simpa using i1, i2, ?_⟩
    simp only [i3, removedIDs_append]
    simp [removedIDs]

theorem fake_ReconcileEtcdMembers_stale {k : Nat} (f : Fake) (log : List Event)
    (N : List String) (n0 : String) (restN : List String) (hN : N = n0 :: restN)
    (hnodes : f.nodes = N)
    (hup : ∀ n ∈ N, staticPodName "etcd" n ∉ f.down)
    (hguard : ¬ N.length < k)
    (hid : (f.members.map (fun m => m.ID)).Nodup)
    (hres : ∀ m ∈ f.members, isStale N m = true →
      MemberForName f.members m.Name = some m) :
    ((fakeWorkload k).ReconcileEtcdMembers N ⟨f, log⟩).1 =
        ((f.members.filter (isStale N)).map (fun m => m.Name), none) ∧
      ((fakeWorkload k).ReconcileEtcdMembers N ⟨f, log⟩).2.world =
        { f with members := f.members.filter (fun m => !isStale N m) } ∧
      removedIDs ((fakeWorkload k).ReconcileEtcdMembers N ⟨f, log⟩).2.log =
        removedIDs log ++ (f.members.filter (isStale N)).map (fun m => m.ID) := by
  subst hN
  have hn0 : staticPodName "etcd" n0 ∉ f.down := hup n0 (List.mem_cons_self _ _)
  have hrestUp : ∀ n ∈ restN, staticPodName "etcd" n ∉ f.down :=
    fun n hn => hup n (List.mem_cons_of_mem _ hn)
  obtain ⟨l1, l2, l3⟩ := fake_reconcileLoop (k := k) (n0 :: restN) n0 restN rfl hguard
    f.members [] [] f
    (log ++ [Event.createClient (staticPodName "etcd" n0)
        (some ⟨log.length, staticPodName "etcd" n0, f.leader⟩),
      Event.Members ⟨log.length, staticPodName "etcd" n0, f.leader⟩ (some f.members)])
    hnodes hn0 hid hres
  have hfinal : f.members.filter
      (fun x => !((f.members.filter (isStale (n0 :: restN))).map (fun m => m.ID)).contains x.ID) =
      f.members.filter (fun m => !isStale (n0 :: restN) m) := by
    apply List.filter_congr
    intro x hx
    congr 1
    cases hs : isStale (n0 :: restN) x with
    | true =>
      have hmem : x.ID ∈ (f.members.filter (isStale (n0 :: restN))).map (fun m => m.ID) :=
        List.mem_map_of_mem (fun m => m.ID) (List.mem_filter.mpr ⟨hx, hs⟩)
      simp [hmem]
    | false =>
      rw [Bool.eq_false_iff]
      intro hc
      have hmem : x.ID ∈ (f.members.filter (isStale (n0 :: restN))).map (fun m => m.ID) := by
        simpa using hc
      obtain ⟨y, hyf, hyi⟩ := List.mem_map.mp hmem
      have hy := List.mem_filter.mp hyf
      have hxy : y = x := List.inj_on_of_nodup_map hid hy.1 hx hyi
      rw [hxy, hs] at hy
      exact Bool.noConfusion hy.2
  have hclean : ∀ m ∈ ({ f with
      members := f.members.filter (fun m => !isStale (n0 :: restN) m) } : Fake).members,
      isStale (n0 :: restN) m = false := by
    intro m hm
    have := (List.mem_filter.mp hm).2
    simpa using this
  have hnode : (fakeWorkload k).reconcileEtcdMember fakeGenerator (n0 :: restN) n0 ⟨f, log⟩ =
      (((fakeWorkload k).reconcileLoop (n0 :: restN) f.members [] []
          ⟨f, log ++ [Event.createClient (staticPodName "etcd" n0)
              (some ⟨log.length, staticPodName "etcd" n0, f.leader⟩),
            Event.Members ⟨log.length, staticPodName "etcd" n0, f.leader⟩
              (some f.members)]⟩).1,
        ((fakeWorkload k).reconcileLoop (n0 :: restN) f.members [] []
          ⟨f, log ++ [Event.createClient (staticPodName "etcd" n0)
              (some ⟨log.length, staticPodName "etcd" n0, f.leader⟩),
            Event.Members ⟨log.length, staticPodName "etcd" n0, f.leader⟩
              (some f.members)]⟩).2.record
          (Event.Close ⟨log.length, staticPodName "etcd" n0, f.leader⟩)) := by
    simp [Workload.reconcileEtcdMember, ClientGenerator.ForFirstAvailableNode,
      ClientGenerator.firstAvailableLoop, ClientGenerator.dial, fakeGenerator, hn0,
      State.record, Workload.reconcileBody, Etcd.members, fakeEtcd, Client.Close]
  rw [hfinal] at l2
  have hw : (((fakeWorkload k).reconcileLoop (n0 :: restN) f.members [] []
      ⟨f, log ++ [Event.createClient (staticPodName "etcd" n0)
          (some ⟨log.length, staticPodName "etcd" n0, f.leader⟩),
        Event.Members ⟨log.length, staticPodName "etcd" n0, f.leader⟩
          (some f.members)]⟩).2.record
      (Event.Close ⟨log.length, staticPodName "etcd" n0, f.leader⟩)) =
      ⟨{ f with members := f.members.filter (fun m => !isStale (n0 :: restN) m) },
        ((fakeWorkload k).reconcileLoop (n0 :: restN) f.members [] []
          ⟨f, log ++ [Event.createClient (staticPodName "etcd" n0)
              (some ⟨log.length, staticPodName "etcd" n0, f.leader⟩),
            Event.Members ⟨log.length, staticPodName "etcd" n0, f.leader⟩
              (some f.members)]⟩).2.log ++
          [Event.Close ⟨log.length, staticPodName "etcd" n0, f.leader⟩]⟩ := by
    simp [State.record, l2]
  obtain ⟨a1, a2, a3⟩ := fake_reconcileAll_no_stale (k := k) (n0 :: restN)
    { f with members := f.members.filter (fun m => !isStale (n0 :: restN) m) } hclean restN
    ([] ++ ([] ++ (f.members.filter (isStale (n0 :: restN))).map (fun m => m.Name)))
    ([] ++ [])
    (((fakeWorkload k).reconcileLoop (n0 :: restN) f.members [] []
      ⟨f, log ++ [Event.createClient (staticPodName "etcd" n0)
          (some ⟨log.length, staticPodName "etcd" n0, f.leader⟩),
        Event.Members ⟨log.length, staticPodName "etcd" n0, f.leader⟩
          (some f.members)]⟩).2.log ++
      [Event.Close ⟨log.length, staticPodName "etcd" n0, f.leader⟩]) hrestUp
  simp only [Workload.ReconcileEtcdMembers, fakeWorkload, Workload.reconcileAll]
  simp only [fakeWorkload] at hnode hw a1 a2 a3 l1 l3
  rw [hnode, hw, l1]
  dsimp only
  refine ⟨?_, a2, ?_⟩
  · rw [a1]
    simp [NewAggregate]
  · rw [a3, removedIDs_append, l3, removedIDs_append]
    simp [removedIDs]

/-- C22 as stated fails: all three live nodes are reachable, the guard passes, the
store applies removals and `etcd-cp-4` is the only stale member; yet
`ReconcileEtcdMembers` reports it twice and issues two removal calls, the first
for the live member 40, whose name contains `etcd-cp-4` and is listed first. -/
theorem ReconcileEtcdMembers_stale_once_counterexample :
    (∀ n ∈ shadowed.nodes, staticPodName "etcd" n ∉ shadowed.down) ∧
      ¬ shadowed.nodes.length < 2 ∧
      shadowed.members.filter (isStale shadowed.nodes) = [⟨4, "etcd-cp-4"⟩] ∧
      MemberForName shadowed.members "etcd-cp-4" = some ⟨40, "etcd-cp-40"⟩ ∧
      ((fakeWorkload 2).ReconcileEtcdMembers ["cp-40", "cp-2", "cp-3"] ⟨shadowed, []⟩).1 =
        (["etcd-cp-4", "etcd-cp-4"], none) ∧
      removedIDs ((fakeWorkload 2).ReconcileEtcdMembers ["cp-40", "cp-2", "cp-3"]
        ⟨shadowed, []⟩).2.log = [40, 4] ∧
      ((fakeWorkload 2).ReconcileEtcdMembers ["cp-40", "cp-2", "cp-3"]
        ⟨shadowed, []⟩).2.world.members = [⟨2, "etcd-cp-2"⟩, ⟨3, "etcd-cp-3"⟩] :=
  ⟨by decide, by decide, by decide, by decide, rfl, rfl, rfl⟩

/-- C22, amended: on the test double, whose store applies the removals it is asked for,
with at least one live node, every live node reachable, the guard passing, member
identifiers pairwise distinct and the name of every stale member resolving to that
member, `ReconcileEtcdMembers` over the inventory returns the names of the stale
members, each once and in store order, with a nil error; the `RemoveMember` calls
it issues are one per stale member, for its identifier and in the same order; and
the store is left with exactly the members that are not stale. -/
theorem ReconcileEtcdMembers_removes_each_stale_once (k : Nat) (f : Fake) (log : List Event)
    (hne : f.nodes ≠ [])
    (hup : ∀ n ∈ f.nodes, staticPodName "etcd" n ∉ f.down)
    (hguard : ¬ f.nodes.length < k)
    (hid : (f.members.map (fun m => m.ID)).Nodup)
    (hres : ∀ m ∈ f.members, isStale f.nodes m = true →
      MemberForName f.members m.Name = some m) :
    ((fakeWorkload k).ReconcileEtcdMembers f.nodes ⟨f, log⟩).1 =
        ((f.members.filter (isStale f.nodes)).map (fun m => m.Name), none) ∧
      ((fakeWorkload k).ReconcileEtcdMembers f.nodes ⟨f, log⟩).2.world =
        { f with members := f.members.filter (fun m => !isStale f.nodes m) } ∧
      removedIDs ((fakeWorkload k).ReconcileEtcdMembers f.nodes ⟨f, log⟩).2.log =
        removedIDs log ++ (f.members.filter (isStale f.nodes)).map (fun m => m.ID) := by
  obtain ⟨n0, restN, hN⟩ := List.exists_cons_of_ne_nil hne
  exact fake_ReconcileEtcdMembers_stale f log f.nodes n0 restN hN rfl hup hguard hid hres

/-- C22, amended, on the scenario of the spec: with the live nodes `cp-1`, `cp-2`, `cp-3`
and the members `etcd-cp-1` to `etcd-cp-4`, the result is `etcd-cp-4` alone and
the only `RemoveMember` call is for identifier 4. -/
theorem ReconcileEtcdMembers_removes_each_stale_once_witness :
    ((fakeWorkload 2).ReconcileEtcdMembers ["cp-1", "cp-2", "cp-3"] ⟨fourMembers, []⟩).1 =
        (["etcd-cp-4"], none) ∧
      ((fakeWorkload 2).ReconcileEtcdMembers ["cp-1", "cp-2", "cp-3"]
        ⟨fourMembers, []⟩).2.world = scenario ∧
      removedIDs ((fakeWorkload 2).ReconcileEtcdMembers ["cp-1", "cp-2", "cp-3"]
        ⟨fourMembers, []⟩).2.log = [4] :=
  ReconcileEtcdMembers_removes_each_stale_once 2 fourMembers [] (by decide) (by decide)
    (by decide) (by decide) (by decide)

/-! ## Certificates and registries -/

/-- C25, evaluated: the four certificates of an initial control plane are looked up
for cluster `default/c1` in a store that holds the secret `c1-cca` alone, with
both `tls.crt` and `tls.key`. No single lookup returns an error, the lookup of
the client CA returns its secret, and that secret converts to the key pair
`CERT`, `KEY`. Yet `Certificates.Lookup` returns nil at the first certificate,
whose secret is absent, and leaves every key pair nil, that of the client CA
included. -/
theorem Certificates_Lookup_stops_at_absent_secret :
    NewCertificatesForInitialControlPlane.map
        (fun c => (c.Lookup (storeReader onlyClientCA) ⟨"default", "c1"⟩).2) =
      [none, none, none, none] ∧
    NewCertificatesForInitialControlPlane.map
        (fun c => (c.Lookup (storeReader onlyClientCA) ⟨"default", "c1"⟩).1.map
          secretToKeyPair) =
      [none, some (some ⟨"CERT", "KEY"⟩, none), none, none] ∧
    (Certificates.Lookup NewCertificatesForInitialControlPlane (storeReader onlyClientCA)
        ⟨"default", "c1"⟩).1 = none ∧
    (Certificates.Lookup NewCertificatesForInitialControlPlane (storeReader onlyClientCA)
        ⟨"default", "c1"⟩).2.map Certificate.GetKeyPair = [none, none, none, none] := by
  refine ⟨?_, ?_, ?_, ?_⟩ <;> decide

/-- C26, evaluated: with two configs whose secrets are retrievable and valid,
`GenerateRegistries` returns a nil error and the mirror of the input, but the
returned `Configs` holds the config of the last round alone, in whichever order
the two configs are iterated. -/
theorem GenerateRegistries_keeps_last_config_only :
    (GenerateRegistries twoConfigs).2.2 = none ∧
    (GenerateRegistries twoConfigs).1.Mirrors =
      [("docker.io", { Endpoint := ["https://mirror.example.com"], Rewrite := [] })] ∧
    twoConfigs.Registry.Configs.map Prod.fst = ["a.example.com", "b.example.com"] ∧
    (GenerateRegistries twoConfigs).1.Configs = [("b.example.com", {})] ∧
    (GenerateRegistries twoConfigsReversed).2.2 = none ∧
    twoConfigsReversed.Registry.Configs.map Prod.fst = ["b.example.com", "a.example.com"] ∧
    (GenerateRegistries twoConfigsReversed).1.Configs =
      [("a.example.com",
        { Auth := some { Username := "admin", Password := "secret" }, TLS := none })] := by
  refine ⟨?_, ?_, ?_, ?_, ?_, ?_, ?_⟩ <;> decide

/-- C27, evaluated: the authentication secret of the one config is retrievable and
holds a user name alone, so neither a user name with a password nor an identity
token. `GenerateRegistries` returns the empty registry and the empty file list
together with a nil error. -/
theorem GenerateRegistries_incomplete_auth_returns_nil :
    incompleteAuth.Client ⟨"default", "incomplete"⟩ =
      Except.ok { Data := [("username", "admin")] } ∧
    GenerateRegistries incompleteAuth = ({}, [], none) := by
  refine ⟨?_, ?_⟩ <;> rfl

end Rke2
